import Mathlib

/-!
# qt-splash-screen: lifecycle gate and task orchestrator

A shallow embedding of `src/src/SplashScreenWidget.cpp`, `src/src/main.cpp`,
`src/example/MainWindow.cpp` (the orchestrator, the streaming task and the table
it fills) and of `InitializationWorker` in `src/src/MainWindow.cpp`.

Member variables keep their C++ names.  Calls into Qt objects owned by a class
(progress bar, status label, timers, the event loop) are recorded, in program
order, in an effect log carried by the state; the log is the observable
behaviour of a member function.  Every member function and every slot is one
transition of the state: `QApplication::processEvents()` is recorded as an effect
and the handlers the event loop may run are transitions of their own.

What a function takes from outside the program (random draws, the wall clock,
writes to `m_cancelled` by another thread, text formatting of floating-point
numbers and dates) is an explicit argument.  Behaviour of Qt classes that a
claim depends on (`QProgressBar`, `QTableWidget`, `Qt::BlockingQueuedConnection`)
is written out next to its use.
-/

namespace Splash

/-- The enum `SplashScreenWidget::ProgressMode`. -/
inductive ProgressMode
  | Indeterminate
  | Determinate
  deriving DecidableEq, Repr

/-- Calls the widget makes on the Qt objects it owns, and signals it emits. -/
inductive Effect
  /-- Call `m_progressBar->setMinimum(v)`. -/
  | barSetMinimum (v : Int)
  /-- Call `m_progressBar->setMaximum(v)`. -/
  | barSetMaximum (v : Int)
  /-- Call `m_progressBar->setValue(v)`. -/
  | barSetValue (v : Int)
  /-- Call `m_statusLabel->setText(text)`. -/
  | statusSetText (text : String)
  /-- Call `QApplication::processEvents()`. -/
  | processEvents
  /-- Call `m_elapsedTimer.start()`. -/
  | elapsedTimerStart
  /-- The block `move(...); show(); raise(); activateWindow();` of `startSplash`. -/
  | presentWindow
  /-- Call `m_bounceTimer->start(ms)`. -/
  | bounceTimerStart (ms : Int)
  /-- Call `m_bounceTimer->stop()`. -/
  | bounceTimerStop
  /-- Call `QTimer::singleShot(ms, this, &SplashScreenWidget::onMinimumDurationElapsed)`. -/
  | singleShotMinimumDuration (ms : Int)
  /-- Call `QTimer::singleShot(ms, this, [this]() { emit splashFinished(); close(); })`. -/
  | singleShotFinish (ms : Int)
  /-- Signal `emit progressChanged(current, total)`. -/
  | emitProgressChanged (current total : Int)
  /-- Signal `emit splashFinished()`. -/
  | emitSplashFinished
  /-- Call `close()`. -/
  | closeWindow
  deriving DecidableEq, Repr

/-- The data members of `SplashScreenWidget` that its logic reads or writes,
and the log of effects on the widgets and timers it owns. -/
structure SplashScreenWidget where
  m_progressPosition : Int
  m_bounceDirection : Int
  m_minimumDisplayDuration : Int
  m_totalSteps : Int
  m_currentStep : Int
  m_progressMode : ProgressMode
  m_minimumDurationElapsed : Bool
  m_finishRequested : Bool
  m_isClosed : Bool
  effects : List Effect
  deriving DecidableEq, Repr

/-- Constant `static constexpr int BOUNCE_STEP = 2;`. -/
def BOUNCE_STEP : Int := 2

/-- Constant `static constexpr int BOUNCE_INTERVAL_MS = 15;`. -/
def BOUNCE_INTERVAL_MS : Int := 15

/-- The constructor: the member initialisers followed by the progress-bar and
status-label set-up of `setupUi()`. -/
def construct : SplashScreenWidget :=
  { m_progressPosition := 0
    m_bounceDirection := 1
    m_minimumDisplayDuration := 2000
    m_totalSteps := 100
    m_currentStep := 0
    m_progressMode := ProgressMode.Indeterminate
    m_minimumDurationElapsed := false
    m_finishRequested := false
    m_isClosed := false
    effects := [Effect.barSetMinimum 0, Effect.barSetMaximum 100, Effect.barSetValue 0,
                Effect.statusSetText "Initializing..."] }

namespace SplashScreenWidget

/-- Append effects to the log. -/
def log (s : SplashScreenWidget) (es : List Effect) : SplashScreenWidget :=
  { s with effects := s.effects ++ es }

/-- Member function `setMinimumDisplayDuration(int milliseconds)`. -/
def setMinimumDisplayDuration (s : SplashScreenWidget) (milliseconds : Int) : SplashScreenWidget :=
  { s with m_minimumDisplayDuration := milliseconds }

/-- Member function `setTotalSteps(int steps)`. -/
def setTotalSteps (s : SplashScreenWidget) (steps : Int) : SplashScreenWidget :=
  { s with m_totalSteps := steps, effects := s.effects ++ [Effect.barSetMaximum steps] }

/-- Member function `setProgressMode(ProgressMode mode)`. -/
def setProgressMode (s : SplashScreenWidget) (mode : ProgressMode) : SplashScreenWidget :=
  let s := { s with m_progressMode := mode }
  if mode = ProgressMode.Indeterminate then
    s.log [Effect.barSetMaximum 100, Effect.barSetValue 0]
  else
    s.log [Effect.barSetMaximum s.m_totalSteps, Effect.barSetValue s.m_currentStep]

/-- Member function `setStatusMessage(const QString &message)`. -/
def setStatusMessage (s : SplashScreenWidget) (message : String) : SplashScreenWidget :=
  s.log [Effect.statusSetText message, Effect.processEvents]

/-- Member function `startBouncingAnimation()`. -/
def startBouncingAnimation (s : SplashScreenWidget) : SplashScreenWidget :=
  { s with m_progressPosition := 0, m_bounceDirection := 1,
           effects := s.effects ++ [Effect.bounceTimerStart BOUNCE_INTERVAL_MS] }

/-- Member function `stopBouncingAnimation()`; `m_bounceTimer` is created by the constructor and
never reset, so the null test passes. -/
def stopBouncingAnimation (s : SplashScreenWidget) : SplashScreenWidget :=
  s.log [Effect.bounceTimerStop]

/-- Member function `checkAndClose()`. -/
def checkAndClose (s : SplashScreenWidget) : SplashScreenWidget :=
  if s.m_minimumDurationElapsed && s.m_finishRequested && !s.m_isClosed then
    let s := { s with m_isClosed := true }
    let s := s.stopBouncingAnimation
    let s :=
      if s.m_progressMode = ProgressMode.Determinate then
        s.log [Effect.barSetValue s.m_totalSteps]
      else
        s.log [Effect.barSetValue 100]
    let s := s.setStatusMessage "Ready!"
    let s := s.log [Effect.processEvents]
    s.log [Effect.singleShotFinish 200]
  else
    s

/-- Member function `startSplash()`. -/
def startSplash (s : SplashScreenWidget) : SplashScreenWidget :=
  let s := s.log [Effect.elapsedTimerStart]
  let s := { s with m_minimumDurationElapsed := false,
                    m_finishRequested := false,
                    m_isClosed := false }
  let s := s.log [Effect.presentWindow]
  let s := if s.m_progressMode = ProgressMode.Indeterminate then s.startBouncingAnimation else s
  let s := s.log [Effect.singleShotMinimumDuration s.m_minimumDisplayDuration]
  s.log [Effect.processEvents]

/-- Member function `finishSplash()`. -/
def finishSplash (s : SplashScreenWidget) : SplashScreenWidget :=
  checkAndClose { s with m_finishRequested := true }

/-- Member function `isReadyToClose() const`. -/
def isReadyToClose (s : SplashScreenWidget) : Bool :=
  s.m_minimumDurationElapsed && s.m_finishRequested

/-- The slot `onMinimumDurationElapsed()`. -/
def onMinimumDurationElapsed (s : SplashScreenWidget) : SplashScreenWidget :=
  checkAndClose { s with m_minimumDurationElapsed := true }

/-- The lambda scheduled by `checkAndClose`: `emit splashFinished(); close();`. -/
def finishShotFired (s : SplashScreenWidget) : SplashScreenWidget :=
  s.log [Effect.emitSplashFinished, Effect.closeWindow]

/-- Number of times the close side effect (the single-shot that emits
`splashFinished`) has been scheduled. -/
def finishShots (s : SplashScreenWidget) : Nat :=
  s.effects.countP (fun e => match e with
    | Effect.singleShotFinish _ => true
    | _ => false)

end SplashScreenWidget

/-- The two triggers of the gate. -/
inductive GateCall
  | finishSplash
  | onMinimumDurationElapsed
  deriving DecidableEq, Repr

/-- Run one trigger. -/
def GateCall.apply (c : GateCall) (s : SplashScreenWidget) : SplashScreenWidget :=
  match c with
  | GateCall.finishSplash => s.finishSplash
  | GateCall.onMinimumDurationElapsed => s.onMinimumDurationElapsed

/-- Run a sequence of triggers, first to last. -/
def runCalls (s : SplashScreenWidget) (calls : List GateCall) : SplashScreenWidget :=
  calls.foldl (fun st c => c.apply st) s

/-- Both kinds of trigger occur in the sequence. -/
def bothOccur (calls : List GateCall) : Bool :=
  decide (GateCall.finishSplash ∈ calls) && decide (GateCall.onMinimumDurationElapsed ∈ calls)

/-- The public lifecycle operations and the timer slot. -/
inductive GateOp
  | startSplash
  | finishSplash
  | onMinimumDurationElapsed
  deriving DecidableEq, Repr

/-- Run one lifecycle operation. -/
def GateOp.apply (o : GateOp) (s : SplashScreenWidget) : SplashScreenWidget :=
  match o with
  | GateOp.startSplash => s.startSplash
  | GateOp.finishSplash => s.finishSplash
  | GateOp.onMinimumDurationElapsed => s.onMinimumDurationElapsed

/-- Run a sequence of lifecycle operations on a freshly constructed widget. -/
def runOps (ops : List GateOp) : SplashScreenWidget :=
  ops.foldl (fun st o => o.apply st) construct

end Splash

namespace Main

open Splash

/-- The lambda connected to `MainWindow::initializationComplete` in `main()`:
`splash.finishSplash();`. -/
def onInitializationComplete (splash : SplashScreenWidget) : SplashScreenWidget :=
  splash.finishSplash

/-- The lambda connected to `MainWindow::initializationFailed` in `main()`:
`splash.setStatusMessage("Error: " + error); splash.finishSplash();`. -/
def onInitializationFailed (error : String) (splash : SplashScreenWidget) : SplashScreenWidget :=
  (splash.setStatusMessage ("Error: " ++ error)).finishSplash

end Main

namespace Example

/-- The signals declared by `MainWindow`; step numbers are 1-based. -/
inductive Signal
  | initializationStepStarted (step : Nat) (message : String)
  | initializationStepCompleted (step : Nat)
  | initializationComplete
  | initializationFailed (error : String)
  deriving DecidableEq, Repr

/-- The struct `MainWindow::InitTask`.  `taskMethod` is a `std::function<void()>`:
a call either returns (`Except.ok`) or is left by an exception (`Except.error`). -/
structure InitTask where
  name : String
  description : String
  taskMethod : Unit → Except String Unit
  isHeavyTask : Bool

/-- What the orchestrator does that an observer can see, in program order. -/
inductive Event
  /-- Signal emission `emit sig`. -/
  | emitted (sig : Signal)
  /-- Call `QtConcurrent::run(...)` handing over the action of `m_initTasks[index]`. -/
  | concurrentRun (index : Nat)
  /-- Call `QTimer::singleShot(0, this, ...)` handing over the action of
  `m_initTasks[index]`. -/
  | singleShot (index : Nat)
  deriving DecidableEq, Repr

/-- Work handed to Qt that has not run yet. -/
inductive Pending
  /-- The lambda given to `QtConcurrent::run` in `runNextTask`:
  `task.taskMethod(); QMetaObject::invokeMethod(this, "onTaskCompleted", Qt::QueuedConnection);` -/
  | concurrentRun (task : InitTask)
  /-- The lambda given to `QTimer::singleShot(0, ...)` in `runNextTask`:
  `task.taskMethod(); onTaskCompleted();` -/
  | singleShot (task : InitTask)
  /-- The queued invocation of the slot `onTaskCompleted`. -/
  | onTaskCompletedCall
  /-- The lambda queued by `onTaskCompleted`. -/
  | completionLambda

/-- The task-management members of `MainWindow`, the work it has handed to Qt
and not yet seen run, and the log of its observable events.
`m_currentTaskIndex` is an `int` that is only ever set to 0 and incremented; it
is a natural number here.  Writes to the log window and to the status label of
the main window are not part of the model. -/
structure MainWindow where
  m_initTasks : List InitTask
  m_currentTaskIndex : Nat
  m_cancelled : Bool
  pending : List Pending
  events : List Event

/-- The constructor, for a given content of `m_initTasks`. -/
def construct (tasks : List InitTask) : MainWindow :=
  { m_initTasks := tasks
    m_currentTaskIndex := 0
    m_cancelled := false
    pending := []
    events := [] }

namespace MainWindow

/-- Record `emit sig`. -/
def emit (w : MainWindow) (sig : Signal) : MainWindow :=
  { w with events := w.events ++ [Event.emitted sig] }

/-- Member function `runNextTask()`. -/
def runNextTask (w : MainWindow) : MainWindow :=
  if w.m_cancelled then
    w
  else if h : w.m_currentTaskIndex ≥ w.m_initTasks.length then
    w.emit Signal.initializationComplete
  else
    let task := w.m_initTasks.get ⟨w.m_currentTaskIndex, Nat.lt_of_not_le h⟩
    let w := w.emit (Signal.initializationStepStarted (w.m_currentTaskIndex + 1) task.description)
    if task.isHeavyTask then
      { w with events := w.events ++ [Event.concurrentRun w.m_currentTaskIndex]
               pending := w.pending ++ [Pending.concurrentRun task] }
    else
      { w with events := w.events ++ [Event.singleShot w.m_currentTaskIndex]
               pending := w.pending ++ [Pending.singleShot task] }

/-- The slot `onTaskCompleted()`. -/
def onTaskCompleted (w : MainWindow) : MainWindow :=
  if w.m_cancelled then
    w
  else
    { w with pending := w.pending ++ [Pending.completionLambda] }

/-- The body of the lambda queued by `onTaskCompleted`:
`emit initializationStepCompleted(m_currentTaskIndex + 1); m_currentTaskIndex++; runNextTask();`. -/
def completionLambda (w : MainWindow) : MainWindow :=
  let w := w.emit (Signal.initializationStepCompleted (w.m_currentTaskIndex + 1))
  let w := { w with m_currentTaskIndex := w.m_currentTaskIndex + 1 }
  w.runNextTask

/-- Run one piece of pending work to its end.  An exception thrown by
`taskMethod` leaves the enclosing lambda, so the statement after the call is not
executed: on the worker thread `QtConcurrent::run` keeps the exception in the
`QFuture`, which `runNextTask` drops; a timer lambda has no handler around it. -/
def runPending (w : MainWindow) (p : Pending) : MainWindow :=
  match p with
  | Pending.concurrentRun task =>
    match task.taskMethod () with
    | Except.ok _ => { w with pending := w.pending ++ [Pending.onTaskCompletedCall] }
    | Except.error _ => w
  | Pending.singleShot task =>
    match task.taskMethod () with
    | Except.ok _ => w.onTaskCompleted
    | Except.error _ => w
  | Pending.onTaskCompletedCall => w.onTaskCompleted
  | Pending.completionLambda => w.completionLambda

/-- The signals emitted so far, in order. -/
def trace (w : MainWindow) : List Signal :=
  w.events.filterMap (fun e => match e with
    | Event.emitted sig => some sig
    | _ => none)

end MainWindow

/-- Member function `initialize()`. -/
def MainWindow.initialize (w : MainWindow) : MainWindow :=
  MainWindow.runNextTask { w with m_currentTaskIndex := 0, m_cancelled := false }

/-- What can happen to a `MainWindow` after `initialize()`: Qt runs the pending
work at position `i` (the worker thread and the event loop of the main thread
pick the order), or `m_cancelled` is set to true. -/
inductive Act
  | deliver (i : Nat)
  | cancel

/-- Perform one act; delivering a position that holds no pending work does
nothing. -/
def Act.apply (a : Act) (w : MainWindow) : MainWindow :=
  match a with
  | Act.deliver i =>
    match w.pending.get? i with
    | none => w
    | some p => MainWindow.runPending { w with pending := w.pending.eraseIdx i } p
  | Act.cancel => { w with m_cancelled := true }

/-- Perform a sequence of acts, first to last. -/
def run (w : MainWindow) (acts : List Act) : MainWindow :=
  acts.foldl (fun st a => a.apply st) w

/-- Let Qt run the oldest pending work, `fuel` times. -/
def drain (fuel : Nat) (w : MainWindow) : MainWindow :=
  (Act.apply (Act.deliver 0))^[fuel] w


/-- The pending work `runNextTask` creates for a task: a worker-thread run for
a heavy task, a zero-delay single-shot for a quick one. -/
def pendingOf (t : InitTask) : Pending :=
  if t.isHeavyTask then Pending.concurrentRun t else Pending.singleShot t

/-- The events `runNextTask` produces when it starts the task at position `i`. -/
def startEvents (i : Nat) (t : InitTask) : List Event :=
  [Event.emitted (Signal.initializationStepStarted (i + 1) t.description),
   if t.isHeavyTask then Event.concurrentRun i else Event.singleShot i]

/-- The events of the tasks at positions `first`, `first + 1`, ... when each is
started, handed over and completed in turn. -/
def completedEvents (first : Nat) : List InitTask → List Event
  | [] => []
  | t :: ts =>
    startEvents first t ++ [Event.emitted (Signal.initializationStepCompleted (first + 1))]
      ++ completedEvents (first + 1) ts

/-- The call `taskMethod()` returns normally. -/
def InitTask.returns (t : InitTask) : Bool :=
  match t.taskMethod () with
  | Except.ok _ => true
  | Except.error _ => false

/-- The event log of a whole run that is never cancelled, for the tasks at
positions `first`, `first + 1`, ...: it stops at the first task whose action
does not return. -/
def fullRunEvents (first : Nat) : List InitTask → List Event
  | [] => [Event.emitted Signal.initializationComplete]
  | t :: ts =>
    startEvents first t ++
      (if t.returns then
        Event.emitted (Signal.initializationStepCompleted (first + 1))
          :: fullRunEvents (first + 1) ts
      else [])

/-- The notification trace of claim C6 for the steps numbered `first + 1`,
`first + 2`, ...: a start and a completion per step, then
`initializationComplete`. -/
def expectedTrace (first : Nat) : List InitTask → List Signal
  | [] => [Signal.initializationComplete]
  | t :: ts =>
    Signal.initializationStepStarted (first + 1) t.description
      :: Signal.initializationStepCompleted (first + 1)
      :: expectedTrace (first + 1) ts

/-- The signals among a list of events. -/
def signalsOf (es : List Event) : List Signal :=
  es.filterMap (fun e => match e with
    | Event.emitted sig => some sig
    | _ => none)

/-- The list positions whose action was handed over, in order. -/
def dispatchedIndices (es : List Event) : List Nat :=
  es.filterMap (fun e => match e with
    | Event.concurrentRun i => some i
    | Event.singleShot i => some i
    | _ => none)

/-- The step numbers carried by the `initializationStepCompleted` signals, in
order. -/
def completedSteps (es : List Event) : List Nat :=
  es.filterMap (fun e => match e with
    | Event.emitted (Signal.initializationStepCompleted step) => some step
    | _ => none)

/-- Number of `initializationFailed` signals. -/
def failedCount (es : List Event) : Nat :=
  es.countP (fun e => match e with
    | Event.emitted (Signal.initializationFailed _) => true
    | _ => false)

/-- One step of the check that steps are handled one at a time.  The state is
the number of completions seen and whether a handed-over action is still
outstanding: position `i` may be handed over only when nothing is outstanding
and `i` completions have been seen; a completion must carry the number of the
outstanding step. -/
def oneAtATimeStep (st : Nat × Bool) (e : Event) : Option (Nat × Bool) :=
  match e with
  | Event.concurrentRun i => if st.2 = false ∧ i = st.1 then some (st.1, true) else none
  | Event.singleShot i => if st.2 = false ∧ i = st.1 then some (st.1, true) else none
  | Event.emitted (Signal.initializationStepCompleted step) =>
    if st.2 = true ∧ step = st.1 + 1 then some (st.1 + 1, false) else none
  | _ => some st

/-- Check a whole event log from the state `st`. -/
def oneAtATime (st : Nat × Bool) (es : List Event) : Option (Nat × Bool) :=
  es.foldlM oneAtATimeStep st

/-- Deliveries needed to take a task from hand-over to the start of the next. -/
def deliveries (t : InitTask) : Nat :=
  if t.isHeavyTask then 3 else 2

/-- Deliveries that complete a run over the given tasks. -/
def totalDeliveries : List InitTask → Nat
  | [] => 0
  | t :: ts => (if t.returns then deliveries t + totalDeliveries ts else 1)


/-- The simulated work of the task methods of `MainWindow` (sleeping in chunks,
filling the table): the call returns. -/
def simulatedWork : Unit → Except String Unit :=
  fun _ => Except.ok ()

/-- Member function `setupInitializationTasks()`: the content of `m_initTasks`. -/
def setupInitializationTasks : List InitTask :=
  [ { name := "config", description := "Loading configuration files",
      taskMethod := simulatedWork, isHeavyTask := false },
    { name := "database", description := "Initializing database connection",
      taskMethod := simulatedWork, isHeavyTask := true },
    { name := "preferences", description := "Loading user preferences",
      taskMethod := simulatedWork, isHeavyTask := false },
    { name := "ui", description := "Preparing UI components",
      taskMethod := simulatedWork, isHeavyTask := true },
    { name := "plugins", description := "Loading plugins",
      taskMethod := simulatedWork, isHeavyTask := true },
    { name := "license", description := "Verifying license",
      taskMethod := simulatedWork, isHeavyTask := false },
    { name := "services", description := "Connecting to services",
      taskMethod := simulatedWork, isHeavyTask := true },
    { name := "datatable", description := "Populating data table (10,000 rows)",
      taskMethod := simulatedWork, isHeavyTask := true } ]

/-- Scenario C of the specification: five tasks, the action at index 2 (a heavy
task, run by `QtConcurrent::run`) leaving by an exception. -/
def scenarioC : List InitTask :=
  [ { name := "config", description := "Loading configuration files",
      taskMethod := simulatedWork, isHeavyTask := false },
    { name := "database", description := "Initializing database connection",
      taskMethod := simulatedWork, isHeavyTask := true },
    { name := "plugins", description := "Loading plugins",
      taskMethod := fun _ => Except.error "plugin directory unreadable", isHeavyTask := true },
    { name := "license", description := "Verifying license",
      taskMethod := simulatedWork, isHeavyTask := false },
    { name := "services", description := "Connecting to services",
      taskMethod := simulatedWork, isHeavyTask := true } ]

end Example


namespace Splash

/-- Qt's `qBound(min, val, max)`, that is `qMax(min, qMin(max, val))`. -/
def qBound (lo val hi : Int) : Int :=
  max lo (min hi val)

/-- Member function `setProgress(int step)`. -/
def SplashScreenWidget.setProgress (s : SplashScreenWidget) (step : Int) : SplashScreenWidget :=
  let s := { s with m_currentStep := qBound 0 step s.m_totalSteps }
  if s.m_progressMode = ProgressMode.Determinate then
    s.log [Effect.barSetValue s.m_currentStep,
           Effect.emitProgressChanged s.m_currentStep s.m_totalSteps]
  else
    s

/-- The text the status label shows: the argument of the last
`m_statusLabel->setText`, the empty text of a fresh `QLabel` before the first. -/
def SplashScreenWidget.statusText (s : SplashScreenWidget) : String :=
  s.effects.foldl (fun shown e => match e with
    | Effect.statusSetText text => text
    | _ => shown) ""

/-- The range and value of a `QProgressBar`.  The setters below follow
`qprogressbar.cpp` of Qt 5; Qt is a library the repository links against. -/
structure QProgressBar where
  minimum : Int
  maximum : Int
  value : Int
  deriving DecidableEq, Repr

namespace QProgressBar

/-- A freshly constructed `QProgressBar`: range 0..100, value -1. -/
def fresh : QProgressBar :=
  { minimum := 0, maximum := 100, value := -1 }

/-- Qt's `QProgressBar::setRange(minimum, maximum)`: a new range is stored with
the maximum raised to the minimum if needed, and a value that no longer fits is
reset to `minimum - 1`. -/
def setRange (b : QProgressBar) (minimum maximum : Int) : QProgressBar :=
  if minimum ≠ b.minimum ∨ maximum ≠ b.maximum then
    let b := { b with minimum := minimum, maximum := max minimum maximum }
    if b.value < b.minimum - 1 ∨ b.value > b.maximum then
      { b with value := b.minimum - 1 }
    else
      b
  else
    b

/-- Qt's `QProgressBar::setMinimum(minimum)`. -/
def setMinimum (b : QProgressBar) (minimum : Int) : QProgressBar :=
  b.setRange minimum (max b.maximum minimum)

/-- Qt's `QProgressBar::setMaximum(maximum)`. -/
def setMaximum (b : QProgressBar) (maximum : Int) : QProgressBar :=
  b.setRange (min b.minimum maximum) maximum

/-- Qt's `QProgressBar::setValue(value)`: a value equal to the current one, or
outside the range unless the range is 0..0, is ignored. -/
def setValue (b : QProgressBar) (value : Int) : QProgressBar :=
  if b.value = value ∨
      ((value > b.maximum ∨ value < b.minimum) ∧ (b.maximum ≠ 0 ∨ b.minimum ≠ 0)) then
    b
  else
    { b with value := value }

/-- The effect of one logged call on the progress bar. -/
def perform (b : QProgressBar) (e : Effect) : QProgressBar :=
  match e with
  | Effect.barSetMinimum v => b.setMinimum v
  | Effect.barSetMaximum v => b.setMaximum v
  | Effect.barSetValue v => b.setValue v
  | _ => b

end QProgressBar

/-- The state of `m_progressBar` after the logged calls. -/
def SplashScreenWidget.bar (s : SplashScreenWidget) : QProgressBar :=
  s.effects.foldl QProgressBar.perform QProgressBar.fresh

end Splash

namespace Main

open Splash

/-- The lambda connected to `MainWindow::initializationStepStarted` in `main()`:
`splash.setProgress(step); splash.setStatusMessage(message);`. -/
def onInitializationStepStarted (step : Int) (message : String)
    (splash : SplashScreenWidget) : SplashScreenWidget :=
  (splash.setProgress step).setStatusMessage message

/-- The configuration of the splash screen in `main()` that bears on its logic,
for a main window with `totalSteps` tasks: `setMinimumDisplayDuration(3000)`,
`setTotalSteps(totalSteps)`, `setProgressMode(Determinate)`, and later
`startSplash()`. -/
def startedSplash (totalSteps : Nat) : SplashScreenWidget :=
  (((construct.setMinimumDisplayDuration 3000).setTotalSteps totalSteps).setProgressMode
    ProgressMode.Determinate).startSplash

/-- What reaches the splash screen while the application runs: the signals of
the main window and the minimum-duration timer. -/
inductive SplashEvent
  | stepStarted (step : Nat) (message : String)
  | stepCompleted (step : Nat)
  | complete
  | failed (error : String)
  | minimumDurationTimer
  deriving DecidableEq, Repr

/-- The reaction of the splash screen as wired in `main()`; no slot is connected
to `initializationStepCompleted`. -/
def SplashEvent.handle (e : SplashEvent) (splash : SplashScreenWidget) : SplashScreenWidget :=
  match e with
  | SplashEvent.stepStarted step message => onInitializationStepStarted step message splash
  | SplashEvent.stepCompleted _ => splash
  | SplashEvent.complete => onInitializationComplete splash
  | SplashEvent.failed error => onInitializationFailed error splash
  | SplashEvent.minimumDurationTimer => splash.onMinimumDurationElapsed

/-- Handle a sequence of events, first to last. -/
def handleAll (splash : SplashScreenWidget) (es : List SplashEvent) : SplashScreenWidget :=
  es.foldl (fun s e => e.handle s) splash

end Main

namespace Worker

/-- The signals declared by `InitializationWorker` (src/src/MainWindow.h). -/
inductive WorkerSignal
  | taskStarted (taskIndex : Nat) (taskName : String)
  | taskCompleted (taskIndex : Nat)
  | allTasksCompleted
  | initializationError (error : String)
  deriving DecidableEq, Repr

/-- What the worker thread receives from outside while it runs. -/
structure Outside where
  /-- Result of the n-th call `QRandomGenerator::global()->bounded(-100, 100)`. -/
  bounded : Nat → Int
  /-- Whether another thread calls `cancelInitialization()` just before the n-th
  read of `m_cancelled` by the worker. -/
  cancelRequested : Nat → Bool

/-- The members of `InitializationWorker`, the signals it has emitted, and the
numbers of reads of `m_cancelled` and of random draws it has made. -/
structure InitializationWorker where
  m_taskDurations : List Int
  m_cancelled : Bool
  emitted : List WorkerSignal
  reads : Nat
  drawn : Nat
  deriving DecidableEq, Repr

/-- The constructor: `m_cancelled(false)`. -/
def construct : InitializationWorker :=
  { m_taskDurations := [], m_cancelled := false, emitted := [], reads := 0, drawn := 0 }

namespace InitializationWorker

/-- Member function `setTaskDurations(const QVector<int> &durations)`. -/
def setTaskDurations (s : InitializationWorker) (durations : List Int) : InitializationWorker :=
  { s with m_taskDurations := durations }

/-- The slot `cancelInitialization()`. -/
def cancelInitialization (s : InitializationWorker) : InitializationWorker :=
  { s with m_cancelled := true }

/-- One read of the atomic `m_cancelled` by the worker thread, after the call of
`cancelInitialization()` that another thread may have made in the meantime. -/
def readCancelled (o : Outside) (s : InitializationWorker) : Bool × InitializationWorker :=
  let s := if o.cancelRequested s.reads then s.cancelInitialization else s
  (s.m_cancelled, { s with reads := s.reads + 1 })

/-- The loop `while (elapsed < actualDuration && !m_cancelled)` of `simulateTask`,
which sleeps 50 ms and adds 50 to `elapsed`; `fuel` bounds the number of rounds. -/
def sleepLoop (o : Outside) : Nat → Int → Int → InitializationWorker → InitializationWorker
  | 0, _, _, s => s
  | fuel + 1, elapsed, actualDuration, s =>
    if elapsed < actualDuration then
      let (cancelled, s) := s.readCancelled o
      if !cancelled then sleepLoop o fuel (elapsed + 50) actualDuration s else s
    else
      s

/-- Member function `simulateTask(int taskIndex, const QString &taskName, int durationMs)`. -/
def simulateTask (o : Outside) (taskIndex : Nat) (taskName : String) (durationMs : Int)
    (s : InitializationWorker) : InitializationWorker :=
  let s := { s with emitted := s.emitted ++ [WorkerSignal.taskStarted taskIndex taskName] }
  let actualDuration := durationMs + o.bounded s.drawn
  let s := { s with drawn := s.drawn + 1 }
  let actualDuration := max 100 actualDuration
  let s := sleepLoop o (actualDuration / 50).toNat.succ 0 actualDuration s
  let (cancelled, s) := s.readCancelled o
  if !cancelled then
    { s with emitted := s.emitted ++ [WorkerSignal.taskCompleted taskIndex] }
  else
    s

/-- The local `taskNames` of `runInitialization`. -/
def taskNames : List String :=
  ["Loading configuration files", "Initializing database connection",
   "Loading user preferences", "Preparing UI components", "Loading plugins",
   "Verifying license", "Connecting to services"]

/-- The loop `for (int i = 0; i < m_taskDurations.size() && !m_cancelled; ++i)`
of `runInitialization`, from index `i` over the durations still to run. -/
def taskLoop (o : Outside) : Nat → List Int → InitializationWorker → InitializationWorker
  | _, [], s => s
  | i, duration :: rest, s =>
    let (cancelled, s) := s.readCancelled o
    if !cancelled then
      let taskName := (taskNames.get? i).getD ("Task " ++ Nat.repr (i + 1))
      taskLoop o (i + 1) rest (s.simulateTask o i taskName duration)
    else
      s

/-- The slot `runInitialization()`. -/
def runInitialization (o : Outside) (s : InitializationWorker) : InitializationWorker :=
  let s := { s with m_cancelled := false }
  let s := taskLoop o 0 s.m_taskDurations s
  let (cancelled, s) := s.readCancelled o
  if !cancelled then
    { s with emitted := s.emitted ++ [WorkerSignal.allTasksCompleted] }
  else
    s

end InitializationWorker

/-- Nobody calls `cancelInitialization()` while the worker runs, and every random
offset is 0. -/
def undisturbed : Outside :=
  { bounded := fun _ => 0, cancelRequested := fun _ => false }

end Worker

namespace Example

/-- Qt's `QString::number(n)` for an `int` that is not negative: the decimal
text of `n`. -/
def number (n : Nat) : String :=
  String.mk (Nat.toDigits 10 n)

/-- The expression `QString("Item_%1").arg(n, 5, 10, QChar('0'))`: the place
marker is replaced by `n` written in base 10, right-aligned in a field of 5
characters that is filled with '0' on the left (a longer text is not cut). -/
def itemLabel (n : Nat) : String :=
  "Item_" ++ String.mk (List.leftpad 5 '0' (Nat.toDigits 10 n))

/-- Read a text made of decimal digits as a number. -/
def parseDecimal (cs : List Char) : Nat :=
  cs.foldl (fun acc c => 10 * acc + (c.toNat - '0'.toNat)) 0

/-- Qt's `QRandomGenerator::bounded(highest)`: the 32-bit output `raw` of the
generator scaled into `0 .. highest - 1`. -/
def bounded (highest raw : Nat) : Nat :=
  (raw % 2 ^ 32) * highest / 2 ^ 32

/-- The local `statuses` of `taskPopulateDataTable`. -/
def statuses : List String :=
  ["Active", "Pending", "Completed", "Failed", "Processing"]

/-- A row as it is handed to the table: a `QStringList`. -/
abbrev Row := List String

/-- What `taskPopulateDataTable` takes from outside the program. -/
structure World where
  /-- The n-th 32-bit output of `QRandomGenerator::global()`. -/
  generate : Nat → Nat
  /-- The text `QString::number(qSin(row * 0.1) * 100 + draw, 'f', 2)` for a row
  and a draw; the floating-point computation is not modelled. -/
  valueText : Nat → Nat → String
  /-- The text `toString("yyyy-MM-dd hh:mm:ss")` of an instant given in
  milliseconds. -/
  dateText : Int → String
  /-- The value the n-th read of `m_cancelled` by the task returns. -/
  cancelled : Nat → Bool

/-- The worker-side state of `taskPopulateDataTable`: how many outputs of the
generator and how many reads of `m_cancelled` it has used, and the wall clock in
milliseconds.  Time passes in `QThread::msleep` only. -/
structure Producer where
  drawn : Nat
  reads : Nat
  clock : Int
  deriving DecidableEq, Repr

/-- The body of the inner loop of `taskPopulateDataTable` for one `row`: three
draws, in the order of the statements, and the five fields. -/
def rowData (w : World) (row : Nat) (p : Producer) : Row × Producer :=
  let value := w.valueText row (bounded 50 (w.generate p.drawn))
  let status := statuses.getD (bounded statuses.length (w.generate (p.drawn + 1))) ""
  let timestamp := w.dateText (p.clock - 1000 * (bounded 86400 (w.generate (p.drawn + 2)) : Nat))
  ([number (row + 1), itemLabel (row + 1), value, status, timestamp],
   { p with drawn := p.drawn + 3 })

/-- The inner loop `for (int row = i; row < batchEnd && !m_cancelled; ++row)`,
with `remaining = batchEnd - row` rounds to go; `m_cancelled` is read once per
round. -/
def generateBatch (w : World) : Nat → Nat → Producer → List Row × Producer
  | 0, _, p => ([], p)
  | remaining + 1, row, p =>
    if w.cancelled p.reads then
      ([], { p with reads := p.reads + 1 })
    else
      let (fields, p) := rowData w row { p with reads := p.reads + 1 }
      let (rest, p) := generateBatch w remaining (row + 1) p
      (fields :: rest, p)

/-- The outer loop `for (int i = 0; i < TOTAL_ROWS && !m_cancelled; i += BATCH_SIZE)`
of `taskPopulateDataTable` from the loop variable `i`: the batches handed to
`addTableRowsBatch`, in order, and the final worker state.  Each round builds a
batch up to `batchEnd = qMin(i + BATCH_SIZE, TOTAL_ROWS)`, hands it over through
the blocking `QMetaObject::invokeMethod` and sleeps 10 ms.  The result is `none`
when `fuel` rounds do not reach the end of the loop. -/
def batchLoop (w : World) (totalRows batchSize : Nat) :
    Nat → Nat → Producer → Option (List (List Row) × Producer)
  | 0, _, _ => none
  | fuel + 1, i, p =>
    if i < totalRows then
      if w.cancelled p.reads then
        some ([], { p with reads := p.reads + 1 })
      else
        let batchEnd := min (i + batchSize) totalRows
        let (batch, p) := generateBatch w (batchEnd - i) i { p with reads := p.reads + 1 }
        let p := { p with clock := p.clock + 10 }
        match batchLoop w totalRows batchSize fuel (i + batchSize) p with
        | none => none
        | some (rest, p) => some (batch :: rest, p)
    else
      some ([], p)

/-- The constant `TOTAL_ROWS` of `taskPopulateDataTable`. -/
def TOTAL_ROWS : Nat := 10000

/-- The constant `BATCH_SIZE` of `taskPopulateDataTable`. -/
def BATCH_SIZE : Nat := 500

/-- Member function `taskPopulateDataTable()` for a total and a batch size: the
loop from `i = 0`.  With a positive batch size the loop test fails after at most
`totalRows` rounds, so `totalRows + 1` evaluations of the test are enough. -/
def populate (w : World) (totalRows batchSize : Nat) (p : Producer) :
    Option (List (List Row) × Producer) :=
  batchLoop w totalRows batchSize (totalRows + 1) 0 p

/-- Member function `taskPopulateDataTable()` with the constants of the source. -/
def taskPopulateDataTable (w : World) (p : Producer) : Option (List (List Row) × Producer) :=
  populate w TOTAL_ROWS BATCH_SIZE p

/-- A world for examples: the generator counts 0, 1, 2, ..., the value text is
the decimal text of the draw, an instant is shown as its whole seconds, and
`m_cancelled` stays false. -/
def plainWorld : World :=
  { generate := fun n => n
    valueText := fun _ draw => number draw
    dateText := fun ms => number (ms / 1000).toNat
    cancelled := fun _ => false }

end Example

namespace Example

/-- The five fields of the row with 0-based index `row`, built when `drawn`
outputs of the generator have been used and the clock shows `clock`. -/
def fieldsOf (w : World) (row drawn : Nat) (clock : Int) : Row :=
  (rowData w row { drawn := drawn, reads := 0, clock := clock }).1

/-- The sizes of the batches that cut `n` rows into pieces of `batchSize`: full
batches, then the rest if there is one. -/
def batchSizes (n batchSize : Nat) : List Nat :=
  List.replicate (n / batchSize) batchSize ++ (if n % batchSize = 0 then [] else [n % batchSize])

/-- A row without its timestamp field: identifier, label, value and status. -/
def withoutTimestamp (r : Row) : Row :=
  r.take 4

end Example

namespace Example

/-- A `QTableWidgetItem` as `addTableRowsBatch` sets it up: its text, whether it
is right-aligned (`Qt::AlignRight | Qt::AlignVCenter`) or left-aligned, and the
foreground colour if one is set. -/
structure QTableWidgetItem where
  text : String
  alignRight : Bool
  foreground : Option String
  deriving DecidableEq, Repr

/-- The content of a `QTableWidget`: its dimensions and the item of each cell,
`none` for a cell without item. -/
structure QTableWidget where
  rowCount : Nat
  columnCount : Nat
  item : Nat → Nat → Option QTableWidgetItem

namespace QTableWidget

/-- Qt's `QTableWidget::setRowCount(rows)`: rows beyond the new count are
dropped and new rows have no items. -/
def setRowCount (t : QTableWidget) (rows : Nat) : QTableWidget :=
  { t with rowCount := rows
           item := fun r c => if r < t.rowCount ∧ r < rows then t.item r c else none }

/-- Qt's `QTableWidget::setItem(row, column, item)`; a cell outside the table is
not set. -/
def setItem (t : QTableWidget) (row column : Nat) (it : QTableWidgetItem) : QTableWidget :=
  if row < t.rowCount ∧ column < t.columnCount then
    { t with item := fun r c => if r = row ∧ c = column then some it else t.item r c }
  else
    t

end QTableWidget

/-- The table `m_dataTable` after `setupUi()`: `setColumnCount(5)`, no rows. -/
def emptyTable : QTableWidget :=
  { rowCount := 0, columnCount := 5, item := fun _ _ => none }

/-- The item `addTableRowsBatch` creates for column `col`: columns 0 and 2 are
right-aligned, and in column 3 the status selects the foreground colour. -/
def makeItem (col : Nat) (text : String) : QTableWidgetItem :=
  { text := text
    alignRight := decide (col = 0 ∨ col = 2)
    foreground :=
      if col = 3 then
        if text = "Active" then some "#27ae60"
        else if text = "Failed" then some "#e74c3c"
        else if text = "Pending" then some "#f39c12"
        else if text = "Processing" then some "#3498db"
        else none
      else none }

/-- The inner loop of `addTableRowsBatch` for one row:
`for (col = 0; col < rowData.size() && col < m_dataTable->columnCount(); ++col)`. -/
def fillRow (rowData : Row) (row : Nat) (t : QTableWidget) : QTableWidget :=
  (List.range (min rowData.length t.columnCount)).foldl
    (fun t col => t.setItem row col (makeItem col (rowData.getD col ""))) t

/-- Member function `addTableRowsBatch(const QVector<QStringList> &rows)`, as
far as the content of the table goes (switching updates off and on and
`processEvents()` are left out). -/
def addTableRowsBatch (t : QTableWidget) (rows : List Row) : QTableWidget :=
  let startRow := t.rowCount
  let t := t.setRowCount (startRow + rows.length)
  (List.range rows.length).foldl (fun t i => fillRow (rows.getD i []) (startRow + i) t) t

end Example

namespace Example

/-- The item that column `c` of a table row holds after the fields `rowData`
were written to it: the item of field `c` for the first
`min(number of fields, columnCount)` columns, none beyond. -/
def rowCell (columnCount : Nat) (rowData : Row) (c : Nat) : Option QTableWidgetItem :=
  if c < min rowData.length columnCount then some (makeItem c (rowData.getD c "")) else none

/-- The table after the batches were integrated in the order of the list. -/
def integrateAll (t : QTableWidget) (batches : List (List Row)) : QTableWidget :=
  batches.foldl addTableRowsBatch t

end Example

namespace Example

/-- The values of `Qt::ConnectionType` that queue a call for another thread.
With `QueuedConnection` the caller goes on at once; with
`BlockingQueuedConnection` the caller waits until the call has returned in the
receiving thread. -/
inductive ConnectionType
  | QueuedConnection
  | BlockingQueuedConnection
  deriving DecidableEq, Repr

/-- Where the worker thread stands in `taskPopulateDataTable`. -/
inductive WorkerAt
  /-- Before the test `i < TOTAL_ROWS && !m_cancelled` of the outer loop. -/
  | loopHead
  /-- Inside `QMetaObject::invokeMethod`, waiting for the call to return. -/
  | blocked
  /-- After `QMetaObject::invokeMethod`; `QThread::msleep(10)` and
  `i += BATCH_SIZE` come next. -/
  | afterInvoke
  /-- The function has returned. -/
  | returned
  deriving DecidableEq, Repr

/-- The two threads of the streaming step: the loop variable, position and
state of the worker, the calls `addTableRowsBatch(batch)` queued for the main
thread (oldest first), the table, and counters of the batches built by the
worker and of the batches integrated by the main thread. -/
structure Streaming where
  i : Nat
  pc : WorkerAt
  producer : Producer
  generated : Nat
  posted : List (List Row)
  integrated : Nat
  table : QTableWidget

/-- The connection type passed to `QMetaObject::invokeMethod` in
`taskPopulateDataTable`. -/
def handOff : ConnectionType :=
  ConnectionType.BlockingQueuedConnection

/-- One move of the worker thread in the loop of `taskPopulateDataTable`, for a
connection type `conn`: at the loop head it tests the loop condition and, if it
holds, builds the next batch and queues the call for the main thread; after the
call it sleeps 10 ms and adds the batch size to `i`.  A blocked or returned
worker does not move. -/
def workerMove (conn : ConnectionType) (w : World) (totalRows batchSize : Nat)
    (s : Streaming) : Streaming :=
  match s.pc with
  | WorkerAt.loopHead =>
    if s.i < totalRows then
      if w.cancelled s.producer.reads then
        { s with pc := WorkerAt.returned
                 producer := { s.producer with reads := s.producer.reads + 1 } }
      else
        let batchEnd := min (s.i + batchSize) totalRows
        let (batch, p) :=
          generateBatch w (batchEnd - s.i) s.i { s.producer with reads := s.producer.reads + 1 }
        { s with producer := p
                 generated := s.generated + 1
                 posted := s.posted ++ [batch]
                 pc := if conn = ConnectionType.BlockingQueuedConnection then WorkerAt.blocked
                       else WorkerAt.afterInvoke }
    else
      { s with pc := WorkerAt.returned }
  | WorkerAt.afterInvoke =>
    { s with producer := { s.producer with clock := s.producer.clock + 10 }
             i := s.i + batchSize
             pc := WorkerAt.loopHead }
  | WorkerAt.blocked => s
  | WorkerAt.returned => s

/-- One move of the main thread: it runs the oldest queued call
`addTableRowsBatch(batch)` to its end; a worker blocked in `invokeMethod` is
released by that. -/
def mainMove (s : Streaming) : Streaming :=
  match s.posted with
  | [] => s
  | batch :: rest =>
    { s with table := addTableRowsBatch s.table batch
             integrated := s.integrated + 1
             posted := rest
             pc := if s.pc = WorkerAt.blocked then WorkerAt.afterInvoke else s.pc }

/-- The two threads. -/
inductive Party
  | worker
  | mainThread
  deriving DecidableEq, Repr

/-- One move of a thread, with the connection type of the source. -/
def Party.move (w : World) (totalRows batchSize : Nat) (party : Party) (s : Streaming) :
    Streaming :=
  match party with
  | Party.worker => workerMove handOff w totalRows batchSize s
  | Party.mainThread => mainMove s

/-- The threads move in the order of the list. -/
def runParties (w : World) (totalRows batchSize : Nat) (s : Streaming) (ms : List Party) :
    Streaming :=
  ms.foldl (fun st party => party.move w totalRows batchSize st) s

/-- The streaming step with the worker at the loop head, nothing queued, and
`done` batches built and integrated so far. -/
def atLoopHead (i : Nat) (p : Producer) (done : Nat) (t : QTableWidget) : Streaming :=
  { i := i, pc := WorkerAt.loopHead, producer := p, generated := done, posted := [],
    integrated := done, table := t }

/-- The streaming step when the worker enters `taskPopulateDataTable`. -/
def startStreaming (p : Producer) (t : QTableWidget) : Streaming :=
  atLoopHead 0 p 0 t

/-- The thread that can move does: the main thread if a call is queued, the
worker otherwise. -/
def tick (w : World) (totalRows batchSize : Nat) (s : Streaming) : Streaming :=
  match s.posted with
  | [] => workerMove handOff w totalRows batchSize s
  | _ :: _ => mainMove s

end Example

namespace Splash

/-- The value an `int` holds when a sum or product has the mathematical result
`x`: `x` itself in the range of a 32-bit `int`, and the two's-complement
wrap-around outside it (where C++ leaves the result undefined). -/
def wrapInt (x : Int) : Int :=
  (x + 2 ^ 31) % 2 ^ 32 - 2 ^ 31

/-- The constant `INT_MAX` of a 32-bit `int`. -/
def INT_MAX : Int := 2 ^ 31 - 1

namespace SplashScreenWidget

/-- Member function `incrementProgress()`: `setProgress(m_currentStep + 1)`. -/
def incrementProgress (s : SplashScreenWidget) : SplashScreenWidget :=
  s.setProgress (wrapInt (s.m_currentStep + 1))

/-- Member function `setProgressPosition(int pos)`. -/
def setProgressPosition (s : SplashScreenWidget) (pos : Int) : SplashScreenWidget :=
  let s := { s with m_progressPosition := pos }
  if s.m_progressMode = ProgressMode.Indeterminate then
    s.log [Effect.barSetValue pos]
  else
    s

/-- The slot `updateBouncingProgress()`. -/
def updateBouncingProgress (s : SplashScreenWidget) : SplashScreenWidget :=
  let pos := wrapInt (s.m_progressPosition + wrapInt (BOUNCE_STEP * s.m_bounceDirection))
  let s := { s with m_progressPosition := pos }
  let s :=
    if s.m_progressPosition ≥ 100 then
      { s with m_progressPosition := 100, m_bounceDirection := -1 }
    else if s.m_progressPosition ≤ 0 then
      { s with m_progressPosition := 0, m_bounceDirection := 1 }
    else
      s
  s.log [Effect.barSetValue s.m_progressPosition]

end SplashScreenWidget

/-- The calls that configure and advance the step-based progress. -/
inductive ProgressOp
  | setTotalSteps (steps : Nat)
  | setProgressMode (mode : ProgressMode)
  | setProgress (step : Int)
  | incrementProgress
  deriving DecidableEq, Repr

/-- Run one progress call. -/
def ProgressOp.apply (o : ProgressOp) (s : SplashScreenWidget) : SplashScreenWidget :=
  match o with
  | ProgressOp.setTotalSteps steps => s.setTotalSteps steps
  | ProgressOp.setProgressMode mode => s.setProgressMode mode
  | ProgressOp.setProgress step => s.setProgress step
  | ProgressOp.incrementProgress => s.incrementProgress

/-- Run a sequence of progress calls on a freshly constructed widget. -/
def runProgressOps (ops : List ProgressOp) : SplashScreenWidget :=
  ops.foldl (fun st o => o.apply st) construct

/-- The fill position `k` timer ticks after `startBouncingAnimation()`. -/
def bouncePosition (s : SplashScreenWidget) (k : Nat) : Int :=
  (SplashScreenWidget.updateBouncingProgress^[k] s.startBouncingAnimation).m_progressPosition

end Splash

namespace Splash

open SplashScreenWidget

section GateLemmas

theorem finishShots_log (s : SplashScreenWidget) (es : List Effect) :
    (s.log es).finishShots
      = s.finishShots + es.countP (fun e => match e with
          | Effect.singleShotFinish _ => true
          | _ => false) := by
  simp [finishShots, SplashScreenWidget.log, List.countP_append]

theorem checkAndClose_flags (s : SplashScreenWidget) :
    s.checkAndClose.m_minimumDurationElapsed = s.m_minimumDurationElapsed ∧
    s.checkAndClose.m_finishRequested = s.m_finishRequested ∧
    s.checkAndClose.m_isClosed
      = (s.m_isClosed || (s.m_minimumDurationElapsed && s.m_finishRequested)) := by
  unfold checkAndClose
  by_cases hm : s.m_progressMode = ProgressMode.Determinate <;>
    cases h1 : s.m_minimumDurationElapsed <;> cases h2 : s.m_finishRequested <;>
    cases h3 : s.m_isClosed <;>
    simp [SplashScreenWidget.log, setStatusMessage, stopBouncingAnimation, h1, h2, h3, hm]

theorem checkAndClose_finishShots (s : SplashScreenWidget) :
    s.checkAndClose.finishShots
      = s.finishShots
        + (if (s.m_minimumDurationElapsed && s.m_finishRequested && !s.m_isClosed) = true
            then 1 else 0) := by
  unfold checkAndClose
  by_cases h : (s.m_minimumDurationElapsed && s.m_finishRequested && !s.m_isClosed) = true
  · rw [if_pos h, if_pos h]
    by_cases hm : s.m_progressMode = ProgressMode.Determinate <;>
      simp [hm, finishShots, SplashScreenWidget.log, setStatusMessage, stopBouncingAnimation,
        List.countP_append, List.countP_cons]
  · rw [if_neg h, if_neg h]; rfl

end GateLemmas


/-- C1: `checkAndClose` performs the finish action (one more `splashFinished`
single-shot scheduled) if and only if `m_minimumDurationElapsed` and
`m_finishRequested` are true and `m_isClosed` is false.  When it fires it sets
`m_isClosed`, stops the bounce timer, writes the final bar value and the status
"Ready!" and schedules one single-shot, in that order, and touches nothing else;
in every other state the widget is returned unchanged. -/
theorem checkAndClose_fires_iff (s : SplashScreenWidget) :
    (s.checkAndClose.finishShots = s.finishShots + 1 ↔
      (s.m_minimumDurationElapsed = true ∧ s.m_finishRequested = true ∧ s.m_isClosed = false)) ∧
    ((s.m_minimumDurationElapsed = true ∧ s.m_finishRequested = true ∧ s.m_isClosed = false) →
      s.checkAndClose =
        { s with
          m_isClosed := true
          effects := s.effects ++
            [Effect.bounceTimerStop,
             Effect.barSetValue
               (if s.m_progressMode = ProgressMode.Determinate then s.m_totalSteps else 100),
             Effect.statusSetText "Ready!", Effect.processEvents, Effect.processEvents,
             Effect.singleShotFinish 200] }) ∧
    (¬ (s.m_minimumDurationElapsed = true ∧ s.m_finishRequested = true ∧ s.m_isClosed = false) →
      s.checkAndClose = s) := by
  refine ⟨?_, ?_, ?_⟩
  · rw [checkAndClose_finishShots]
    cases s.m_minimumDurationElapsed <;> cases s.m_finishRequested <;> cases s.m_isClosed <;>
      simp
  · rintro ⟨h1, h2, h3⟩
    unfold checkAndClose
    by_cases hm : s.m_progressMode = ProgressMode.Determinate <;>
      simp [h1, h2, h3, hm, SplashScreenWidget.log, setStatusMessage, stopBouncingAnimation]
  · intro h
    unfold checkAndClose
    have : (s.m_minimumDurationElapsed && s.m_finishRequested && !s.m_isClosed) = false := by
      cases h1 : s.m_minimumDurationElapsed <;> cases h2 : s.m_finishRequested <;>
        cases h3 : s.m_isClosed <;> simp_all
    simp [this]

/-- Witness for C1: the constructed widget with both flags set fires, and the
constructed widget itself does not. -/
theorem checkAndClose_fires_iff_witness :
    (({ construct with m_minimumDurationElapsed := true, m_finishRequested := true }
        : SplashScreenWidget).checkAndClose.m_isClosed = true) ∧
    construct.checkAndClose = construct :=
  ⟨by
    rw [(checkAndClose_fires_iff
      { construct with m_minimumDurationElapsed := true, m_finishRequested := true }).2.1
      ⟨rfl, rfl, rfl⟩],
   (checkAndClose_fires_iff construct).2.2 (by decide)⟩


section GateRuns

theorem runCalls_snoc (s : SplashScreenWidget) (pre : List GateCall) (c : GateCall) :
    runCalls s (pre ++ [c]) = c.apply (runCalls s pre) := by
  simp [runCalls, List.foldl_append]

theorem finishSplash_state (s : SplashScreenWidget) :
    s.finishSplash.m_minimumDurationElapsed = s.m_minimumDurationElapsed ∧
    s.finishSplash.m_finishRequested = true ∧
    s.finishSplash.m_isClosed = (s.m_isClosed || s.m_minimumDurationElapsed) ∧
    s.finishSplash.finishShots
      = s.finishShots + (if (s.m_minimumDurationElapsed && !s.m_isClosed) = true then 1 else 0) := by
  unfold finishSplash
  rw [checkAndClose_finishShots]
  simp only [checkAndClose_flags]
  simp [finishShots]

theorem onMinimumDurationElapsed_state (s : SplashScreenWidget) :
    s.onMinimumDurationElapsed.m_minimumDurationElapsed = true ∧
    s.onMinimumDurationElapsed.m_finishRequested = s.m_finishRequested ∧
    s.onMinimumDurationElapsed.m_isClosed = (s.m_isClosed || s.m_finishRequested) ∧
    s.onMinimumDurationElapsed.finishShots
      = s.finishShots + (if (s.m_finishRequested && !s.m_isClosed) = true then 1 else 0) := by
  unfold onMinimumDurationElapsed
  rw [checkAndClose_finishShots]
  simp only [checkAndClose_flags]
  simp [finishShots]

/-- The flags and the count of close side effects after a run of triggers on a
gate whose three flags are false. -/
theorem runCalls_state (s : SplashScreenWidget)
    (hm : s.m_minimumDurationElapsed = false) (hf : s.m_finishRequested = false)
    (hc : s.m_isClosed = false) (calls : List GateCall) :
    (runCalls s calls).m_minimumDurationElapsed
        = decide (GateCall.onMinimumDurationElapsed ∈ calls) ∧
    (runCalls s calls).m_finishRequested = decide (GateCall.finishSplash ∈ calls) ∧
    (runCalls s calls).m_isClosed = bothOccur calls ∧
    (runCalls s calls).finishShots = s.finishShots + (if bothOccur calls = true then 1 else 0) := by
  induction calls using List.reverseRecOn with
  | nil => simp [runCalls, bothOccur, hm, hf, hc]
  | append_singleton pre c ih =>
    obtain ⟨i1, i2, i3, i4⟩ := ih
    rw [runCalls_snoc]
    cases c
    · obtain ⟨f1, f2, f3, f4⟩ := finishSplash_state (runCalls s pre)
      simp only [GateCall.apply]
      simp only [f1, f2, f3, f4, i1, i2, i3, i4]
      simp only [bothOccur, List.mem_append, List.mem_singleton]
      by_cases a : GateCall.finishSplash ∈ pre <;>
        by_cases b : GateCall.onMinimumDurationElapsed ∈ pre <;> simp [a, b]
    · obtain ⟨f1, f2, f3, f4⟩ := onMinimumDurationElapsed_state (runCalls s pre)
      simp only [GateCall.apply]
      simp only [f1, f2, f3, f4, i1, i2, i3, i4]
      simp only [bothOccur, List.mem_append, List.mem_singleton]
      by_cases a : GateCall.finishSplash ∈ pre <;>
        by_cases b : GateCall.onMinimumDurationElapsed ∈ pre <;> simp [a, b]

theorem startSplash_flags (s : SplashScreenWidget) :
    s.startSplash.m_minimumDurationElapsed = false ∧
    s.startSplash.m_finishRequested = false ∧
    s.startSplash.m_isClosed = false := by
  unfold startSplash
  by_cases hm : s.m_progressMode = ProgressMode.Indeterminate <;>
    simp [hm, SplashScreenWidget.log, startBouncingAnimation]

end GateRuns

/-- C2: after `startSplash()`, over any finite sequence of `finishSplash()` and
`onMinimumDurationElapsed()` calls the close side effect is scheduled once if the
sequence contains both kinds of call and not at all otherwise; and it is
scheduled by the call that first makes both kinds present (each single call adds
one exactly when both kinds have occurred after it and not before it). -/
theorem close_effect_exactly_once (s0 : SplashScreenWidget) (calls : List GateCall) :
    (runCalls s0.startSplash calls).finishShots
        = s0.startSplash.finishShots + (if bothOccur calls = true then 1 else 0) ∧
    ∀ (pre : List GateCall) (c : GateCall),
      (runCalls s0.startSplash (pre ++ [c])).finishShots
        = (runCalls s0.startSplash pre).finishShots
          + (if (bothOccur (pre ++ [c]) && !bothOccur pre) = true then 1 else 0) := by
  obtain ⟨hm, hf, hc⟩ := startSplash_flags s0
  refine ⟨(runCalls_state _ hm hf hc calls).2.2.2, ?_⟩
  intro pre c
  rw [(runCalls_state _ hm hf hc (pre ++ [c])).2.2.2, (runCalls_state _ hm hf hc pre).2.2.2]
  have mono : bothOccur pre = true → bothOccur (pre ++ [c]) = true := by
    simp only [bothOccur, List.mem_append, Bool.and_eq_true, decide_eq_true_eq]
    rintro ⟨a, b⟩
    exact ⟨Or.inl a, Or.inl b⟩
  cases h1 : bothOccur pre <;> cases h2 : bothOccur (pre ++ [c]) <;> simp_all


section GateInvariant

theorem apply_preserves_closed_implies_ready (o : GateOp) (s : SplashScreenWidget)
    (h : s.m_isClosed = true → s.isReadyToClose = true) :
    (o.apply s).m_isClosed = true → (o.apply s).isReadyToClose = true := by
  cases o
  · simp [GateOp.apply, (startSplash_flags s).2.2]
  · obtain ⟨f1, f2, f3, -⟩ := finishSplash_state s
    simp only [GateOp.apply, isReadyToClose, f1, f2, f3]
    revert h
    simp only [isReadyToClose]
    cases s.m_isClosed <;> cases s.m_minimumDurationElapsed <;> simp
  · obtain ⟨f1, f2, f3, -⟩ := onMinimumDurationElapsed_state s
    simp only [GateOp.apply, isReadyToClose, f1, f2, f3]
    revert h
    simp only [isReadyToClose]
    cases s.m_isClosed <;> cases s.m_finishRequested <;> simp

theorem runOps_snoc (pre : List GateOp) (o : GateOp) :
    runOps (pre ++ [o]) = o.apply (runOps pre) := by
  simp [runOps, List.foldl_append]

theorem iterate_finishSplash_open (n : Nat) (s : SplashScreenWidget)
    (hm : s.m_minimumDurationElapsed = false) (hc : s.m_isClosed = false) :
    (finishSplash^[n] s).m_minimumDurationElapsed = false ∧
    (finishSplash^[n] s).m_isClosed = false ∧
    (finishSplash^[n] s).finishShots = s.finishShots := by
  induction n generalizing s with
  | zero => exact ⟨hm, hc, rfl⟩
  | succ k ih =>
    obtain ⟨f1, -, f3, f4⟩ := finishSplash_state s
    rw [Function.iterate_succ_apply]
    obtain ⟨a, b, c⟩ := ih s.finishSplash (by rw [f1, hm]) (by rw [f3, hm, hc]; rfl)
    refine ⟨a, b, ?_⟩
    rw [c, f4, hm, hc]
    rfl

end GateInvariant

/-- C3: in every state reached from the constructor by `startSplash`,
`finishSplash` and `onMinimumDurationElapsed` calls, `m_isClosed` implies
`isReadyToClose()`; and after a `startSplash()` on any widget, any number of
`finishSplash()` calls with no `onMinimumDurationElapsed()` leaves the gate open
and schedules no `splashFinished`. -/
theorem closed_implies_ready (ops : List GateOp) :
    ((runOps ops).m_isClosed = true → (runOps ops).isReadyToClose = true) ∧
    ∀ (n : Nat),
      (finishSplash^[n] (runOps ops).startSplash).m_isClosed = false ∧
      (finishSplash^[n] (runOps ops).startSplash).finishShots
        = (runOps ops).startSplash.finishShots := by
  constructor
  · induction ops using List.reverseRecOn with
    | nil => intro h; exact absurd h (by decide)
    | append_singleton pre o ih =>
      rw [runOps_snoc]
      exact apply_preserves_closed_implies_ready o _ ih
  · intro n
    obtain ⟨hm, -, hc⟩ := startSplash_flags (runOps ops)
    exact (iterate_finishSplash_open n _ hm hc).2

/-- Witness for C3: a completed life cycle is closed and ready. -/
theorem closed_implies_ready_witness :
    (runOps [GateOp.startSplash, GateOp.finishSplash,
        GateOp.onMinimumDurationElapsed]).m_isClosed = true ∧
    (runOps [GateOp.startSplash, GateOp.finishSplash,
        GateOp.onMinimumDurationElapsed]).isReadyToClose = true :=
  ⟨by decide,
   (closed_implies_ready [GateOp.startSplash, GateOp.finishSplash,
      GateOp.onMinimumDurationElapsed]).1 (by decide)⟩

/-- C4, as stated, fails: `startSplash()` on a closed gate sets `m_isClosed`
back to false. -/
theorem startSplash_reopens_closed_gate :
    (runOps [GateOp.startSplash, GateOp.finishSplash,
        GateOp.onMinimumDurationElapsed]).m_isClosed = true ∧
    (runOps [GateOp.startSplash, GateOp.finishSplash,
        GateOp.onMinimumDurationElapsed]).startSplash.m_isClosed = false := by
  decide

/-- C4, amended: on a closed gate `checkAndClose` changes nothing, and every
sequence of `finishSplash()` and `onMinimumDurationElapsed()` calls leaves
`m_isClosed` true and schedules no further `splashFinished`; `startSplash()`
alone re-arms the gate by resetting `m_isClosed` to false. -/
theorem closed_stays_closed_until_restart (s : SplashScreenWidget) (h : s.m_isClosed = true)
    (calls : List GateCall) :
    s.checkAndClose = s ∧
    (runCalls s calls).m_isClosed = true ∧
    (runCalls s calls).finishShots = s.finishShots ∧
    s.startSplash.m_isClosed = false := by
  have run : (runCalls s calls).m_isClosed = true ∧
      (runCalls s calls).finishShots = s.finishShots := by
    induction calls using List.reverseRecOn with
    | nil => exact ⟨h, rfl⟩
    | append_singleton pre c ih =>
      obtain ⟨i1, i2⟩ := ih
      rw [runCalls_snoc]
      cases c
      · obtain ⟨-, -, f3, f4⟩ := finishSplash_state (runCalls s pre)
        simp only [GateCall.apply, f3, f4, i1, i2]
        simp
      · obtain ⟨-, -, f3, f4⟩ := onMinimumDurationElapsed_state (runCalls s pre)
        simp only [GateCall.apply, f3, f4, i1, i2]
        simp
  refine ⟨?_, run.1, run.2, (startSplash_flags s).2.2⟩
  unfold checkAndClose
  simp [h]

/-- Witness for C4 amended: a closed gate receiving both triggers again. -/
theorem closed_stays_closed_until_restart_witness :
    (runCalls (runOps [GateOp.startSplash, GateOp.finishSplash, GateOp.onMinimumDurationElapsed])
      [GateCall.finishSplash, GateCall.onMinimumDurationElapsed]).m_isClosed = true :=
  (closed_stays_closed_until_restart
    (runOps [GateOp.startSplash, GateOp.finishSplash, GateOp.onMinimumDurationElapsed])
    (by decide) [GateCall.finishSplash, GateCall.onMinimumDurationElapsed]).2.1

end Splash

namespace Main

open Splash Splash.SplashScreenWidget

/-- C10: the `initializationFailed` handler of `main()` sets
`m_finishRequested`; it closes the gate in that call exactly when
`m_minimumDurationElapsed` was already true (on an open gate one `splashFinished`
is scheduled), and otherwise the next `onMinimumDurationElapsed()` closes it; the
flags and the number of scheduled `splashFinished` are those produced by the
`initializationComplete` handler, before and after that next timer call. -/
theorem failure_counts_as_finished (error : String) (s : SplashScreenWidget) :
    (onInitializationFailed error s).m_finishRequested = true ∧
    (onInitializationFailed error s).m_minimumDurationElapsed = s.m_minimumDurationElapsed ∧
    (onInitializationFailed error s).m_isClosed
      = (s.m_isClosed || s.m_minimumDurationElapsed) ∧
    (onInitializationFailed error s).finishShots
      = s.finishShots + (if (s.m_minimumDurationElapsed && !s.m_isClosed) = true then 1 else 0) ∧
    (onInitializationFailed error s).onMinimumDurationElapsed.m_isClosed = true ∧
    (onInitializationFailed error s).onMinimumDurationElapsed.finishShots
      = s.finishShots + (if s.m_isClosed = true then 0 else 1) ∧
    (onInitializationFailed error s).m_finishRequested
      = (onInitializationComplete s).m_finishRequested ∧
    (onInitializationFailed error s).m_minimumDurationElapsed
      = (onInitializationComplete s).m_minimumDurationElapsed ∧
    (onInitializationFailed error s).m_isClosed = (onInitializationComplete s).m_isClosed ∧
    (onInitializationFailed error s).finishShots = (onInitializationComplete s).finishShots ∧
    (onInitializationFailed error s).onMinimumDurationElapsed.m_isClosed
      = (onInitializationComplete s).onMinimumDurationElapsed.m_isClosed ∧
    (onInitializationFailed error s).onMinimumDurationElapsed.finishShots
      = (onInitializationComplete s).onMinimumDurationElapsed.finishShots := by
  have hs : (s.setStatusMessage ("Error: " ++ error)).finishShots = s.finishShots := by
    simp [setStatusMessage, finishShots_log]
  obtain ⟨a1, a2, a3, a4⟩ := finishSplash_state (s.setStatusMessage ("Error: " ++ error))
  obtain ⟨b1, b2, b3, b4⟩ := finishSplash_state s
  obtain ⟨-, -, c3, c4⟩ :=
    onMinimumDurationElapsed_state (s.setStatusMessage ("Error: " ++ error)).finishSplash
  obtain ⟨-, -, d3, d4⟩ := onMinimumDurationElapsed_state s.finishSplash
  have e1 : (s.setStatusMessage ("Error: " ++ error)).m_minimumDurationElapsed
      = s.m_minimumDurationElapsed := rfl
  have e3 : (s.setStatusMessage ("Error: " ++ error)).m_isClosed = s.m_isClosed := rfl
  simp only [onInitializationFailed, onInitializationComplete, a1, a2, a3, a4, b1, b2, b3, b4,
    c3, c4, d3, d4, e1, e3, hs]
  cases s.m_isClosed <;> cases s.m_minimumDurationElapsed <;> simp

end Main

namespace Example

open MainWindow

section Orchestrator

theorem runNextTask_cancelled (w : MainWindow) (h : w.m_cancelled = true) :
    w.runNextTask = w := by
  simp [runNextTask, h]

theorem runNextTask_done (w : MainWindow) (hc : w.m_cancelled = false)
    (hi : w.m_initTasks.length ≤ w.m_currentTaskIndex) :
    w.runNextTask = w.emit Signal.initializationComplete := by
  simp [runNextTask, hc, hi]

theorem getElem_middle (pre post : List InitTask) (t : InitTask)
    (h : pre.length < (pre ++ t :: post).length) : (pre ++ t :: post)[pre.length] = t := by
  rw [List.getElem_append_right (Nat.le_refl _)]
  simp

theorem runNextTask_start (w : MainWindow) (pre post : List InitTask) (t : InitTask)
    (hc : w.m_cancelled = false) (ht : w.m_initTasks = pre ++ t :: post)
    (hi : w.m_currentTaskIndex = pre.length) :
    w.runNextTask =
      { w with events := w.events ++ startEvents pre.length t
               pending := w.pending ++ [pendingOf t] } := by
  obtain ⟨tasks, idx, c, p, e⟩ := w
  simp only at hc ht hi
  subst hc ht hi
  unfold runNextTask
  by_cases hh : t.isHeavyTask = true <;>
    simp [hh, MainWindow.emit, startEvents, pendingOf, getElem_middle]

theorem returns_ok (t : InitTask) (h : t.returns = true) : t.taskMethod () = Except.ok () := by
  unfold InitTask.returns at h
  cases hm : t.taskMethod () with
  | ok u => rfl
  | error e => rw [hm] at h; simp at h

theorem not_returns_error (t : InitTask) (h : t.returns = false) :
    ∃ e, t.taskMethod () = Except.error e := by
  unfold InitTask.returns at h
  cases hm : t.taskMethod () with
  | ok u => rw [hm] at h; simp at h
  | error e => exact ⟨e, rfl⟩

theorem drain_add (m n : Nat) (w : MainWindow) : drain (m + n) w = drain n (drain m w) := by
  unfold drain
  rw [Nat.add_comm, Function.iterate_add_apply]

theorem drain_idle (n : Nat) (w : MainWindow) (h : w.pending = []) : drain n w = w := by
  induction n with
  | zero => rfl
  | succ k ih =>
    unfold drain at ih ⊢
    rw [Function.iterate_succ_apply]
    have : Act.apply (Act.deliver 0) w = w := by simp [Act.apply, h]
    rw [this, ih]

/-- A task whose action returns is taken from hand-over to its completion
lambda, which emits the completion, advances the index and calls `runNextTask`. -/
theorem drain_round (w : MainWindow) (t : InitTask) (hc : w.m_cancelled = false)
    (hp : w.pending = []) (hr : t.returns = true) (es : List Event) :
    drain (deliveries t) { w with events := es, pending := w.pending ++ [pendingOf t] }
      = runNextTask
          { w with
            events :=
              es ++ [Event.emitted (Signal.initializationStepCompleted (w.m_currentTaskIndex + 1))]
            m_currentTaskIndex := w.m_currentTaskIndex + 1 } := by
  obtain ⟨tasks, idx, c, p, e⟩ := w
  simp only at hc hp
  subst hc hp
  have hok := returns_ok t hr
  by_cases hh : t.isHeavyTask = true <;>
    simp [drain, deliveries, pendingOf, hh, Act.apply, runPending, hok, onTaskCompleted,
      completionLambda, MainWindow.emit]

/-- A task whose action throws stops the run after one delivery. -/
theorem drain_throw (w : MainWindow) (t : InitTask)
    (hp : w.pending = []) (hr : t.returns = false) (es : List Event) :
    drain 1 { w with events := es, pending := w.pending ++ [pendingOf t] }
      = { w with events := es } := by
  obtain ⟨tasks, idx, c, p, e⟩ := w
  simp only at hp
  subst hp
  obtain ⟨err, herr⟩ := not_returns_error t hr
  by_cases hh : t.isHeavyTask = true <;>
    simp [drain, pendingOf, hh, Act.apply, runPending, herr]

/-- An uncancelled run, driven until nothing is pending, produces the full log. -/
theorem drain_full (post : List InitTask) :
    ∀ (pre : List InitTask) (w : MainWindow), w.m_cancelled = false → w.pending = [] →
      w.m_initTasks = pre ++ post → w.m_currentTaskIndex = pre.length →
      (drain (totalDeliveries post) w.runNextTask).events
          = w.events ++ fullRunEvents pre.length post ∧
        (drain (totalDeliveries post) w.runNextTask).pending = [] := by
  induction post with
  | nil =>
    intro pre w hc hp ht hi
    rw [runNextTask_done w hc (by rw [ht, hi]; simp)]
    simp [totalDeliveries, drain, MainWindow.emit, fullRunEvents, hp]
  | cons t ts ih =>
    intro pre w hc hp ht hi
    rw [runNextTask_start w pre ts t hc ht hi]
    by_cases hr : t.returns = true
    · simp only [totalDeliveries, hr, if_true, drain_add]
      rw [drain_round w t hc hp hr]
      have := ih (pre ++ [t])
        { w with
          events := w.events ++ startEvents pre.length t
            ++ [Event.emitted (Signal.initializationStepCompleted (w.m_currentTaskIndex + 1))]
          m_currentTaskIndex := w.m_currentTaskIndex + 1 }
        hc hp (by simp [ht]) (by simp [hi])
      obtain ⟨a, b⟩ := this
      refine ⟨?_, b⟩
      rw [a]
      simp [fullRunEvents, hr, hi]
    · have hr2 : t.returns = false := by simpa using hr
      simp only [totalDeliveries, hr2]
      rw [if_neg (by decide), drain_throw w t hp hr2]
      simp [fullRunEvents, hr2, hp]

end Orchestrator


section OneAtATime

theorem oneAtATime_append (st : Nat × Bool) (es fs : List Event) :
    oneAtATime st (es ++ fs) = (oneAtATime st es).bind (fun s => oneAtATime s fs) := by
  simp [oneAtATime, List.foldlM_append]

theorem oneAtATime_nil (st : Nat × Bool) : oneAtATime st [] = some st := rfl

theorem oneAtATime_cons (st : Nat × Bool) (e : Event) (es : List Event) :
    oneAtATime st (e :: es) = (oneAtATimeStep st e).bind (fun s => oneAtATime s es) := by
  simp [oneAtATime, List.foldlM_cons]

/-- The invariant that steps are handled one at a time is kept by every act. -/
theorem apply_keeps_one (a : Act) (w : MainWindow)
    (hp : w.pending.length ≤ 1)
    (hs : ∃ o, oneAtATime (0, false) w.events = some (w.m_currentTaskIndex, o) ∧
      (w.pending ≠ [] → o = true)) :
    (a.apply w).pending.length ≤ 1 ∧
    ∃ o, oneAtATime (0, false) (a.apply w).events = some ((a.apply w).m_currentTaskIndex, o) ∧
      ((a.apply w).pending ≠ [] → o = true) := by
  obtain ⟨o, hs1, hs2⟩ := hs
  cases a with
  | cancel => exact ⟨hp, o, hs1, hs2⟩
  | deliver i =>
    obtain ⟨tasks, idx, c, pend, evs⟩ := w
    simp only at hp hs1 hs2
    match pend, hp, hs2 with
    | [], _, _ => exact ⟨by simp [Act.apply], o, by simpa [Act.apply] using hs1, by simp [Act.apply]⟩
    | [p], _, hs2 =>
      have ho : o = true := hs2 (by simp)
      subst ho
      cases i with
      | succ j => exact ⟨by simp [Act.apply], true, by simpa [Act.apply] using hs1, by simp [Act.apply]⟩
      | zero =>
        cases p with
        | concurrentRun t =>
          cases hm : t.taskMethod () <;>
            simp [Act.apply, runPending, hm, hs1]
        | singleShot t =>
          cases hm : t.taskMethod () <;> cases c <;>
            simp [Act.apply, runPending, hm, hs1, onTaskCompleted]
        | onTaskCompletedCall =>
          cases c <;> simp [Act.apply, runPending, hs1, onTaskCompleted]
        | completionLambda =>
          cases c
          · by_cases hd : tasks.length ≤ idx + 1
            · simp [Act.apply, runPending, completionLambda, runNextTask, MainWindow.emit, hd,
                oneAtATime_append, hs1, oneAtATime_cons, oneAtATime_nil, oneAtATimeStep]
            · by_cases hh : (tasks[idx + 1]).isHeavyTask = true <;>
              simp [Act.apply, runPending, completionLambda, runNextTask, MainWindow.emit, hd, hh,
                oneAtATime_append, hs1, oneAtATime_cons, oneAtATime_nil, oneAtATimeStep]
          · simp [Act.apply, runPending, completionLambda, runNextTask, MainWindow.emit,
              oneAtATime_append, hs1, oneAtATime_cons, oneAtATime_nil, oneAtATimeStep]
    | _ :: _ :: _, hp, _ => simp at hp

end OneAtATime


section RunShape

theorem run_snoc (w : MainWindow) (pre : List Act) (a : Act) :
    run w (pre ++ [a]) = a.apply (run w pre) := by
  simp [run, List.foldl_append]

/-- Every state of a run started by `initialize()` has at most one piece of
pending work and an event log that passes the one-at-a-time check. -/
theorem run_keeps_one (tasks : List InitTask) (acts : List Act) :
    (run ( MainWindow.initialize (construct tasks)) acts).pending.length ≤ 1 ∧
    ∃ o, oneAtATime (0, false) (run ( MainWindow.initialize (construct tasks)) acts).events
        = some ((run ( MainWindow.initialize (construct tasks)) acts).m_currentTaskIndex, o) ∧
      ((run ( MainWindow.initialize (construct tasks)) acts).pending ≠ [] → o = true) := by
  induction acts using List.reverseRecOn with
  | nil =>
    cases tasks with
    | nil =>
      simp [run, MainWindow.initialize, construct, runNextTask, MainWindow.emit,
        oneAtATime_cons, oneAtATime_nil, oneAtATimeStep]
    | cons t ts =>
      by_cases hh : t.isHeavyTask = true <;>
        simp [run, MainWindow.initialize, construct, runNextTask, MainWindow.emit, hh,
          oneAtATime_cons, oneAtATime_nil, oneAtATimeStep]
  | append_singleton pre a ih =>
    rw [run_snoc]
    exact apply_keeps_one a _ ih.1 ih.2

theorem runNextTask_events (w : MainWindow) :
    ∃ extra, w.runNextTask.events = w.events ++ extra := by
  unfold runNextTask
  split
  · exact ⟨[], by simp⟩
  · split
    · exact ⟨_, rfl⟩
    · simp only [MainWindow.emit]
      split
      · exact ⟨_, by simp [List.append_assoc]; rfl⟩
      · exact ⟨_, by simp [List.append_assoc]; rfl⟩

theorem apply_events (a : Act) (w : MainWindow) :
    ∃ extra, (a.apply w).events = w.events ++ extra := by
  cases a with
  | cancel => exact ⟨[], by simp [Act.apply]⟩
  | deliver i =>
    unfold Act.apply
    simp only
    cases hg : w.pending.get? i with
    | none => exact ⟨[], by simp⟩
    | some p =>
      cases p with
      | concurrentRun t =>
        simp only [runPending]
        cases t.taskMethod () <;> exact ⟨[], by simp⟩
      | singleShot t =>
        simp only [runPending, onTaskCompleted]
        cases t.taskMethod ()
        · exact ⟨[], by simp⟩
        · simp only
          split <;> exact ⟨[], by simp⟩
      | onTaskCompletedCall =>
        simp only [runPending, onTaskCompleted]
        split <;> exact ⟨[], by simp⟩
      | completionLambda =>
        simp only [runPending, completionLambda]
        obtain ⟨extra, he⟩ := runNextTask_events
          { (MainWindow.emit { w with pending := w.pending.eraseIdx i }
              (Signal.initializationStepCompleted (w.m_currentTaskIndex + 1))) with
            m_currentTaskIndex := w.m_currentTaskIndex + 1 }
        exact ⟨_ :: extra, by simpa [MainWindow.emit] using he⟩

theorem drain_events (m : Nat) (w : MainWindow) :
    w.events <+: (drain m w).events := by
  induction m generalizing w with
  | zero => exact List.prefix_refl _
  | succ k ih =>
    unfold drain at ih ⊢
    rw [Function.iterate_succ_apply]
    obtain ⟨extra, he⟩ := apply_events (Act.deliver 0) w
    exact List.IsPrefix.trans ⟨extra, he.symm⟩ (ih _)

/-- A schedule without cancellation is a run of the oldest pending work with
idle deliveries in between. -/
theorem run_eq_drain (tasks : List InitTask) (acts : List Act)
    (h : ∀ a ∈ acts, a ≠ Act.cancel) :
    ∃ m, run ( MainWindow.initialize (construct tasks)) acts
      = drain m ( MainWindow.initialize (construct tasks)) := by
  induction acts using List.reverseRecOn with
  | nil => exact ⟨0, rfl⟩
  | append_singleton pre a ih =>
    obtain ⟨m, hm⟩ := ih (fun b hb => h b (by simp [hb]))
    rw [run_snoc]
    cases a with
    | cancel => exact absurd rfl (h Act.cancel (by simp))
    | deliver i =>
      cases i with
      | zero =>
        refine ⟨m + 1, ?_⟩
        rw [hm, drain_add]
        rfl
      | succ j =>
        refine ⟨m, ?_⟩
        have hl := (run_keeps_one tasks pre).1
        have : (run ( MainWindow.initialize (construct tasks)) pre).pending.get? (j + 1) = none := by
          rw [List.get?_eq_none]
          omega
        rw [← hm]
        unfold Act.apply
        simp only [this]

theorem totalDeliveries_le (ts : List InitTask) : totalDeliveries ts ≤ 3 * ts.length := by
  induction ts with
  | nil => simp [totalDeliveries]
  | cons t ts ih =>
    simp only [totalDeliveries, deliveries, List.length_cons]
    split
    · split <;> omega
    · omega

/-- Driven for long enough, a run that is never cancelled ends with the full
log and nothing pending. -/
theorem full_run (tasks : List InitTask) (fuel : Nat) (hf : totalDeliveries tasks ≤ fuel) :
    (drain fuel ( MainWindow.initialize (construct tasks))).events = fullRunEvents 0 tasks ∧
    (drain fuel ( MainWindow.initialize (construct tasks))).pending = [] := by
  have key := drain_full tasks []
    { construct tasks with m_currentTaskIndex := 0, m_cancelled := false } rfl rfl rfl rfl
  obtain ⟨k, rfl⟩ : ∃ k, fuel = totalDeliveries tasks + k := ⟨fuel - totalDeliveries tasks, by omega⟩
  rw [drain_add]
  have e : MainWindow.initialize (construct tasks)
      = runNextTask { construct tasks with m_currentTaskIndex := 0, m_cancelled := false } := rfl
  rw [e, drain_idle k _ key.2]
  exact ⟨by simpa [construct] using key.1, key.2⟩

/-- Under every schedule without cancellation the log is a prefix of the full
log. -/
theorem run_prefix (tasks : List InitTask) (acts : List Act)
    (h : ∀ a ∈ acts, a ≠ Act.cancel) :
    (run ( MainWindow.initialize (construct tasks)) acts).events <+: fullRunEvents 0 tasks := by
  obtain ⟨m, hm⟩ := run_eq_drain tasks acts h
  rw [hm]
  have h1 := full_run tasks (m + totalDeliveries tasks) (by omega)
  rw [← h1.1, drain_add]
  exact drain_events _ _

end RunShape


section Logs

theorem fullRunEvents_all_return (ts : List InitTask) (h : ∀ t ∈ ts, t.returns = true) :
    ∀ first, fullRunEvents first ts
      = completedEvents first ts ++ [Event.emitted Signal.initializationComplete] := by
  induction ts with
  | nil => intro first; rfl
  | cons t ts ih =>
    intro first
    have ht : t.returns = true := h t (by simp)
    simp [fullRunEvents, completedEvents, ht, ih (fun u hu => h u (by simp [hu]))]

theorem fullRunEvents_throw (pre post : List InitTask) (bad : InitTask)
    (h : ∀ t ∈ pre, t.returns = true) (hb : bad.returns = false) :
    ∀ first, fullRunEvents first (pre ++ bad :: post)
      = completedEvents first pre ++ startEvents (first + pre.length) bad := by
  induction pre with
  | nil => intro first; simp [fullRunEvents, completedEvents, hb]
  | cons t ts ih =>
    intro first
    have ht : t.returns = true := h t (by simp)
    have e : first + 1 + ts.length = first + (ts.length + 1) := by omega
    simp [fullRunEvents, completedEvents, ht, ih (fun u hu => h u (by simp [hu])), e]

theorem totalDeliveries_throw (pre post : List InitTask) (bad : InitTask)
    (h : ∀ t ∈ pre, t.returns = true) (hb : bad.returns = false) :
    totalDeliveries (pre ++ bad :: post) ≤ 3 * pre.length + 1 := by
  induction pre with
  | nil => simp [totalDeliveries, hb]
  | cons t ts ih =>
    have ht : t.returns = true := h t (by simp)
    have := ih (fun u hu => h u (by simp [hu]))
    rw [List.cons_append]
    simp only [totalDeliveries, ht, if_true, deliveries, List.length_cons]
    split <;> omega

theorem signalsOf_completedEvents (ts : List InitTask) :
    ∀ first, signalsOf (completedEvents first ts ++ [Event.emitted Signal.initializationComplete])
      = expectedTrace first ts := by
  induction ts with
  | nil => intro first; rfl
  | cons t ts ih =>
    intro first
    have := ih (first + 1)
    by_cases hh : t.isHeavyTask = true <;>
      simp_all [signalsOf, completedEvents, startEvents, expectedTrace]

theorem dispatchedIndices_completedEvents (ts : List InitTask) :
    ∀ first, dispatchedIndices (completedEvents first ts) = List.range' first ts.length := by
  induction ts with
  | nil => intro first; rfl
  | cons t ts ih =>
    intro first
    have := ih (first + 1)
    by_cases hh : t.isHeavyTask = true <;>
      simp_all [dispatchedIndices, completedEvents, startEvents, List.range'_succ]

theorem completedSteps_completedEvents (ts : List InitTask) :
    ∀ first, completedSteps (completedEvents first ts) = List.range' (first + 1) ts.length := by
  induction ts with
  | nil => intro first; rfl
  | cons t ts ih =>
    intro first
    have := ih (first + 1)
    by_cases hh : t.isHeavyTask = true <;>
      simp_all [completedSteps, completedEvents, startEvents, List.range'_succ]

theorem dispatchedIndices_append (es fs : List Event) :
    dispatchedIndices (es ++ fs) = dispatchedIndices es ++ dispatchedIndices fs := by
  simp [dispatchedIndices, List.filterMap_append]

theorem completedSteps_append (es fs : List Event) :
    completedSteps (es ++ fs) = completedSteps es ++ completedSteps fs := by
  simp [completedSteps, List.filterMap_append]

theorem dispatchedIndices_startEvents (i : Nat) (t : InitTask) :
    dispatchedIndices (startEvents i t) = [i] := by
  by_cases hh : t.isHeavyTask = true <;> simp [dispatchedIndices, startEvents, hh]

theorem completedSteps_startEvents (i : Nat) (t : InitTask) :
    completedSteps (startEvents i t) = [] := by
  by_cases hh : t.isHeavyTask = true <;> simp [completedSteps, startEvents, hh]

theorem complete_not_mem_completedEvents (ts : List InitTask) :
    ∀ first, Event.emitted Signal.initializationComplete ∉ completedEvents first ts := by
  induction ts with
  | nil => intro first; simp [completedEvents]
  | cons t ts ih =>
    intro first
    have := ih (first + 1)
    by_cases hh : t.isHeavyTask = true <;>
      simp_all [completedEvents, startEvents]

theorem complete_not_mem_startEvents (i : Nat) (t : InitTask) :
    Event.emitted Signal.initializationComplete ∉ startEvents i t := by
  by_cases hh : t.isHeavyTask = true <;> simp [startEvents, hh]

/-- The one-at-a-time check accounts for every hand-over and completion. -/
theorem oneAtATime_counts (es : List Event) :
    ∀ (st st2 : Nat × Bool), oneAtATime st es = some st2 →
      (dispatchedIndices es).length + (if st2.2 = true then 0 else 1)
        = (completedSteps es).length + (if st.2 = true then 0 else 1) := by
  induction es with
  | nil =>
    intro st st2 h
    simp [oneAtATime_nil] at h
    subst h
    rfl
  | cons e es ih =>
    intro st st2 h
    rw [oneAtATime_cons] at h
    cases hs : oneAtATimeStep st e with
    | none => simp [hs] at h
    | some mid =>
      rw [hs] at h
      have := ih mid st2 (by simpa using h)
      obtain ⟨n, o⟩ := st
      cases e with
      | concurrentRun i =>
        simp only [oneAtATimeStep] at hs
        split at hs
        · cases hs
          simp_all [dispatchedIndices, completedSteps]
          omega
        · cases hs
      | singleShot i =>
        simp only [oneAtATimeStep] at hs
        split at hs
        · cases hs
          simp_all [dispatchedIndices, completedSteps]
          omega
        · cases hs
      | emitted sig =>
        cases sig with
        | initializationStepCompleted step =>
          simp only [oneAtATimeStep] at hs
          split at hs
          · cases hs
            simp_all [dispatchedIndices, completedSteps]
          · cases hs
        | initializationStepStarted step msg =>
          simp only [oneAtATimeStep] at hs
          cases hs
          simpa [dispatchedIndices, completedSteps] using this
        | initializationComplete =>
          simp only [oneAtATimeStep] at hs
          cases hs
          simpa [dispatchedIndices, completedSteps] using this
        | initializationFailed err =>
          simp only [oneAtATimeStep] at hs
          cases hs
          simpa [dispatchedIndices, completedSteps] using this

end Logs


section Silent

theorem runNextTask_failedCount (w : MainWindow) :
    failedCount w.runNextTask.events = failedCount w.events := by
  unfold runNextTask
  split
  · rfl
  · split
    · simp [MainWindow.emit, failedCount, List.countP_append]
    · simp only [MainWindow.emit]
      split <;> simp [failedCount, List.countP_append]

theorem apply_failedCount (a : Act) (w : MainWindow) :
    failedCount (a.apply w).events = failedCount w.events := by
  cases a with
  | cancel => rfl
  | deliver i =>
    unfold Act.apply
    simp only
    cases hg : w.pending.get? i with
    | none => rfl
    | some p =>
      cases p with
      | concurrentRun t =>
        simp only [runPending]
        cases t.taskMethod () <;> rfl
      | singleShot t =>
        simp only [runPending, onTaskCompleted]
        cases t.taskMethod ()
        · rfl
        · simp only
          split <;> rfl
      | onTaskCompletedCall =>
        simp only [runPending, onTaskCompleted]
        split <;> rfl
      | completionLambda =>
        simp only [runPending, completionLambda]
        rw [runNextTask_failedCount]
        simp [MainWindow.emit, failedCount, List.countP_append]

theorem run_failedCount (w : MainWindow) (acts : List Act) :
    failedCount (run w acts).events = failedCount w.events := by
  induction acts using List.reverseRecOn with
  | nil => rfl
  | append_singleton pre a ih => rw [run_snoc, apply_failedCount, ih]

theorem initialize_failedCount (tasks : List InitTask) :
    failedCount ( MainWindow.initialize (construct tasks)).events = 0 := by
  unfold MainWindow.initialize
  rw [runNextTask_failedCount]
  rfl

/-- Once `m_cancelled` is true an act keeps it true and adds nothing to the log
but `initializationStepCompleted` signals. -/
theorem apply_cancelled (a : Act) (w : MainWindow) (hc : w.m_cancelled = true) :
    (a.apply w).m_cancelled = true ∧
    ∃ extra, (a.apply w).events = w.events ++ extra ∧
      ∀ e ∈ extra, ∃ step, e = Event.emitted (Signal.initializationStepCompleted step) := by
  cases a with
  | cancel => exact ⟨rfl, [], by simp [Act.apply], by simp⟩
  | deliver i =>
    unfold Act.apply
    simp only
    cases hg : w.pending.get? i with
    | none => exact ⟨hc, [], by simp, by simp⟩
    | some p =>
      cases p with
      | concurrentRun t =>
        simp only [runPending]
        cases t.taskMethod () <;> exact ⟨hc, [], by simp, by simp⟩
      | singleShot t =>
        simp only [runPending, onTaskCompleted]
        cases t.taskMethod () <;> exact ⟨by simp [hc], [], by simp [hc], by simp⟩
      | onTaskCompletedCall =>
        simp only [runPending, onTaskCompleted]
        exact ⟨by simp [hc], [], by simp [hc], by simp⟩
      | completionLambda =>
        simp only [runPending, completionLambda]
        rw [runNextTask_cancelled _ (by simpa [MainWindow.emit] using hc)]
        exact ⟨hc, [Event.emitted (Signal.initializationStepCompleted (w.m_currentTaskIndex + 1))],
          by simp [MainWindow.emit], by simp⟩

theorem run_cancelled (w : MainWindow) (hc : w.m_cancelled = true) (acts : List Act) :
    (run w acts).m_cancelled = true ∧
    ∃ extra, (run w acts).events = w.events ++ extra ∧
      ∀ e ∈ extra, ∃ step, e = Event.emitted (Signal.initializationStepCompleted step) := by
  induction acts using List.reverseRecOn with
  | nil => exact ⟨hc, [], by simp [run], by simp⟩
  | append_singleton pre a ih =>
    obtain ⟨c1, extra, e1, p1⟩ := ih
    obtain ⟨c2, extra2, e2, p2⟩ := apply_cancelled a (run w pre) c1
    rw [run_snoc]
    refine ⟨c2, extra ++ extra2, by rw [e2, e1, List.append_assoc], ?_⟩
    intro e he
    rcases List.mem_append.mp he with h | h
    · exact p1 e h
    · exact p2 e h

end Silent

/-- C5, as stated, fails: for the task list of `setupInitializationTasks()` the
completed notifications of a full run carry 1, 2, ..., 8 and not 0, 1, ..., 7. -/
theorem completed_steps_are_one_based :
    completedSteps (drain 24 ( MainWindow.initialize (construct setupInitializationTasks))).events
      = [1, 2, 3, 4, 5, 6, 7, 8] ∧
    completedSteps (drain 24 ( MainWindow.initialize (construct setupInitializationTasks))).events
      ≠ List.range 8 := by
  decide

/-- C5, amended: for every task list whose actions return, whatever the mix of
quick and heavy tasks, a run that is never cancelled hands the actions over in
list order (positions 0, 1, ..., n-1) and its `initializationStepCompleted`
signals carry the 1-based step numbers 1, 2, ..., n in this order; under every
schedule without cancellation the two sequences are prefixes of these. -/
theorem dispatch_and_completion_order (tasks : List InitTask)
    (h : ∀ t ∈ tasks, t.returns = true) :
    (∀ fuel, 3 * tasks.length ≤ fuel →
      dispatchedIndices (drain fuel ( MainWindow.initialize (construct tasks))).events
        = List.range tasks.length ∧
      completedSteps (drain fuel ( MainWindow.initialize (construct tasks))).events
        = List.range' 1 tasks.length) ∧
    (∀ acts : List Act, (∀ a ∈ acts, a ≠ Act.cancel) →
      dispatchedIndices (run ( MainWindow.initialize (construct tasks)) acts).events
        <+: List.range tasks.length ∧
      completedSteps (run ( MainWindow.initialize (construct tasks)) acts).events
        <+: List.range' 1 tasks.length) := by
  have hfull := fullRunEvents_all_return tasks h 0
  have hd : dispatchedIndices (fullRunEvents 0 tasks) = List.range tasks.length := by
    rw [hfull, dispatchedIndices_append, dispatchedIndices_completedEvents,
      List.range_eq_range']
    simp [dispatchedIndices]
  have hc : completedSteps (fullRunEvents 0 tasks) = List.range' 1 tasks.length := by
    rw [hfull, completedSteps_append, completedSteps_completedEvents]
    simp [completedSteps]
  constructor
  · intro fuel hf
    have := (full_run tasks fuel (le_trans (totalDeliveries_le tasks) hf)).1
    rw [this]
    exact ⟨hd, hc⟩
  · intro acts ha
    have := run_prefix tasks acts ha
    exact ⟨hd ▸ List.IsPrefix.filterMap _ this, hc ▸ List.IsPrefix.filterMap _ this⟩

/-- Witness for C5 amended: the task list of `setupInitializationTasks()`. -/
theorem dispatch_and_completion_order_witness :
    dispatchedIndices
        (drain 24 ( MainWindow.initialize (construct setupInitializationTasks))).events
      = List.range 8 :=
  ((dispatch_and_completion_order setupInitializationTasks (by decide)).1 24 (by decide)).1

/-- C6: for every task list whose actions return, a run started by
`initialize()` and never cancelled, driven until nothing is pending (3n
deliveries are enough), has emitted exactly
`initializationStepStarted(1, d1)`, `initializationStepCompleted(1)`, ...,
`initializationStepStarted(n, dn)`, `initializationStepCompleted(n)`,
`initializationComplete`, and nothing is left pending; under every schedule
without cancellation the signals emitted so far are a prefix of this trace. -/
theorem uncancelled_run_trace (tasks : List InitTask)
    (h : ∀ t ∈ tasks, t.returns = true) :
    (∀ fuel, 3 * tasks.length ≤ fuel →
      (drain fuel ( MainWindow.initialize (construct tasks))).trace = expectedTrace 0 tasks ∧
      (drain fuel ( MainWindow.initialize (construct tasks))).pending = []) ∧
    (∀ acts : List Act, (∀ a ∈ acts, a ≠ Act.cancel) →
      (run ( MainWindow.initialize (construct tasks)) acts).trace <+: expectedTrace 0 tasks) := by
  have hfull := fullRunEvents_all_return tasks h 0
  have ht : signalsOf (fullRunEvents 0 tasks) = expectedTrace 0 tasks := by
    rw [hfull, signalsOf_completedEvents]
  constructor
  · intro fuel hf
    obtain ⟨e, p⟩ := full_run tasks fuel (le_trans (totalDeliveries_le tasks) hf)
    refine ⟨?_, p⟩
    show signalsOf _ = _
    rw [e, ht]
  · intro acts ha
    have := run_prefix tasks acts ha
    exact ht ▸ List.IsPrefix.filterMap _ this

/-- Witness for C6: the task list of `setupInitializationTasks()`. -/
theorem uncancelled_run_trace_witness :
    (drain 24 ( MainWindow.initialize (construct setupInitializationTasks))).trace
      = expectedTrace 0 setupInitializationTasks :=
  ((uncancelled_run_trace setupInitializationTasks (by decide)).1 24 (by decide)).1

/-- C7: in every state reached from `initialize()` by deliveries of pending work
in any order and by cancellation, at most one piece of work is pending, the log
passes the one-at-a-time check (position `i` is handed over only when nothing is
outstanding and exactly the steps 1..i have completed), and the number of
hand-overs exceeds the number of completions by at most one. -/
theorem one_step_outstanding (tasks : List InitTask) (acts : List Act) :
    (run ( MainWindow.initialize (construct tasks)) acts).pending.length ≤ 1 ∧
    (oneAtATime (0, false)
      (run ( MainWindow.initialize (construct tasks)) acts).events).isSome = true ∧
    (dispatchedIndices (run ( MainWindow.initialize (construct tasks)) acts).events).length
      ≤ (completedSteps (run ( MainWindow.initialize (construct tasks)) acts).events).length + 1 := by
  obtain ⟨hp, o, hs, -⟩ := run_keeps_one tasks acts
  refine ⟨hp, by rw [hs]; rfl, ?_⟩
  have := oneAtATime_counts _ _ _ hs
  simp only [Bool.false_eq_true, if_false] at this
  omega

/-- C8: from any state, once `m_cancelled` is set, whatever pending work is
delivered afterwards adds nothing to the event log except
`initializationStepCompleted` signals: no `initializationStepStarted`, no
`initializationComplete`, no `initializationFailed` and no hand-over of an
action. -/
theorem cancel_is_silent (w : MainWindow) (acts : List Act) :
    ∃ extra, (run (Act.apply Act.cancel w) acts).events = w.events ++ extra ∧
      ∀ e ∈ extra, ∃ step, e = Event.emitted (Signal.initializationStepCompleted step) :=
  (run_cancelled (Act.apply Act.cancel w) rfl acts).2

/-- C9, as stated, fails: in Scenario C (the action at index 2 of 5 throws) the
run ends with nothing pending and no `initializationFailed` was emitted. -/
theorem failing_step_emits_no_failure :
    (drain 16 ( MainWindow.initialize (construct scenarioC))).pending.length = 0 ∧
    failedCount (drain 16 ( MainWindow.initialize (construct scenarioC))).events = 0 := by
  decide

/-- C9, amended: no run ever emits `initializationFailed`.  When the actions
before position k return and the action at position k throws, the run ends
after the hand-over of position k with nothing pending: the completions carry
exactly 1..k (none for the failing step), the positions handed over are exactly
0..k (none after k), `initializationComplete` is not emitted, and under every
schedule without cancellation the log is a prefix of this one. -/
theorem failing_step_stops_run (pre post : List InitTask) (bad : InitTask)
    (hpre : ∀ t ∈ pre, t.returns = true) (hbad : bad.returns = false) :
    (∀ acts : List Act,
      failedCount (run ( MainWindow.initialize (construct (pre ++ bad :: post))) acts).events = 0) ∧
    (∀ fuel, 3 * pre.length + 1 ≤ fuel →
      (drain fuel ( MainWindow.initialize (construct (pre ++ bad :: post)))).events
        = completedEvents 0 pre ++ startEvents pre.length bad ∧
      (drain fuel ( MainWindow.initialize (construct (pre ++ bad :: post)))).pending = [] ∧
      completedSteps (drain fuel ( MainWindow.initialize (construct (pre ++ bad :: post)))).events
        = List.range' 1 pre.length ∧
      dispatchedIndices (drain fuel ( MainWindow.initialize (construct (pre ++ bad :: post)))).events
        = List.range (pre.length + 1) ∧
      Event.emitted Signal.initializationComplete
        ∉ (drain fuel ( MainWindow.initialize (construct (pre ++ bad :: post)))).events) ∧
    (∀ acts : List Act, (∀ a ∈ acts, a ≠ Act.cancel) →
      (run ( MainWindow.initialize (construct (pre ++ bad :: post))) acts).events
        <+: completedEvents 0 pre ++ startEvents pre.length bad) := by
  have hfull := fullRunEvents_throw pre post bad hpre hbad 0
  rw [Nat.zero_add] at hfull
  refine ⟨?_, ?_, ?_⟩
  · intro acts
    rw [run_failedCount, initialize_failedCount]
  · intro fuel hf
    obtain ⟨e, p⟩ := full_run (pre ++ bad :: post) fuel
      (le_trans (totalDeliveries_throw pre post bad hpre hbad) hf)
    rw [e, hfull]
    refine ⟨rfl, p, ?_, ?_, ?_⟩
    · rw [completedSteps_append, completedSteps_completedEvents, completedSteps_startEvents]
      simp
    · rw [dispatchedIndices_append, dispatchedIndices_completedEvents,
        dispatchedIndices_startEvents, List.range_eq_range', List.range'_concat]
      simp
    · intro hm
      rcases List.mem_append.mp hm with h1 | h1
      · exact complete_not_mem_completedEvents pre 0 h1
      · exact complete_not_mem_startEvents _ _ h1
  · intro acts ha
    rw [← hfull]
    exact run_prefix _ acts ha

/-- Witness for C9 amended: Scenario C, the action at index 2 of 5 throws. -/
theorem failing_step_stops_run_witness :
    completedSteps (drain 16 ( MainWindow.initialize (construct scenarioC))).events = [1, 2] ∧
    dispatchedIndices (drain 16 ( MainWindow.initialize (construct scenarioC))).events
      = [0, 1, 2] :=
  have h := (failing_step_stops_run (scenarioC.take 2) (scenarioC.drop 3)
    { name := "plugins", description := "Loading plugins",
      taskMethod := fun _ => Except.error "plugin directory unreadable", isHeavyTask := true }
    (by decide) (by decide)).2.1 16 (by decide)
  ⟨h.2.2.1, h.2.2.2.1⟩

end Example

namespace Main

open Splash Splash.SplashScreenWidget

section Display

theorem bar_log (s : SplashScreenWidget) (es : List Effect) :
    (s.log es).bar = es.foldl QProgressBar.perform s.bar := by
  simp [SplashScreenWidget.bar, SplashScreenWidget.log, List.foldl_append]

theorem setValue_range (b : QProgressBar) (v : Int) :
    (b.setValue v).minimum = b.minimum ∧ (b.setValue v).maximum = b.maximum := by
  unfold QProgressBar.setValue
  split <;> exact ⟨rfl, rfl⟩

theorem setValue_in_range (b : QProgressBar) (v : Int) (h1 : b.minimum ≤ v) (h2 : v ≤ b.maximum) :
    (b.setValue v).value = v := by
  unfold QProgressBar.setValue
  split
  · rename_i h
    rcases h with h | ⟨h | h, -⟩
    · exact h
    · omega
    · omega
  · rfl

theorem bar_setStatusMessage (s : SplashScreenWidget) (m : String) :
    (s.setStatusMessage m).bar = s.bar := by
  simp [setStatusMessage, bar_log, QProgressBar.perform]

theorem bar_setProgress (s : SplashScreenWidget) (step : Int)
    (hm : s.m_progressMode = ProgressMode.Determinate) :
    (s.setProgress step).bar = s.bar.setValue (qBound 0 step s.m_totalSteps) ∧
    (s.setProgress step).m_progressMode = ProgressMode.Determinate ∧
    (s.setProgress step).m_totalSteps = s.m_totalSteps ∧
    (s.setProgress step).m_isClosed = s.m_isClosed := by
  unfold SplashScreenWidget.setProgress
  simp only [hm, if_true]
  refine ⟨?_, rfl, rfl, rfl⟩
  rw [bar_log]
  simp [QProgressBar.perform, SplashScreenWidget.bar]

/-- What `checkAndClose` does to the bar in Determinate mode. -/
theorem bar_checkAndClose (s : SplashScreenWidget)
    (hm : s.m_progressMode = ProgressMode.Determinate) :
    (s.checkAndClose.m_progressMode = ProgressMode.Determinate ∧
      s.checkAndClose.m_totalSteps = s.m_totalSteps) ∧
    ((s.checkAndClose.bar = s.bar ∧ s.checkAndClose.m_isClosed = s.m_isClosed) ∨
      (s.m_isClosed = false ∧ s.checkAndClose.m_isClosed = true ∧
        s.checkAndClose.bar = s.bar.setValue s.m_totalSteps)) := by
  unfold checkAndClose
  by_cases h : (s.m_minimumDurationElapsed && s.m_finishRequested && !s.m_isClosed) = true
  · rw [if_pos h]
    have hc : s.m_isClosed = false := by
      cases hh : s.m_isClosed <;> simp_all
    refine ⟨⟨by simp [SplashScreenWidget.log, setStatusMessage, stopBouncingAnimation, hm],
      by simp [SplashScreenWidget.log, setStatusMessage, stopBouncingAnimation, hm]⟩, Or.inr ⟨hc, ?_, ?_⟩⟩
    · simp [SplashScreenWidget.log, setStatusMessage, stopBouncingAnimation, hm]
    · simp [SplashScreenWidget.log, setStatusMessage, stopBouncingAnimation, hm,
        SplashScreenWidget.bar, List.foldl_append, QProgressBar.perform]
  · rw [if_neg h]
    exact ⟨⟨hm, rfl⟩, Or.inl ⟨rfl, rfl⟩⟩

end Display

end Main

namespace Main

open Splash Splash.SplashScreenWidget

section DeterminateBar

/-- A step announcement on a Determinate splash screen whose bar has the range
0..total writes the bounded step and keeps the range. -/
theorem stepStarted_determinate (step : Nat) (message : String) (s : SplashScreenWidget)
    (n : Nat) (hm : s.m_progressMode = ProgressMode.Determinate) (ht : s.m_totalSteps = n)
    (h0 : s.bar.minimum = 0) (h1 : s.bar.maximum = n) :
    ((SplashEvent.stepStarted step message).handle s).m_progressMode
        = ProgressMode.Determinate ∧
    ((SplashEvent.stepStarted step message).handle s).m_totalSteps = n ∧
    ((SplashEvent.stepStarted step message).handle s).bar.minimum = 0 ∧
    ((SplashEvent.stepStarted step message).handle s).bar.maximum = n ∧
    ((SplashEvent.stepStarted step message).handle s).bar.value = qBound 0 step n := by
  obtain ⟨p1, p2, p3, -⟩ := bar_setProgress s step hm
  have r := setValue_range s.bar (qBound 0 step n)
  simp only [SplashEvent.handle, onInitializationStepStarted, bar_setStatusMessage]
  rw [ht] at p1 p3
  refine ⟨p2, p3, by rw [p1, r.1, h0], by rw [p1, r.2, h1], ?_⟩
  rw [p1]
  apply setValue_in_range
  · rw [h0]; unfold qBound; exact le_max_left _ _
  · rw [h1]; unfold qBound
    exact max_le (Int.ofNat_nonneg n) (min_le_left _ _)

/-- One event of the wiring, on a Determinate splash screen whose bar has the
range 0..total: the mode, the total and the range stay, and the bar value either
stays, or the event is a step announcement that writes the bounded step, or the
event closes the gate and writes the total. -/
theorem handle_determinate (e : SplashEvent) (s : SplashScreenWidget) (n : Nat)
    (hm : s.m_progressMode = ProgressMode.Determinate) (ht : s.m_totalSteps = n)
    (h0 : s.bar.minimum = 0) (h1 : s.bar.maximum = n) :
    ((e.handle s).m_progressMode = ProgressMode.Determinate ∧ (e.handle s).m_totalSteps = n ∧
      (e.handle s).bar.minimum = 0 ∧ (e.handle s).bar.maximum = n) ∧
    ((e.handle s).bar.value = s.bar.value ∨
      (∃ step message, e = SplashEvent.stepStarted step message ∧
        (e.handle s).bar.value = qBound 0 step n) ∨
      (s.m_isClosed = false ∧ (e.handle s).m_isClosed = true ∧ (e.handle s).bar.value = n)) := by
  have close : ∀ t : SplashScreenWidget, t.m_progressMode = ProgressMode.Determinate →
      t.m_totalSteps = n → t.bar = s.bar → t.m_isClosed = s.m_isClosed →
      (t.checkAndClose.m_progressMode = ProgressMode.Determinate ∧
        t.checkAndClose.m_totalSteps = n ∧
        t.checkAndClose.bar.minimum = 0 ∧ t.checkAndClose.bar.maximum = n) ∧
      (t.checkAndClose.bar.value = s.bar.value ∨
        (s.m_isClosed = false ∧ t.checkAndClose.m_isClosed = true ∧
          t.checkAndClose.bar.value = n)) := by
    intro t tm tt tb tc
    obtain ⟨⟨a1, a2⟩, a3⟩ := bar_checkAndClose t tm
    rcases a3 with ⟨b1, -⟩ | ⟨b1, b2, b3⟩
    · exact ⟨⟨a1, by rw [a2, tt], by rw [b1, tb, h0], by rw [b1, tb, h1]⟩,
        Or.inl (by rw [b1, tb])⟩
    · have r := setValue_range s.bar n
      have v := setValue_in_range s.bar n (by rw [h0]; exact Int.ofNat_nonneg n) (by rw [h1])
      rw [tt, tb] at b3
      exact ⟨⟨a1, by rw [a2, tt], by rw [b3, r.1, h0], by rw [b3, r.2, h1]⟩,
        Or.inr ⟨by rw [← tc]; exact b1, b2, by rw [b3, v]⟩⟩
  cases e with
  | stepStarted step message =>
    obtain ⟨a, b, c, d, v⟩ := stepStarted_determinate step message s n hm ht h0 h1
    exact ⟨⟨a, b, c, d⟩, Or.inr (Or.inl ⟨step, message, rfl, v⟩)⟩
  | stepCompleted step => exact ⟨⟨hm, ht, h0, h1⟩, Or.inl rfl⟩
  | complete =>
    obtain ⟨c1, c2⟩ := close { s with m_finishRequested := true } hm ht rfl rfl
    exact ⟨c1, c2.elim Or.inl (fun h => Or.inr (Or.inr h))⟩
  | failed error =>
    obtain ⟨c1, c2⟩ := close { s.setStatusMessage ("Error: " ++ error) with m_finishRequested := true }
      hm ht (bar_setStatusMessage s _) rfl
    exact ⟨c1, c2.elim Or.inl (fun h => Or.inr (Or.inr h))⟩
  | minimumDurationTimer =>
    obtain ⟨c1, c2⟩ := close { s with m_minimumDurationElapsed := true } hm ht rfl rfl
    exact ⟨c1, c2.elim Or.inl (fun h => Or.inr (Or.inr h))⟩

theorem handleAll_snoc (s : SplashScreenWidget) (es : List SplashEvent) (e : SplashEvent) :
    handleAll s (es ++ [e]) = e.handle (handleAll s es) := by
  simp [handleAll, List.foldl_append]

theorem bar_setTotalSteps (s : SplashScreenWidget) (k : Int) :
    (s.setTotalSteps k).bar = s.bar.setMaximum k := by
  simp [setTotalSteps, SplashScreenWidget.bar, List.foldl_append, QProgressBar.perform]

theorem bar_setProgressMode_determinate (s : SplashScreenWidget) :
    (s.setProgressMode ProgressMode.Determinate).bar
      = (s.bar.setMaximum s.m_totalSteps).setValue s.m_currentStep := by
  simp [setProgressMode, SplashScreenWidget.bar, SplashScreenWidget.log, List.foldl_append,
    QProgressBar.perform]

theorem bar_startSplash_determinate (s : SplashScreenWidget)
    (hm : s.m_progressMode = ProgressMode.Determinate) :
    s.startSplash.bar = s.bar ∧ s.startSplash.m_progressMode = ProgressMode.Determinate ∧
    s.startSplash.m_totalSteps = s.m_totalSteps := by
  simp [startSplash, SplashScreenWidget.bar, SplashScreenWidget.log, List.foldl_append,
    QProgressBar.perform, hm]

theorem construct_bar : construct.bar = { minimum := 0, maximum := 100, value := 0 } := by
  decide

theorem setMaximum_of_nat (n : Nat) (m : Int) (hm : 0 ≤ m) :
    ({ minimum := 0, maximum := m, value := 0 } : QProgressBar).setMaximum n
      = { minimum := 0, maximum := n, value := 0 } := by
  have hn : (0 : Int) ≤ n := Int.ofNat_nonneg n
  unfold QProgressBar.setMaximum QProgressBar.setRange
  simp only [min_eq_left hn, max_eq_right hn]
  by_cases h : (n : Int) = m
  · subst h
    simp
  · have h2 : ¬ ((0 : Int) < 0 - 1 ∨ (0 : Int) > n) := by omega
    simp [h, h2]

theorem startedSplash_determinate (n : Nat) :
    (startedSplash n).m_progressMode = ProgressMode.Determinate ∧
    (startedSplash n).m_totalSteps = n ∧
    (startedSplash n).bar.minimum = 0 ∧ (startedSplash n).bar.maximum = n := by
  obtain ⟨a, b, c⟩ := bar_startSplash_determinate
    (((construct.setMinimumDisplayDuration 3000).setTotalSteps n).setProgressMode
      ProgressMode.Determinate) (by simp [setProgressMode, SplashScreenWidget.log])
  have hb : (startedSplash n).bar = { minimum := 0, maximum := n, value := 0 } := by
    unfold startedSplash
    rw [a, bar_setProgressMode_determinate, bar_setTotalSteps]
    have e : (construct.setMinimumDisplayDuration 3000).bar = construct.bar := rfl
    rw [e, construct_bar, setMaximum_of_nat n 100 (by decide)]
    have e2 : ((construct.setMinimumDisplayDuration 3000).setTotalSteps n).m_totalSteps = n := rfl
    have e3 : ((construct.setMinimumDisplayDuration 3000).setTotalSteps n).m_currentStep = 0 := rfl
    rw [e2, e3, setMaximum_of_nat n n (Int.ofNat_nonneg n)]
    simp [QProgressBar.setValue]
  refine ⟨b, ?_, by rw [hb], by rw [hb]⟩
  unfold startedSplash
  rw [c]
  simp [setProgressMode, setTotalSteps, SplashScreenWidget.log]

theorem handleAll_determinate (n : Nat) (es : List SplashEvent) :
    (handleAll (startedSplash n) es).m_progressMode = ProgressMode.Determinate ∧
    (handleAll (startedSplash n) es).m_totalSteps = n ∧
    (handleAll (startedSplash n) es).bar.minimum = 0 ∧
    (handleAll (startedSplash n) es).bar.maximum = n := by
  induction es using List.reverseRecOn with
  | nil => exact startedSplash_determinate n
  | append_singleton pre e ih =>
    rw [handleAll_snoc]
    exact (handle_determinate e _ n ih.1 ih.2.1 ih.2.2.1 ih.2.2.2).1

end DeterminateBar

end Main

namespace Main

open Splash Splash.SplashScreenWidget

/-- C11, evaluated on the code: after the `initializationFailed` handler the
status label shows the error message only until the gate closes; whether the
timer fires after or before the failure, closing writes "Ready!" over it. -/
theorem failure_status_overwritten :
    (handleAll (startedSplash 8) [SplashEvent.failed "disk full"]).statusText
      = "Error: disk full" ∧
    (handleAll (startedSplash 8)
      [SplashEvent.failed "disk full", SplashEvent.minimumDurationTimer]).m_isClosed = true ∧
    (handleAll (startedSplash 8)
      [SplashEvent.failed "disk full", SplashEvent.minimumDurationTimer]).statusText = "Ready!" ∧
    (handleAll (startedSplash 8)
      [SplashEvent.minimumDurationTimer, SplashEvent.failed "disk full"]).m_isClosed = true ∧
    (handleAll (startedSplash 8)
      [SplashEvent.minimumDurationTimer, SplashEvent.failed "disk full"]).statusText = "Ready!" := by
  decide

/-- C20, as stated, fails: with the 8 tasks of the main window, when the step at
cursor 0 is announced the bar has the range 0..8 and the value 1, not the range
0..100 and the value 100 * 0 / 8. -/
theorem determinate_bar_is_not_percentage :
    (handleAll (startedSplash 8)
      [SplashEvent.stepStarted 1 "Loading configuration files"]).bar
      = { minimum := 0, maximum := 8, value := 1 } ∧
    (handleAll (startedSplash 8)
      [SplashEvent.stepStarted 1 "Loading configuration files"]).bar.maximum ≠ 100 ∧
    (handleAll (startedSplash 8)
      [SplashEvent.stepStarted 1 "Loading configuration files"]).bar.value ≠ 100 * 0 / 8 := by
  decide

/-- C20, amended: with the splash screen configured as in `main()` for n tasks,
after any sequence of events the bar keeps the range 0..n; announcing the step at
0-based cursor i < n (signal argument i + 1) sets its value to i + 1; and an
event leaves the value as it was unless it is a step announcement or it closes
the gate, in which case the value becomes n. -/
theorem determinate_bar_shows_step (n : Nat) (es : List SplashEvent) :
    (handleAll (startedSplash n) es).bar.minimum = 0 ∧
    (handleAll (startedSplash n) es).bar.maximum = n ∧
    (∀ (i : Nat) (message : String), i < n →
      (SplashEvent.handle (SplashEvent.stepStarted (i + 1) message)
        (handleAll (startedSplash n) es)).bar.value = i + 1) ∧
    (∀ e : SplashEvent,
      (e.handle (handleAll (startedSplash n) es)).bar.value
          = (handleAll (startedSplash n) es).bar.value ∨
        (∃ step message, e = SplashEvent.stepStarted step message) ∨
        ((handleAll (startedSplash n) es).m_isClosed = false ∧
          (e.handle (handleAll (startedSplash n) es)).m_isClosed = true ∧
          (e.handle (handleAll (startedSplash n) es)).bar.value = n)) := by
  obtain ⟨hm, ht, h0, h1⟩ := handleAll_determinate n es
  refine ⟨h0, h1, ?_, ?_⟩
  · intro i message hi
    rw [(stepStarted_determinate (i + 1) message _ n hm ht h0 h1).2.2.2.2]
    unfold qBound
    push_cast
    omega
  · intro e
    rcases (handle_determinate e _ n hm ht h0 h1).2 with h | ⟨step, m, he, -⟩ | h
    · exact Or.inl h
    · exact Or.inr (Or.inl ⟨step, m, he⟩)
    · exact Or.inr (Or.inr h)

/-- Witness for C20 amended: the first announcement with the 8 tasks of the main
window. -/
theorem determinate_bar_shows_step_witness :
    (SplashEvent.handle (SplashEvent.stepStarted (0 + 1) "Loading configuration files")
      (handleAll (startedSplash 8) [])).bar.value = (0 : Nat) + 1 :=
  (determinate_bar_shows_step 8 []).2.2.1 0 "Loading configuration files" (by decide)

end Main

namespace Worker

open InitializationWorker

section Flag

theorem readCancelled_keeps (o : Outside) (s : InitializationWorker) (h : s.m_cancelled = true) :
    (s.readCancelled o).1 = true ∧ (s.readCancelled o).2.m_cancelled = true := by
  unfold readCancelled
  by_cases hr : o.cancelRequested s.reads = true <;> simp [hr, h, cancelInitialization]

theorem sleepLoop_keeps (o : Outside) (fuel : Nat) :
    ∀ (elapsed actualDuration : Int) (s : InitializationWorker), s.m_cancelled = true →
      (sleepLoop o fuel elapsed actualDuration s).m_cancelled = true := by
  induction fuel with
  | zero => intro _ _ s h; exact h
  | succ k ih =>
    intro elapsed actualDuration s h
    obtain ⟨r1, r2⟩ := readCancelled_keeps o s h
    unfold sleepLoop
    split
    · simp only [r1]
      exact r2
    · exact h

theorem simulateTask_keeps (o : Outside) (taskIndex : Nat) (taskName : String)
    (durationMs : Int) (s : InitializationWorker) (h : s.m_cancelled = true) :
    (s.simulateTask o taskIndex taskName durationMs).m_cancelled = true := by
  unfold simulateTask
  simp only
  have h1 := sleepLoop_keeps o (max 100 (durationMs + o.bounded s.drawn) / 50).toNat.succ 0
    (max 100 (durationMs + o.bounded s.drawn))
    { s with emitted := s.emitted ++ [WorkerSignal.taskStarted taskIndex taskName],
             drawn := s.drawn + 1 } h
  obtain ⟨r1, r2⟩ := readCancelled_keeps o _ h1
  simp only [r1]
  exact r2

end Flag

end Worker

namespace Example

open MainWindow

section Index

theorem runNextTask_index (w : MainWindow) :
    w.runNextTask.m_currentTaskIndex = w.m_currentTaskIndex ∧
    w.runNextTask.m_initTasks = w.m_initTasks ∧
    w.runNextTask.m_cancelled = w.m_cancelled := by
  unfold runNextTask
  split
  · exact ⟨rfl, rfl, rfl⟩
  · split
    · exact ⟨rfl, rfl, rfl⟩
    · simp only [MainWindow.emit]
      split <;> exact ⟨rfl, rfl, rfl⟩

/-- An act leaves the task list alone and leaves the index or adds one to it. -/
theorem apply_index (a : Act) (w : MainWindow) :
    (a.apply w).m_initTasks = w.m_initTasks ∧
    ((a.apply w).m_currentTaskIndex = w.m_currentTaskIndex ∨
      (a.apply w).m_currentTaskIndex = w.m_currentTaskIndex + 1) := by
  cases a with
  | cancel => exact ⟨rfl, Or.inl rfl⟩
  | deliver i =>
    unfold Act.apply
    simp only
    cases hg : w.pending.get? i with
    | none => exact ⟨rfl, Or.inl rfl⟩
    | some p =>
      cases p with
      | concurrentRun t =>
        simp only [runPending]
        cases t.taskMethod () <;> exact ⟨rfl, Or.inl rfl⟩
      | singleShot t =>
        simp only [runPending, onTaskCompleted]
        cases t.taskMethod ()
        · exact ⟨rfl, Or.inl rfl⟩
        · simp only
          split <;> exact ⟨rfl, Or.inl rfl⟩
      | onTaskCompletedCall =>
        simp only [runPending, onTaskCompleted]
        split <;> exact ⟨rfl, Or.inl rfl⟩
      | completionLambda =>
        simp only [runPending, completionLambda]
        obtain ⟨a1, a2, -⟩ := runNextTask_index
          { (MainWindow.emit { w with pending := w.pending.eraseIdx i }
              (Signal.initializationStepCompleted (w.m_currentTaskIndex + 1))) with
            m_currentTaskIndex := w.m_currentTaskIndex + 1 }
        exact ⟨a2, Or.inr a1⟩

end Index

end Example

namespace Example

open MainWindow

section IndexBound

/-- The bound on the index is kept by every act, given at most one piece of
pending work. -/
theorem apply_bound (a : Act) (w : MainWindow) (hp : w.pending.length ≤ 1)
    (h1 : w.m_currentTaskIndex ≤ w.m_initTasks.length)
    (h2 : w.pending ≠ [] → w.m_currentTaskIndex < w.m_initTasks.length) :
    (a.apply w).m_currentTaskIndex ≤ (a.apply w).m_initTasks.length ∧
    ((a.apply w).pending ≠ [] →
      (a.apply w).m_currentTaskIndex < (a.apply w).m_initTasks.length) := by
  cases a with
  | cancel => exact ⟨h1, h2⟩
  | deliver i =>
    obtain ⟨tasks, idx, c, pend, evs⟩ := w
    simp only at hp h1 h2
    match pend, hp, h2 with
    | [], _, _ => exact ⟨by simpa [Act.apply] using h1, by simp [Act.apply]⟩
    | [p], _, h2 =>
      have hlt : idx < tasks.length := h2 (by simp)
      cases i with
      | succ j => exact ⟨by simpa [Act.apply] using h1, by simpa [Act.apply] using hlt⟩
      | zero =>
        cases p with
        | concurrentRun t =>
          cases hm : t.taskMethod () <;> simp [Act.apply, runPending, hm, h1, hlt]
        | singleShot t =>
          cases hm : t.taskMethod () <;> cases c <;>
            simp [Act.apply, runPending, hm, h1, hlt, onTaskCompleted]
        | onTaskCompletedCall =>
          cases c <;> simp [Act.apply, runPending, h1, hlt, onTaskCompleted]
        | completionLambda =>
          cases c
          · by_cases hd : tasks.length ≤ idx + 1
            · simp [Act.apply, runPending, completionLambda, runNextTask, MainWindow.emit, hd]
              omega
            · by_cases hh : (tasks[idx + 1]).isHeavyTask = true <;>
                simp [Act.apply, runPending, completionLambda, runNextTask, MainWindow.emit, hd,
                  hh] <;> omega
          · simp [Act.apply, runPending, completionLambda, runNextTask, MainWindow.emit]
            omega
    | _ :: _ :: _, hp, _ => simp at hp

theorem run_bound (tasks : List InitTask) (acts : List Act) :
    (run ( MainWindow.initialize (construct tasks)) acts).m_initTasks = tasks ∧
    (run ( MainWindow.initialize (construct tasks)) acts).m_currentTaskIndex ≤ tasks.length ∧
    ((run ( MainWindow.initialize (construct tasks)) acts).pending ≠ [] →
      (run ( MainWindow.initialize (construct tasks)) acts).m_currentTaskIndex < tasks.length) := by
  induction acts using List.reverseRecOn with
  | nil =>
    cases tasks with
    | nil => simp [run, MainWindow.initialize, construct, runNextTask, MainWindow.emit]
    | cons t ts =>
      by_cases hh : t.isHeavyTask = true <;>
        simp [run, MainWindow.initialize, construct, runNextTask, MainWindow.emit, hh]
  | append_singleton pre a ih =>
    obtain ⟨i1, i2, i3⟩ := ih
    rw [run_snoc]
    have ht := (apply_index a (run ( MainWindow.initialize (construct tasks)) pre)).1
    have hb := apply_bound a _ (run_keeps_one tasks pre).1 (by rw [i1]; exact i2)
      (by rw [i1]; exact i3)
    rw [ht, i1] at hb
    exact ⟨by rw [ht, i1], hb.1, hb.2⟩

end IndexBound

/-- C17, as stated, fails: `initialize()` on a cancelled main window, and
`runInitialization()` on a cancelled worker that nobody cancels again, set
`m_cancelled` back to false (and the worker run ends with `allTasksCompleted`). -/
theorem new_run_resets_cancelled :
    (Act.apply Act.cancel (construct setupInitializationTasks)).m_cancelled = true ∧
    ( MainWindow.initialize
      (Act.apply Act.cancel (construct setupInitializationTasks))).m_cancelled = false ∧
    ((Worker.construct.setTaskDurations [800, 1200]).cancelInitialization).m_cancelled = true ∧
    (Worker.InitializationWorker.runInitialization Worker.undisturbed
      ((Worker.construct.setTaskDurations [800, 1200]).cancelInitialization)).m_cancelled
        = false ∧
    Worker.WorkerSignal.allTasksCompleted ∈
      (Worker.InitializationWorker.runInitialization Worker.undisturbed
        ((Worker.construct.setTaskDurations [800, 1200]).cancelInitialization)).emitted := by
  decide

/-- C17, amended: inside a run the flag never goes back.  On a main window
whose `m_cancelled` is true, `runNextTask`, `onTaskCompleted`, the queued
continuation and every sequence of deliveries leave it true; on a worker whose
`m_cancelled` is true, `cancelInitialization` and `simulateTask` leave it true
and every read sees true.  Only the start of a new run, `initialize()`, writes
false. -/
theorem cancelled_stays_within_run (w : MainWindow) (hw : w.m_cancelled = true)
    (acts : List Act) (k : Worker.InitializationWorker) (hk : k.m_cancelled = true)
    (o : Worker.Outside) (taskIndex : Nat) (taskName : String) (durationMs : Int) :
    w.runNextTask.m_cancelled = true ∧
    w.onTaskCompleted.m_cancelled = true ∧
    w.completionLambda.m_cancelled = true ∧
    (run w acts).m_cancelled = true ∧
    k.cancelInitialization.m_cancelled = true ∧
    (k.readCancelled o).1 = true ∧
    (k.simulateTask o taskIndex taskName durationMs).m_cancelled = true ∧
    ( MainWindow.initialize w).m_cancelled = false := by
  refine ⟨by rw [(runNextTask_index w).2.2, hw], by simp [onTaskCompleted, hw], ?_,
    (run_cancelled w hw acts).1, rfl, (Worker.readCancelled_keeps o k hk).1,
    Worker.simulateTask_keeps o taskIndex taskName durationMs k hk, ?_⟩
  · unfold completionLambda
    simp only
    rw [(runNextTask_index _).2.2]
    exact hw
  · unfold MainWindow.initialize
    rw [(runNextTask_index _).2.2]

/-- Witness for C17 amended: the main window with the tasks of
`setupInitializationTasks()`, cancelled after `initialize()`, and a cancelled
worker. -/
theorem cancelled_stays_within_run_witness :
    (run (Act.apply Act.cancel ( MainWindow.initialize (construct setupInitializationTasks)))
      [Act.deliver 0, Act.deliver 0]).m_cancelled = true :=
  (cancelled_stays_within_run
    (Act.apply Act.cancel ( MainWindow.initialize (construct setupInitializationTasks))) rfl
    [Act.deliver 0, Act.deliver 0]
    ((Worker.construct.setTaskDurations [800, 1200]).cancelInitialization) rfl
    Worker.undisturbed 0 "Loading configuration files" 800).2.2.2.1

/-- C18: `initialize()` starts the index at 0; every act, from any state,
leaves `m_currentTaskIndex` as it is or adds exactly one; in every state of a
run the task list is the initial one, the index is at most the number of tasks,
and while work is pending (a task has been read from `m_initTasks` and handed
over) the index is below the number of tasks. -/
theorem index_monotone_and_bounded (tasks : List InitTask) (acts : List Act) (a : Act)
    (w : MainWindow) :
    ( MainWindow.initialize w).m_currentTaskIndex = 0 ∧
    ((a.apply w).m_currentTaskIndex = w.m_currentTaskIndex ∨
      (a.apply w).m_currentTaskIndex = w.m_currentTaskIndex + 1) ∧
    (run ( MainWindow.initialize (construct tasks)) acts).m_initTasks = tasks ∧
    (run ( MainWindow.initialize (construct tasks)) acts).m_currentTaskIndex ≤ tasks.length ∧
    ((run ( MainWindow.initialize (construct tasks)) acts).pending ≠ [] →
      (run ( MainWindow.initialize (construct tasks)) acts).m_currentTaskIndex < tasks.length) := by
  refine ⟨?_, (apply_index a w).2, run_bound tasks acts⟩
  unfold MainWindow.initialize
  rw [(runNextTask_index _).1]

/-- Witness for C18: while the first task of `setupInitializationTasks()` is
pending the index is below 8. -/
theorem index_monotone_and_bounded_witness :
    (run ( MainWindow.initialize (construct setupInitializationTasks))
      []).m_currentTaskIndex < setupInitializationTasks.length :=
  (index_monotone_and_bounded setupInitializationTasks [] Act.cancel
    (construct setupInitializationTasks)).2.2.2.2
    (fun h => absurd (congrArg List.length h) (by decide))

end Example

namespace Example

section Batches

theorem rowData_fields (w : World) (row : Nat) (p : Producer) :
    (rowData w row p).1 = fieldsOf w row p.drawn p.clock ∧
    (rowData w row p).2 = { p with drawn := p.drawn + 3 } := by
  simp [rowData, fieldsOf]

/-- Without cancellation the inner loop builds `n` rows, three draws each. -/
theorem generateBatch_quiet (w : World) (hq : ∀ n, w.cancelled n = false) (n : Nat) :
    ∀ (row : Nat) (p : Producer),
      generateBatch w n row p
        = ((List.range n).map (fun j => fieldsOf w (row + j) (p.drawn + 3 * j) p.clock),
           { drawn := p.drawn + 3 * n, reads := p.reads + n, clock := p.clock }) := by
  induction n with
  | zero => intro row p; simp [generateBatch]
  | succ k ih =>
    intro row p
    simp only [generateBatch, hq, Bool.false_eq_true, if_false]
    rw [(rowData_fields w row _).2, (rowData_fields w row _).1, ih]
    simp only [List.range_succ_eq_map, List.map_cons, List.map_map, Prod.mk.injEq,
      List.cons.injEq, Producer.mk.injEq]
    refine ⟨⟨by simp, ?_⟩, by omega, by omega, trivial⟩
    apply List.map_congr_left
    intro j _
    simp only [Function.comp]
    congr 1 <;> omega

theorem batchSizes_step (n b : Nat) (hn : 0 < n) (hb : 0 < b) :
    batchSizes n b = min b n :: batchSizes (n - b) b := by
  unfold batchSizes
  by_cases h : b ≤ n
  · have e1 : n / b = (n - b) / b + 1 := by
      rw [← Nat.sub_add_cancel h, Nat.add_div_right _ hb, Nat.add_sub_cancel]
    have e2 : n % b = (n - b) % b := by
      conv_lhs => rw [← Nat.sub_add_cancel h, Nat.add_mod_right]
    rw [e1, e2, List.replicate_succ, min_eq_left h]
    rfl
  · have h' : n < b := Nat.lt_of_not_le h
    rw [Nat.div_eq_of_lt h', Nat.mod_eq_of_lt h', Nat.sub_eq_zero_of_le (Nat.le_of_lt h'),
      min_eq_right (Nat.le_of_lt h')]
    simp [Nat.ne_of_gt hn]

/-- Without cancellation and with a positive batch size the outer loop ends,
and its batches have the sizes `batchSizes` and hold, one after the other, the
rows `i`, `i + 1`, ..., each built from its own three draws at the clock of its
batch. -/
theorem batchLoop_quiet (w : World) (hq : ∀ n, w.cancelled n = false) (T B : Nat)
    (hb : 0 < B) (fuel : Nat) :
    ∀ (i : Nat) (p : Producer), T - i < fuel →
      ∃ bs p', batchLoop w T B fuel i p = some (bs, p') ∧
        bs.map List.length = batchSizes (T - i) B ∧
        bs.flatten = (List.range (T - i)).map (fun j =>
          fieldsOf w (i + j) (p.drawn + 3 * j) (p.clock + 10 * ((j / B : Nat) : Int))) := by
  induction fuel with
  | zero => intro i p h; omega
  | succ k ih =>
    intro i p hf
    by_cases hi : i < T
    · have hn : 0 < T - i := by omega
      obtain ⟨bs, p', e, hs, hj⟩ := ih (i + B)
        { drawn := p.drawn + 3 * (min (i + B) T - i), reads := p.reads + 1 + (min (i + B) T - i),
          clock := p.clock + 10 } (by omega)
      refine ⟨(List.range (min (i + B) T - i)).map
          (fun j => fieldsOf w (i + j) (p.drawn + 3 * j) p.clock) :: bs, p', ?_, ?_, ?_⟩
      · simp only [batchLoop, hi, if_true, hq, Bool.false_eq_true, if_false]
        rw [generateBatch_quiet w hq]
        simp only
        rw [e]
      · rw [List.map_cons, hs, batchSizes_step _ _ hn hb]
        have e1 : min (i + B) T - i = min B (T - i) := by omega
        have e2 : T - (i + B) = T - i - B := by omega
        simp [e1, e2]
      · rw [List.flatten_cons, hj]
        have e1 : T - i = (min (i + B) T - i) + (T - (i + B)) := by omega
        conv_rhs => rw [e1, List.range_add, List.map_append, List.map_map]
        congr 1
        · apply List.map_congr_left
          intro j hj'
          have hlt : j < B := by
            have := List.mem_range.mp hj'
            omega
          simp [Nat.div_eq_of_lt hlt]
        · apply List.map_congr_left
          intro j hj'
          have hpos : 0 < T - (i + B) := by
            have := List.mem_range.mp hj'
            omega
          have em : min (i + B) T - i = B := by omega
          simp only [Function.comp, em]
          have ed : (B + j) / B = j / B + 1 := by
            rw [Nat.add_comm, Nat.add_div_right _ hb]
          rw [ed]
          congr 1
          · omega
          · omega
          · push_cast
            ring
    · refine ⟨[], p, by simp [batchLoop, hi], ?_, ?_⟩
      · have : T - i = 0 := by omega
        simp [this, batchSizes]
      · have : T - i = 0 := by omega
        simp [this]

/-- The whole task without cancellation, for a positive batch size. -/
theorem populate_quiet (w : World) (hq : ∀ n, w.cancelled n = false) (T B : Nat)
    (hb : 0 < B) (p : Producer) :
    ∃ bs p', populate w T B p = some (bs, p') ∧
      bs.map List.length = batchSizes T B ∧
      bs.flatten = (List.range T).map (fun j =>
        fieldsOf w j (p.drawn + 3 * j) (p.clock + 10 * ((j / B : Nat) : Int))) := by
  obtain ⟨bs, p', e, hs, hj⟩ := batchLoop_quiet w hq T B hb (T + 1) 0 p (by omega)
  refine ⟨bs, p', e, by simpa using hs, ?_⟩
  rw [hj]
  simp

end Batches

end Example

namespace Example

section Decimal

theorem toDigitsCore_eq (fuel : Nat) :
    ∀ (n : Nat) (ds : List Char), n < fuel → 0 < n →
      Nat.toDigitsCore 10 fuel n ds = (Nat.digits 10 n).reverse.map Nat.digitChar ++ ds := by
  induction fuel with
  | zero => intro n ds h; omega
  | succ k ih =>
    intro n ds hlt hpos
    rw [Nat.digits_def' (by decide) hpos]
    simp only [Nat.toDigitsCore]
    by_cases hz : n / 10 = 0
    · simp [hz]
    · have hq : 0 < n / 10 := Nat.pos_of_ne_zero hz
      rw [if_neg hz, ih (n / 10) _ (by omega) hq]
      simp

/-- The text `Nat.toDigits 10 n` of a positive number is made of its decimal
digits, most significant first. -/
theorem toDigits_eq (n : Nat) (h : 0 < n) :
    Nat.toDigits 10 n = (Nat.digits 10 n).reverse.map Nat.digitChar := by
  unfold Nat.toDigits
  rw [toDigitsCore_eq (n + 1) n [] (by omega) h]
  simp

theorem digitChar_value (d : Nat) (h : d < 10) :
    (Nat.digitChar d).toNat - '0'.toNat = d := by
  interval_cases d <;> rfl

theorem foldr_digits (L : List Nat) (h : ∀ d ∈ L, d < 10) :
    L.foldr (fun d acc => 10 * acc + ((Nat.digitChar d).toNat - '0'.toNat)) 0
      = Nat.ofDigits 10 L := by
  induction L with
  | nil => rfl
  | cons d L ih =>
    rw [List.foldr_cons, ih (fun x hx => h x (by simp [hx])), Nat.ofDigits_cons,
      digitChar_value d (h d (by simp))]
    omega

theorem parseDecimal_digits (n : Nat) :
    parseDecimal ((Nat.digits 10 n).reverse.map Nat.digitChar) = n := by
  unfold parseDecimal
  rw [List.foldl_map, List.foldl_reverse,
    foldr_digits _ (fun d hd => Nat.digits_lt_base (by decide) hd), Nat.ofDigits_digits]

theorem parseDecimal_zeros (m : Nat) (cs : List Char) :
    parseDecimal (List.replicate m '0' ++ cs) = parseDecimal cs := by
  unfold parseDecimal
  rw [List.foldl_append]
  congr 1
  induction m with
  | zero => rfl
  | succ k ih => rw [List.replicate_succ, List.foldl_cons]; simpa using ih

theorem itemLabel_data (n : Nat) :
    (itemLabel n).data = "Item_".data ++ List.leftpad 5 '0' (Nat.toDigits 10 n) := by
  simp [itemLabel, String.data_append]

end Decimal

end Example

namespace Example

/-- C19: the row with 0-based loop index `row < 10000` has the identifier field
`number (row + 1)` and the label field `itemLabel (row + 1)`; with k = row + 1,
the identifier is the decimal digits of k, the label is "Item_" followed by
zeros and the decimal digits of k, five characters in all after "Item_"
("Item_00001" for 1, "Item_10000" for 10000); both texts read back as k, and two
numbers with the same label are equal. -/
theorem identifier_and_label (w : World) (row : Nat) (p : Producer) (h : row < TOTAL_ROWS) :
    (rowData w row p).1.get? 0 = some (number (row + 1)) ∧
    (rowData w row p).1.get? 1 = some (itemLabel (row + 1)) ∧
    (number (row + 1)).data = (Nat.digits 10 (row + 1)).reverse.map Nat.digitChar ∧
    (itemLabel (row + 1)).data
      = "Item_".data ++ List.replicate (5 - (Nat.digits 10 (row + 1)).length) '0'
          ++ (Nat.digits 10 (row + 1)).reverse.map Nat.digitChar ∧
    (itemLabel (row + 1)).length = 10 ∧
    parseDecimal (number (row + 1)).data = row + 1 ∧
    parseDecimal ((itemLabel (row + 1)).data.drop 5) = row + 1 ∧
    itemLabel 1 = "Item_00001" ∧
    itemLabel 10000 = "Item_10000" ∧
    (∀ k : Nat, itemLabel k = itemLabel (row + 1) → k = row + 1) := by
  have hd := toDigits_eq (row + 1) (Nat.succ_pos row)
  have hlen : (Nat.digits 10 (row + 1)).length ≤ 5 := by
    have hb := Nat.base_pow_length_digits_le 10 (row + 1) (by decide) (Nat.succ_ne_zero row)
    unfold TOTAL_ROWS at h
    by_contra hc
    have h6 : 10 ^ 6 ≤ 10 ^ (Nat.digits 10 (row + 1)).length :=
      Nat.pow_le_pow_right (by decide) (by omega)
    have e6 : (10 : Nat) ^ 6 = 1000000 := by norm_num
    rw [e6] at h6
    omega
  have hdata : (itemLabel (row + 1)).data
      = "Item_".data ++ List.replicate (5 - (Nat.digits 10 (row + 1)).length) '0'
          ++ (Nat.digits 10 (row + 1)).reverse.map Nat.digitChar := by
    rw [itemLabel_data, hd, List.leftpad]
    simp [List.append_assoc]
  have parse : ∀ k : Nat, parseDecimal ((itemLabel k).data.drop 5) = k := by
    intro k
    rw [itemLabel_data]
    have e : ("Item_".data ++ List.leftpad 5 '0' (Nat.toDigits 10 k)).drop 5
        = List.leftpad 5 '0' (Nat.toDigits 10 k) := by
      rw [List.drop_append_of_le_length (by decide)]
      rfl
    rw [e, List.leftpad, parseDecimal_zeros]
    rcases Nat.eq_zero_or_pos k with hk | hk
    · subst hk; rfl
    · rw [toDigits_eq k hk, parseDecimal_digits]
  refine ⟨rfl, rfl, by rw [number, hd], hdata, ?_, ?_, parse _, by decide, by decide, ?_⟩
  · rw [String.length, hdata]
    simp only [List.length_append, List.length_replicate, List.length_map, List.length_reverse]
    have e5 : "Item_".data.length = 5 := rfl
    rw [e5]
    omega
  · rw [number, hd, parseDecimal_digits]
  · intro k hk
    have := parse k
    rw [hk, parse] at this
    exact this.symm

/-- Witness for C19: the last row of the table. -/
theorem identifier_and_label_witness :
    (rowData plainWorld 9999 { drawn := 0, reads := 0, clock := 0 }).1.get? 1
      = some (itemLabel (9999 + 1)) :=
  (identifier_and_label plainWorld 9999 { drawn := 0, reads := 0, clock := 0 } (by decide)).2.1

end Example

namespace Example

section Sizes

theorem batchSizes_length (n b : Nat) (hb : 0 < b) :
    (batchSizes n b).length = (n + b - 1) / b := by
  unfold batchSizes
  have hdm := Nat.div_add_mod n b
  have hr : n % b < b := Nat.mod_lt n hb
  rw [List.length_append, List.length_replicate]
  by_cases h0 : n % b = 0
  · rw [if_pos h0, List.length_nil, Nat.add_zero]
    symm
    apply Nat.div_eq_of_lt_le
    · rw [Nat.mul_comm]; omega
    · rw [Nat.succ_mul, Nat.mul_comm]; omega
  · rw [if_neg h0, List.length_singleton]
    symm
    apply Nat.div_eq_of_lt_le
    · rw [Nat.succ_mul, Nat.mul_comm]; omega
    · rw [Nat.succ_mul, Nat.succ_mul, Nat.mul_comm]; omega

theorem batchSizes_bounds (n b : Nat) (hb : 0 < b) :
    ∀ x ∈ batchSizes n b, 1 ≤ x ∧ x ≤ b := by
  intro x hx
  unfold batchSizes at hx
  have hr : n % b < b := Nat.mod_lt n hb
  rcases List.mem_append.mp hx with h | h
  · have := (List.mem_replicate.mp h).2
    omega
  · split at h
    · simp at h
    · have := List.mem_singleton.mp h
      omega

theorem batchSizes_dropLast (n b : Nat) :
    ∀ x ∈ (batchSizes n b).dropLast, x = b := by
  intro x hx
  unfold batchSizes at hx
  split at hx
  · rw [List.append_nil] at hx
    exact (List.mem_replicate.mp (List.dropLast_subset _ hx)).2
  · rw [List.dropLast_concat] at hx
    exact (List.mem_replicate.mp hx).2

theorem map_length_dropLast (bs : List (List Row)) :
    bs.dropLast.map List.length = (bs.map List.length).dropLast := by
  induction bs with
  | nil => rfl
  | cons b rest ih =>
    cases rest with
    | nil => rfl
    | cons c rest2 => simp only [List.dropLast_cons₂, List.map_cons, ih]

end Sizes

/-- C12: without cancellation and with a batch capacity B > 0 the task ends
after handing over exactly ceil(T / B) batches; every batch holds at least 1 and
at most B rows and every batch but the last holds exactly B rows.  With the
constants of the source (T = 10000, B = 500) these are 20 batches of 500 rows. -/
theorem batch_count_and_sizes (w : World) (hq : ∀ n, w.cancelled n = false) (T B : Nat)
    (hb : 0 < B) (p : Producer) :
    (∃ bs p', populate w T B p = some (bs, p') ∧
      bs.length = (T + B - 1) / B ∧
      (∀ b ∈ bs, 1 ≤ b.length ∧ b.length ≤ B) ∧
      (∀ b ∈ bs.dropLast, b.length = B)) ∧
    (∃ bs p', taskPopulateDataTable w p = some (bs, p') ∧
      bs.length = 20 ∧ ∀ b ∈ bs, b.length = 500) := by
  constructor
  · obtain ⟨bs, p', e, hs, -⟩ := populate_quiet w hq T B hb p
    refine ⟨bs, p', e, ?_, ?_, ?_⟩
    · rw [← List.length_map bs List.length, hs, batchSizes_length T B hb]
    · intro b hm
      exact batchSizes_bounds T B hb _ (hs ▸ List.mem_map_of_mem List.length hm)
    · intro b hm
      apply batchSizes_dropLast T B
      rw [← hs, ← map_length_dropLast]
      exact List.mem_map_of_mem List.length hm
  · obtain ⟨bs, p', e, hs, -⟩ := populate_quiet w hq TOTAL_ROWS BATCH_SIZE (by decide) p
    have hsz : batchSizes TOTAL_ROWS BATCH_SIZE = List.replicate 20 500 := by decide
    refine ⟨bs, p', e, ?_, ?_⟩
    · rw [← List.length_map bs List.length, hs, hsz]
      rfl
    · intro b hm
      have := List.mem_map_of_mem List.length hm
      rw [hs, hsz] at this
      exact (List.mem_replicate.mp this).2

/-- Witness for C12: 5 rows in batches of 2 make 3 batches. -/
theorem batch_count_and_sizes_witness :
    ∃ bs p', populate plainWorld 5 2 { drawn := 0, reads := 0, clock := 0 } = some (bs, p') ∧
      bs.length = (5 + 2 - 1) / 2 ∧
      (∀ b ∈ bs, 1 ≤ b.length ∧ b.length ≤ 2) ∧
      (∀ b ∈ bs.dropLast, b.length = 2) :=
  (batch_count_and_sizes plainWorld (fun _ => rfl) 5 2 (by decide)
    { drawn := 0, reads := 0, clock := 0 }).1

end Example

namespace Example

section Identifiers

theorem fieldsOf_head (w : World) (row drawn : Nat) (clock : Int) :
    (fieldsOf w row drawn clock).headD "" = number (row + 1) := rfl

theorem fieldsOf_withoutTimestamp (w : World) (row drawn : Nat) (c1 c2 : Int) :
    withoutTimestamp (fieldsOf w row drawn c1) = withoutTimestamp (fieldsOf w row drawn c2) := rfl

theorem parseDecimal_number (k : Nat) : parseDecimal (number k).data = k := by
  rcases Nat.eq_zero_or_pos k with hk | hk
  · subst hk; rfl
  · rw [number, toDigits_eq k hk, parseDecimal_digits]

end Identifiers

/-- C13: without cancellation, the batches handed over, put one after the other
in delivery order, hold rows whose identifier fields are the decimal texts of
1, 2, ..., T in this order; read as numbers they are exactly 1, 2, ..., T,
strictly ascending.  This holds for every positive batch size, and for the
constants of the source (T = 10000, B = 500). -/
theorem identifiers_ascending (w : World) (hq : ∀ n, w.cancelled n = false) (T B : Nat)
    (hb : 0 < B) (p : Producer) :
    (∃ bs p', populate w T B p = some (bs, p') ∧
      bs.flatten.map (fun r => r.headD "") = (List.range' 1 T).map number ∧
      bs.flatten.map (fun r => parseDecimal (r.headD "").data) = List.range' 1 T ∧
      List.Pairwise (fun a b => a < b)
        (bs.flatten.map (fun r => parseDecimal (r.headD "").data))) ∧
    (∃ bs p', taskPopulateDataTable w p = some (bs, p') ∧
      bs.flatten.map (fun r => parseDecimal (r.headD "").data) = List.range' 1 10000) := by
  have key : ∀ T' B' : Nat, 0 < B' → ∃ bs p', populate w T' B' p = some (bs, p') ∧
      bs.flatten.map (fun r => r.headD "") = (List.range' 1 T').map number ∧
      bs.flatten.map (fun r => parseDecimal (r.headD "").data) = List.range' 1 T' := by
    intro T' B' hb'
    obtain ⟨bs, p', e, -, hj⟩ := populate_quiet w hq T' B' hb' p
    refine ⟨bs, p', e, ?_, ?_⟩
    · rw [hj, List.map_map, List.range'_eq_map_range, List.map_map]
      apply List.map_congr_left
      intro j _
      simp only [Function.comp, fieldsOf_head]
      rw [Nat.add_comm]
    · rw [hj, List.map_map, List.range'_eq_map_range]
      apply List.map_congr_left
      intro j _
      simp only [Function.comp, fieldsOf_head, parseDecimal_number]
      rw [Nat.add_comm]
  constructor
  · obtain ⟨bs, p', e, h1, h2⟩ := key T B hb
    refine ⟨bs, p', e, h1, h2, ?_⟩
    rw [h2]
    exact List.pairwise_lt_range' 1 T
  · obtain ⟨bs, p', e, -, h2⟩ := key TOTAL_ROWS BATCH_SIZE (by decide)
    exact ⟨bs, p', e, h2⟩

/-- Witness for C13: 5 rows in batches of 2. -/
theorem identifiers_ascending_witness :
    ∃ bs p', populate plainWorld 5 2 { drawn := 0, reads := 0, clock := 0 } = some (bs, p') ∧
      bs.flatten.map (fun r => r.headD "") = (List.range' 1 5).map number ∧
      bs.flatten.map (fun r => parseDecimal (r.headD "").data) = List.range' 1 5 ∧
      List.Pairwise (fun a b => a < b)
        (bs.flatten.map (fun r => parseDecimal (r.headD "").data)) :=
  (identifiers_ascending plainWorld (fun _ => rfl) 5 2 (by decide)
    { drawn := 0, reads := 0, clock := 0 }).1

end Example

namespace Example

/-- C14, as stated, fails: with the same draws and the clock starting at 0, the
10000 rows built in batches of 500 and in batches of 50 differ.  The last row is
built at 190 ms in the first run and at 1990 ms in the second, after 19 and 199
sleeps of 10 ms, so its timestamp field differs. -/
theorem timestamps_depend_on_batch_size :
    (populate plainWorld TOTAL_ROWS 500 { drawn := 0, reads := 0, clock := 0 }).map
        (fun r => r.1.flatten)
      ≠ (populate plainWorld TOTAL_ROWS 50 { drawn := 0, reads := 0, clock := 0 }).map
        (fun r => r.1.flatten) := by
  obtain ⟨bs1, p1, e1, -, h1⟩ := populate_quiet plainWorld (fun _ => rfl) TOTAL_ROWS 500
    (by decide) { drawn := 0, reads := 0, clock := 0 }
  obtain ⟨bs2, p2, e2, -, h2⟩ := populate_quiet plainWorld (fun _ => rfl) TOTAL_ROWS 50
    (by decide) { drawn := 0, reads := 0, clock := 0 }
  rw [e1, e2]
  simp only [Option.map_some', ne_eq, Option.some.injEq]
  rw [h1, h2]
  intro h
  have h9 := congrArg (fun l => l.get? 9999) h
  simp only [List.get?_eq_getElem?, List.getElem?_map] at h9
  rw [List.getElem?_range (by decide)] at h9
  simp only [Option.map_some', Option.some.injEq] at h9
  revert h9
  decide

/-- C14, amended: without cancellation and for the same draws, for any two
positive batch sizes the task ends, and the rows of the two runs, put one after
the other in delivery order, agree in number, order, identifier, label, value
and status.  In each run row j is built from the draws 3j, 3j + 1, 3j + 2 after
the start and from the clock of its batch, start + 10 ms times (j / B); the
timestamp field alone depends on the batch size. -/
theorem rows_independent_of_batch_size (w : World) (hq : ∀ n, w.cancelled n = false)
    (T B1 B2 : Nat) (h1 : 0 < B1) (h2 : 0 < B2) (p : Producer) :
    ∃ bs1 p1 bs2 p2,
      populate w T B1 p = some (bs1, p1) ∧ populate w T B2 p = some (bs2, p2) ∧
      bs1.flatten = (List.range T).map (fun j =>
        fieldsOf w j (p.drawn + 3 * j) (p.clock + 10 * ((j / B1 : Nat) : Int))) ∧
      bs2.flatten = (List.range T).map (fun j =>
        fieldsOf w j (p.drawn + 3 * j) (p.clock + 10 * ((j / B2 : Nat) : Int))) ∧
      bs1.flatten.map withoutTimestamp = bs2.flatten.map withoutTimestamp := by
  obtain ⟨bs1, p1, e1, -, j1⟩ := populate_quiet w hq T B1 h1 p
  obtain ⟨bs2, p2, e2, -, j2⟩ := populate_quiet w hq T B2 h2 p
  refine ⟨bs1, p1, bs2, p2, e1, e2, j1, j2, ?_⟩
  rw [j1, j2, List.map_map, List.map_map]
  apply List.map_congr_left
  intro j _
  exact fieldsOf_withoutTimestamp w j _ _ _

/-- Witness for C14 amended: the constants of the source against batches of 50. -/
theorem rows_independent_of_batch_size_witness :
    ∃ bs1 p1 bs2 p2,
      populate plainWorld TOTAL_ROWS 500 { drawn := 0, reads := 0, clock := 0 } = some (bs1, p1) ∧
      populate plainWorld TOTAL_ROWS 50 { drawn := 0, reads := 0, clock := 0 } = some (bs2, p2) ∧
      bs1.flatten.map withoutTimestamp = bs2.flatten.map withoutTimestamp :=
  have ⟨bs1, p1, bs2, p2, e1, e2, _, _, h⟩ :=
    rows_independent_of_batch_size plainWorld (fun _ => rfl) TOTAL_ROWS 500 50
      (by decide) (by decide) { drawn := 0, reads := 0, clock := 0 }
  ⟨bs1, p1, bs2, p2, e1, e2, h⟩

end Example

namespace Example

section Table

theorem setItem_spec (t : QTableWidget) (row col : Nat) (it : QTableWidgetItem) :
    (t.setItem row col it).rowCount = t.rowCount ∧
    (t.setItem row col it).columnCount = t.columnCount ∧
    ∀ r c, (t.setItem row col it).item r c
      = if r = row ∧ c = col ∧ row < t.rowCount ∧ col < t.columnCount then some it
        else t.item r c := by
  unfold QTableWidget.setItem
  by_cases h : row < t.rowCount ∧ col < t.columnCount
  · rw [if_pos h]
    refine ⟨rfl, rfl, ?_⟩
    intro r c
    by_cases h1 : r = row ∧ c = col
    · simp [h1, h.1, h.2]
    · have : ¬ (r = row ∧ c = col ∧ row < t.rowCount ∧ col < t.columnCount) :=
        fun x => h1 ⟨x.1, x.2.1⟩
      simp only [h1, this, if_false]
  · rw [if_neg h]
    refine ⟨rfl, rfl, ?_⟩
    intro r c
    rw [if_neg]
    exact fun x => h ⟨x.2.2.1, x.2.2.2⟩

/-- The cells after setting the columns below `n` of one row. -/
theorem fill_columns (row : Nat) (mk : Nat → QTableWidgetItem) (t : QTableWidget) (n : Nat) :
    ((List.range n).foldl (fun t col => t.setItem row col (mk col)) t).rowCount = t.rowCount ∧
    ((List.range n).foldl (fun t col => t.setItem row col (mk col)) t).columnCount
      = t.columnCount ∧
    ∀ r c, ((List.range n).foldl (fun t col => t.setItem row col (mk col)) t).item r c
      = if r = row ∧ c < n ∧ row < t.rowCount ∧ c < t.columnCount then some (mk c)
        else t.item r c := by
  induction n with
  | zero => simp
  | succ k ih =>
    obtain ⟨i1, i2, i3⟩ := ih
    rw [List.range_succ, List.foldl_append, List.foldl_cons, List.foldl_nil]
    obtain ⟨s1, s2, s3⟩ := setItem_spec
      ((List.range k).foldl (fun t col => t.setItem row col (mk col)) t) row k (mk k)
    refine ⟨by rw [s1, i1], by rw [s2, i2], ?_⟩
    intro r c
    rw [s3, i1, i2, i3]
    by_cases h1 : r = row ∧ c = k ∧ row < t.rowCount ∧ k < t.columnCount
    · obtain ⟨rfl, rfl, h3, h4⟩ := h1
      simp [h3, h4]
    · rw [if_neg h1]
      by_cases h2 : r = row ∧ c < k ∧ row < t.rowCount ∧ c < t.columnCount
      · rw [if_pos h2, if_pos ⟨h2.1, by omega, h2.2.2⟩]
      · rw [if_neg h2, if_neg]
        rintro ⟨a, b, c', d⟩
        have : c ≠ k := fun e => h1 ⟨a, e, c', e ▸ d⟩
        exact h2 ⟨a, by omega, c', d⟩

theorem fillRow_spec (rowData : Row) (row : Nat) (t : QTableWidget) :
    (fillRow rowData row t).rowCount = t.rowCount ∧
    (fillRow rowData row t).columnCount = t.columnCount ∧
    ∀ r c, (fillRow rowData row t).item r c
      = if r = row ∧ c < min rowData.length t.columnCount ∧ row < t.rowCount then
          some (makeItem c (rowData.getD c ""))
        else t.item r c := by
  obtain ⟨a, b, h⟩ := fill_columns row (fun col => makeItem col (rowData.getD col "")) t
    (min rowData.length t.columnCount)
  refine ⟨a, b, ?_⟩
  intro r c
  unfold fillRow
  rw [h]
  by_cases h2 : r = row ∧ c < min rowData.length t.columnCount ∧ row < t.rowCount
  · rw [if_pos h2, if_pos ⟨h2.1, h2.2.1, h2.2.2, by have := h2.2.1; omega⟩]
  · rw [if_neg h2, if_neg]
    rintro ⟨a', b', c', -⟩
    exact h2 ⟨a', b', c'⟩

/-- The cells after filling the rows `start`, ..., `start + m - 1`. -/
theorem fill_rows (rows : List Row) (start : Nat) (t : QTableWidget) (m : Nat) :
    ((List.range m).foldl (fun t i => fillRow (rows.getD i []) (start + i) t) t).rowCount
      = t.rowCount ∧
    ((List.range m).foldl (fun t i => fillRow (rows.getD i []) (start + i) t) t).columnCount
      = t.columnCount ∧
    ∀ r c, ((List.range m).foldl (fun t i => fillRow (rows.getD i []) (start + i) t) t).item r c
      = if start ≤ r ∧ r - start < m ∧ r < t.rowCount ∧
            c < min (rows.getD (r - start) []).length t.columnCount then
          some (makeItem c ((rows.getD (r - start) []).getD c ""))
        else t.item r c := by
  induction m with
  | zero => simp
  | succ k ih =>
    obtain ⟨i1, i2, i3⟩ := ih
    rw [List.range_succ, List.foldl_append, List.foldl_cons, List.foldl_nil]
    obtain ⟨f1, f2, f3⟩ := fillRow_spec (rows.getD k []) (start + k)
      ((List.range k).foldl (fun t i => fillRow (rows.getD i []) (start + i) t) t)
    refine ⟨by rw [f1, i1], by rw [f2, i2], ?_⟩
    intro r c
    rw [f3, i1, i2, i3]
    by_cases hr : r = start + k
    · subst hr
      have e : start + k - start = k := by omega
      simp only [e]
      by_cases hc : c < min (rows.getD k []).length t.columnCount ∧ start + k < t.rowCount
      · rw [if_pos ⟨trivial, hc.1, hc.2⟩, if_pos ⟨by omega, by omega, hc.2, hc.1⟩]
      · rw [if_neg (fun h => hc ⟨h.2.1, h.2.2⟩), if_neg (fun h => by omega),
          if_neg (fun h => hc ⟨h.2.2.2, h.2.2.1⟩)]
    · rw [if_neg (fun h => hr h.1)]
      by_cases h2 : start ≤ r ∧ r - start < k ∧ r < t.rowCount ∧
          c < min (rows.getD (r - start) []).length t.columnCount
      · rw [if_pos h2, if_pos ⟨h2.1, by omega, h2.2.2⟩]
      · rw [if_neg h2, if_neg]
        rintro ⟨a, b, c', d⟩
        exact h2 ⟨a, by omega, c', d⟩

/-- What `addTableRowsBatch` leaves in the table. -/
theorem addTableRowsBatch_spec (t : QTableWidget) (rows : List Row) :
    (addTableRowsBatch t rows).rowCount = t.rowCount + rows.length ∧
    (addTableRowsBatch t rows).columnCount = t.columnCount ∧
    (∀ r c, r < t.rowCount → (addTableRowsBatch t rows).item r c = t.item r c) ∧
    (∀ i c, i < rows.length →
      (addTableRowsBatch t rows).item (t.rowCount + i) c
        = rowCell t.columnCount (rows.getD i []) c) := by
  obtain ⟨f1, f2, f3⟩ := fill_rows rows t.rowCount (t.setRowCount (t.rowCount + rows.length))
    rows.length
  unfold addTableRowsBatch
  simp only
  refine ⟨by rw [f1]; rfl, by rw [f2]; rfl, ?_, ?_⟩
  · intro r c hr
    rw [f3, if_neg (by omega)]
    simp [QTableWidget.setRowCount, hr]
    omega
  · intro i c hi
    rw [f3]
    have e : t.rowCount + i - t.rowCount = i := by omega
    simp only [e, QTableWidget.setRowCount, rowCell]
    by_cases hc : c < min (rows.getD i []).length t.columnCount
    · rw [if_pos ⟨by omega, hi, by omega, hc⟩, if_pos hc]
    · rw [if_neg (fun h => hc h.2.2.2), if_neg hc, if_neg (by omega)]

/-- Integrating batches one after the other appends their rows in order. -/
theorem integrateAll_spec (bs : List (List Row)) :
    ∀ t : QTableWidget,
      (integrateAll t bs).rowCount = t.rowCount + bs.flatten.length ∧
      (integrateAll t bs).columnCount = t.columnCount ∧
      (∀ r c, r < t.rowCount → (integrateAll t bs).item r c = t.item r c) ∧
      (∀ j c, j < bs.flatten.length →
        (integrateAll t bs).item (t.rowCount + j) c
          = rowCell t.columnCount (bs.flatten.getD j []) c) := by
  induction bs with
  | nil => intro t; simp [integrateAll]
  | cons b rest ih =>
    intro t
    obtain ⟨a1, a2, a3, a4⟩ := addTableRowsBatch_spec t b
    obtain ⟨b1, b2, b3, b4⟩ := ih (addTableRowsBatch t b)
    have e : integrateAll t (b :: rest) = integrateAll (addTableRowsBatch t b) rest := rfl
    rw [e, List.flatten_cons, List.length_append]
    refine ⟨by rw [b1, a1]; omega, by rw [b2, a2], ?_, ?_⟩
    · intro r c hr
      rw [b3 r c (by omega), a3 r c hr]
    · intro j c hj
      by_cases hlt : j < b.length
      · rw [b3 _ c (by omega), a4 j c hlt]
        congr 1
        simp [List.getD_eq_getElem?_getD, List.getElem?_append_left hlt]
      · have e2 : t.rowCount + j = (addTableRowsBatch t b).rowCount + (j - b.length) := by
          rw [a1]; omega
        rw [e2, b4 (j - b.length) c (by omega), a2]
        congr 1
        simp [List.getD_eq_getElem?_getD, List.getElem?_append_right (Nat.le_of_not_lt hlt)]

end Table

end Example

namespace Example

section Stored

theorem fieldsOf_cell (w : World) (row drawn : Nat) (clock : Int) :
    (rowCell 5 (fieldsOf w row drawn clock) 0).map (fun it => it.text)
      = some (number (row + 1)) := rfl

end Stored

/-- C16: `addTableRowsBatch` on a table of r rows and a batch of k rows leaves
r + k rows; row r + i holds, in its first min(columnCount, number of fields)
columns, items whose texts are the fields of batch row i in field order, and no
item beyond; the rows 0..r-1 are as before.  Hence integrating the batches of an
uncancelled `taskPopulateDataTable` run in delivery order into the empty
5-column table stores T rows whose first column reads 1, 2, ..., T. -/
theorem addTableRowsBatch_appends (t : QTableWidget) (rows : List Row) (w : World)
    (hq : ∀ n, w.cancelled n = false) (T B : Nat) (hb : 0 < B) (p : Producer) :
    (addTableRowsBatch t rows).rowCount = t.rowCount + rows.length ∧
    (addTableRowsBatch t rows).columnCount = t.columnCount ∧
    (∀ i c, i < rows.length → c < min t.columnCount (rows.getD i []).length →
      ((addTableRowsBatch t rows).item (t.rowCount + i) c).map (fun it => it.text)
        = some ((rows.getD i []).getD c "")) ∧
    (∀ i c, i < rows.length → min t.columnCount (rows.getD i []).length ≤ c →
      (addTableRowsBatch t rows).item (t.rowCount + i) c = none) ∧
    (∀ r c, r < t.rowCount → (addTableRowsBatch t rows).item r c = t.item r c) ∧
    (∃ bs p', populate w T B p = some (bs, p') ∧
      (integrateAll emptyTable bs).rowCount = T ∧
      ∀ j, j < T →
        ((integrateAll emptyTable bs).item j 0).map (fun it => it.text)
          = some (number (j + 1))) := by
  obtain ⟨a1, a2, a3, a4⟩ := addTableRowsBatch_spec t rows
  refine ⟨a1, a2, ?_, ?_, a3, ?_⟩
  · intro i c hi hc
    rw [a4 i c hi, rowCell, if_pos (by rw [min_comm]; exact hc)]
    rfl
  · intro i c hi hc
    rw [a4 i c hi, rowCell, if_neg (by rw [min_comm]; omega)]
  · obtain ⟨bs, p', e, -, hj⟩ := populate_quiet w hq T B hb p
    obtain ⟨b1, -, -, b4⟩ := integrateAll_spec bs emptyTable
    have hl : bs.flatten.length = T := by rw [hj]; simp
    refine ⟨bs, p', e, by rw [b1, hl]; exact Nat.zero_add T, ?_⟩
    intro j hjT
    have := b4 j 0 (by rw [hl]; exact hjT)
    have e0 : emptyTable.rowCount + j = j := Nat.zero_add j
    rw [e0] at this
    rw [this, hj]
    have eg : ((List.range T).map (fun j =>
        fieldsOf w j (p.drawn + 3 * j) (p.clock + 10 * ((j / B : Nat) : Int)))).getD j []
        = fieldsOf w j (p.drawn + 3 * j) (p.clock + 10 * ((j / B : Nat) : Int)) := by
      simp [List.getD_eq_getElem?_getD, List.getElem?_range hjT]
    rw [eg]
    exact fieldsOf_cell w j _ _

/-- Witness for C16: one batch of two rows added to the empty table, and 5 rows
integrated in batches of 2. -/
theorem addTableRowsBatch_appends_witness :
    (addTableRowsBatch emptyTable [["1", "Item_00001"], ["2", "Item_00002"]]).rowCount
      = emptyTable.rowCount + 2 :=
  (addTableRowsBatch_appends emptyTable [["1", "Item_00001"], ["2", "Item_00002"]] plainWorld
    (fun _ => rfl) 5 2 (by decide) { drawn := 0, reads := 0, clock := 0 }).1

end Example

namespace Example

section HandOff

/-- Every move keeps the hand-off in step: either the worker is blocked with
exactly one call queued and one batch more built than integrated, or nothing is
queued and as many batches were integrated as built. -/
theorem move_keeps_sync (w : World) (T B : Nat) (party : Party) (s : Streaming)
    (h : (s.pc = WorkerAt.blocked ∧ s.posted.length = 1 ∧ s.generated = s.integrated + 1) ∨
      (s.pc ≠ WorkerAt.blocked ∧ s.posted = [] ∧ s.generated = s.integrated)) :
    ((party.move w T B s).pc = WorkerAt.blocked ∧ (party.move w T B s).posted.length = 1 ∧
        (party.move w T B s).generated = (party.move w T B s).integrated + 1) ∨
      ((party.move w T B s).pc ≠ WorkerAt.blocked ∧ (party.move w T B s).posted = [] ∧
        (party.move w T B s).generated = (party.move w T B s).integrated) := by
  obtain ⟨i, pc, p, g, posted, n, t⟩ := s
  simp only at h
  cases party with
  | worker =>
    rcases h with ⟨h1, h2, h3⟩ | ⟨h1, h2, h3⟩
    · subst h1
      exact Or.inl ⟨rfl, h2, h3⟩
    · subst h2
      cases pc with
      | blocked => exact absurd rfl h1
      | returned => exact Or.inr ⟨by simp [Party.move, workerMove], rfl, h3⟩
      | afterInvoke => exact Or.inr ⟨by simp [Party.move, workerMove], rfl, h3⟩
      | loopHead =>
        simp only [Party.move, workerMove, handOff]
        by_cases hi : i < T
        · by_cases hc : w.cancelled p.reads = true
          · simp [hi, hc, h3]
          · simp [hi, hc, h3]
        · simp [hi, h3]
  | mainThread =>
    rcases h with ⟨h1, h2, h3⟩ | ⟨h1, h2, h3⟩
    · subst h1
      match posted, h2 with
      | [b], _ =>
        right
        simp [Party.move, mainMove]
        omega
    · subst h2
      exact Or.inr ⟨h1, rfl, h3⟩

theorem runParties_snoc (w : World) (T B : Nat) (s : Streaming) (ms : List Party) (m : Party) :
    runParties w T B s (ms ++ [m]) = m.move w T B (runParties w T B s ms) := by
  simp [runParties, List.foldl_append]

theorem run_keeps_sync (w : World) (T B : Nat) (p : Producer) (t : QTableWidget)
    (ms : List Party) :
    ((runParties w T B (startStreaming p t) ms).pc = WorkerAt.blocked ∧
        (runParties w T B (startStreaming p t) ms).posted.length = 1 ∧
        (runParties w T B (startStreaming p t) ms).generated
          = (runParties w T B (startStreaming p t) ms).integrated + 1) ∨
      ((runParties w T B (startStreaming p t) ms).pc ≠ WorkerAt.blocked ∧
        (runParties w T B (startStreaming p t) ms).posted = [] ∧
        (runParties w T B (startStreaming p t) ms).generated
          = (runParties w T B (startStreaming p t) ms).integrated) := by
  induction ms using List.reverseRecOn with
  | nil => exact Or.inr ⟨by simp [runParties, startStreaming, atLoopHead], rfl, rfl⟩
  | append_singleton pre m ih =>
    rw [runParties_snoc]
    exact move_keeps_sync w T B m _ ih

theorem iterate_tick_add (w : World) (T B : Nat) (m n : Nat) (s : Streaming) :
    (tick w T B)^[m + n] s = (tick w T B)^[n] ((tick w T B)^[m] s) := by
  rw [Nat.add_comm, Function.iterate_add_apply]

/-- The two threads, moving whenever they can, carry out the loop `batchLoop`:
when the loop ends with the batches `bs`, the worker returns after finitely many
moves in the same final state, every batch has been integrated, and the table
holds the batches in the order in which they were built. -/
theorem threads_agree_with_loop (w : World) (T B : Nat) (fuel : Nat) :
    ∀ (i : Nat) (p : Producer) (g : Nat) (t : QTableWidget) (bs : List (List Row))
      (p' : Producer), batchLoop w T B fuel i p = some (bs, p') →
      ∃ m, ((tick w T B)^[m] (atLoopHead i p g t)).pc = WorkerAt.returned ∧
        ((tick w T B)^[m] (atLoopHead i p g t)).producer = p' ∧
        ((tick w T B)^[m] (atLoopHead i p g t)).generated = g + bs.length ∧
        ((tick w T B)^[m] (atLoopHead i p g t)).integrated = g + bs.length ∧
        ((tick w T B)^[m] (atLoopHead i p g t)).posted = [] ∧
        ((tick w T B)^[m] (atLoopHead i p g t)).table = integrateAll t bs := by
  induction fuel with
  | zero => intro i p g t bs p' h; simp [batchLoop] at h
  | succ k ih =>
    intro i p g t bs p' h
    simp only [batchLoop] at h
    by_cases hi : i < T
    · rw [if_pos hi] at h
      by_cases hc : w.cancelled p.reads = true
      · rw [if_pos hc] at h
        simp only [Option.some.injEq, Prod.mk.injEq] at h
        obtain ⟨rfl, rfl⟩ := h
        exact ⟨1, by simp [atLoopHead, tick, workerMove, hi, hc, integrateAll]⟩
      · rw [if_neg hc] at h
        cases hgen : generateBatch w (min (i + B) T - i) i { p with reads := p.reads + 1 } with
        | mk batch p1 =>
          rw [hgen] at h
          simp only at h
          cases hrest : batchLoop w T B k (i + B) { p1 with clock := p1.clock + 10 } with
          | none => rw [hrest] at h; simp at h
          | some res =>
            obtain ⟨rest, p3⟩ := res
            rw [hrest] at h
            simp only [Option.some.injEq, Prod.mk.injEq] at h
            obtain ⟨rfl, rfl⟩ := h
            obtain ⟨m, h1, h2, h3, h4, h5, h6⟩ :=
              ih (i + B) { p1 with clock := p1.clock + 10 } (g + 1) (addTableRowsBatch t batch)
                rest p3 hrest
            have three : (tick w T B)^[3] (atLoopHead i p g t)
                = atLoopHead (i + B) { p1 with clock := p1.clock + 10 } (g + 1)
                    (addTableRowsBatch t batch) := by
              simp [atLoopHead, tick, workerMove, mainMove, handOff, hi, hc, hgen]
            refine ⟨3 + m, ?_⟩
            rw [iterate_tick_add, three]
            refine ⟨h1, h2, ?_, ?_, h5, ?_⟩
            · rw [h3, List.length_cons]; omega
            · rw [h4, List.length_cons]; omega
            · rw [h6]; rfl
    · rw [if_neg hi] at h
      simp only [Option.some.injEq, Prod.mk.injEq] at h
      obtain ⟨rfl, rfl⟩ := h
      exact ⟨1, by simp [atLoopHead, tick, workerMove, hi, integrateAll]⟩

end HandOff

end Example

namespace Example

/-- With `Qt::QueuedConnection` in place of the blocking connection the worker
would run ahead: after four worker moves two batches are built and none is
integrated. -/
theorem queued_connection_overruns :
    ([0, 1, 2, 3].foldl
      (fun st (_ : Nat) => workerMove ConnectionType.QueuedConnection plainWorld 5 2 st)
      (startStreaming { drawn := 0, reads := 0, clock := 0 } emptyTable)).generated = 2 ∧
    ([0, 1, 2, 3].foldl
      (fun st (_ : Nat) => workerMove ConnectionType.QueuedConnection plainWorld 5 2 st)
      (startStreaming { drawn := 0, reads := 0, clock := 0 } emptyTable)).integrated = 0 := by
  decide

/-- C15: in `taskPopulateDataTable`, whatever the order in which the worker and
the main thread move, and with or without cancellation, the number of batches
built is the number integrated plus the number of queued calls, which is at
most one; a worker move builds a batch only in a state where every batch built
so far has been integrated.  When the loop of the task ends with the batches
`bs`, the two threads reach the end of the task after finitely many moves with
all of `bs` integrated in order. -/
theorem handoff_is_synchronous (w : World) (T B : Nat) (p : Producer) (t : QTableWidget)
    (ms : List Party) :
    (runParties w T B (startStreaming p t) ms).generated
      ≤ (runParties w T B (startStreaming p t) ms).integrated + 1 ∧
    (runParties w T B (startStreaming p t) ms).generated
      = (runParties w T B (startStreaming p t) ms).integrated
        + (runParties w T B (startStreaming p t) ms).posted.length ∧
    ((Party.move w T B Party.worker (runParties w T B (startStreaming p t) ms)).generated
        = (runParties w T B (startStreaming p t) ms).generated ∨
      (runParties w T B (startStreaming p t) ms).generated
        = (runParties w T B (startStreaming p t) ms).integrated) ∧
    (∀ bs p', populate w T B p = some (bs, p') →
      ∃ m, ((tick w T B)^[m] (startStreaming p t)).pc = WorkerAt.returned ∧
        ((tick w T B)^[m] (startStreaming p t)).generated = bs.length ∧
        ((tick w T B)^[m] (startStreaming p t)).integrated = bs.length ∧
        ((tick w T B)^[m] (startStreaming p t)).table = integrateAll t bs) := by
  refine ⟨?_, ?_, ?_, ?_⟩
  · rcases run_keeps_sync w T B p t ms with ⟨-, -, h⟩ | ⟨-, -, h⟩ <;> omega
  · rcases run_keeps_sync w T B p t ms with ⟨-, h1, h⟩ | ⟨-, h1, h⟩
    · rw [h1, h]
    · rw [h1, h]; rfl
  · rcases run_keeps_sync w T B p t ms with ⟨h0, -, -⟩ | ⟨-, -, h⟩
    · left
      simp [Party.move, workerMove, h0]
    · exact Or.inr h
  · intro bs p' h
    obtain ⟨m, h1, -, h3, h4, -, h6⟩ := threads_agree_with_loop w T B (T + 1) 0 p 0 t bs p' h
    exact ⟨m, h1, by simpa using h3, by simpa using h4, h6⟩

/-- Witness for C15: 5 rows in batches of 2. -/
theorem handoff_is_synchronous_witness :
    ∃ bs p' m,
      populate plainWorld 5 2 { drawn := 0, reads := 0, clock := 0 } = some (bs, p') ∧
      ((tick plainWorld 5 2)^[m]
        (startStreaming { drawn := 0, reads := 0, clock := 0 } emptyTable)).integrated
          = bs.length :=
  have ⟨bs, p', e, _, _⟩ := populate_quiet plainWorld (fun _ => rfl) 5 2 (by decide)
    { drawn := 0, reads := 0, clock := 0 }
  have ⟨m, _, _, h, _⟩ :=
    (handoff_is_synchronous plainWorld 5 2 { drawn := 0, reads := 0, clock := 0 } emptyTable
      []).2.2.2 bs p' e
  ⟨bs, p', m, e, h⟩

end Example

namespace Splash

open SplashScreenWidget

section Bounce

theorem wrapInt_of_int (x : Int) (h1 : -2147483648 ≤ x) (h2 : x ≤ 2147483647) :
    wrapInt x = x := by
  unfold wrapInt
  omega

theorem updateBouncingProgress_position (s : SplashScreenWidget) :
    s.updateBouncingProgress.m_progressPosition =
      (let pos := wrapInt (s.m_progressPosition + wrapInt (BOUNCE_STEP * s.m_bounceDirection))
       if pos ≥ 100 then 100 else if pos ≤ 0 then 0 else pos) := by
  unfold updateBouncingProgress
  simp only [SplashScreenWidget.log]
  split_ifs <;> rfl

theorem updateBouncingProgress_direction (s : SplashScreenWidget) :
    s.updateBouncingProgress.m_bounceDirection =
      (let pos := wrapInt (s.m_progressPosition + wrapInt (BOUNCE_STEP * s.m_bounceDirection))
       if pos ≥ 100 then -1 else if pos ≤ 0 then 1 else s.m_bounceDirection) := by
  unfold updateBouncingProgress
  simp only [SplashScreenWidget.log]
  split_ifs <;> rfl

/-- The position and the direction `k` ticks after `startBouncingAnimation()`:
on the way up for the first 50 ticks of each 100, on the way down for the rest. -/
theorem bounce_state (s : SplashScreenWidget) (k : Nat) :
    (k % 100 < 50 →
      (updateBouncingProgress^[k] s.startBouncingAnimation).m_progressPosition
          = 2 * ((k % 100 : Nat) : Int) ∧
      (updateBouncingProgress^[k] s.startBouncingAnimation).m_bounceDirection = 1) ∧
    (50 ≤ k % 100 →
      (updateBouncingProgress^[k] s.startBouncingAnimation).m_progressPosition
          = 200 - 2 * ((k % 100 : Nat) : Int) ∧
      (updateBouncingProgress^[k] s.startBouncingAnimation).m_bounceDirection = -1) := by
  induction k with
  | zero =>
    refine ⟨fun _ => ?_, fun h => ?_⟩
    · simp [startBouncingAnimation]
    · simp at h
  | succ n ih =>
    rw [Function.iterate_succ_apply']
    generalize updateBouncingProgress^[n] s.startBouncingAnimation = t at ih
    rw [updateBouncingProgress_position, updateBouncingProgress_direction]
    obtain ⟨up, down⟩ := ih
    by_cases hn : n % 100 < 50
    · obtain ⟨hp, hd⟩ := up hn
      rw [hp, hd]
      have e : wrapInt (BOUNCE_STEP * 1) = 2 := by
        rw [wrapInt_of_int] <;> simp [BOUNCE_STEP]
      rw [e, wrapInt_of_int _ (by omega) (by omega)]
      refine ⟨fun h => ?_, fun h => ?_⟩
      · have h1 : (n + 1) % 100 = n % 100 + 1 := by omega
        simp only [h1]
        split_ifs <;> omega
      · have h1 : n % 100 = 49 := by omega
        have h2 : (n + 1) % 100 = 50 := by omega
        simp only [h1, h2]
        decide
    · obtain ⟨hp, hd⟩ := down (by omega)
      rw [hp, hd]
      have e : wrapInt (BOUNCE_STEP * -1) = -2 := by
        rw [wrapInt_of_int] <;> simp [BOUNCE_STEP]
      rw [e, wrapInt_of_int _ (by omega) (by omega)]
      refine ⟨fun h => ?_, fun h => ?_⟩
      · have h1 : n % 100 = 99 := by omega
        have h2 : (n + 1) % 100 = 0 := by omega
        simp only [h1, h2]
        decide
      · have h1 : (n + 1) % 100 = n % 100 + 1 := by omega
        simp only [h1]
        split_ifs <;> omega

end Bounce

/-- C21: after `startBouncingAnimation()` the fill position after `k` timer
ticks is the triangle wave `|((2k + 100) mod 200) - 100|`, whatever the widget's
state was before: it starts at 0, rises by exactly `BOUNCE_STEP = 2` per tick
during the first 50 ticks of every 100 and reaches 100 at tick 50, falls by
exactly 2 per tick during the other 50, repeats with period 100 ticks, and
always lies in `[0, 100]`. -/
theorem bounce_is_triangle_wave (s : SplashScreenWidget) (k : Nat) :
    bouncePosition s k = |(2 * (k : Int) + 100) % 200 - 100| ∧
    (0 ≤ bouncePosition s k ∧ bouncePosition s k ≤ 100) ∧
    (k % 100 < 50 → bouncePosition s (k + 1) = bouncePosition s k + BOUNCE_STEP) ∧
    (50 ≤ k % 100 → bouncePosition s (k + 1) = bouncePosition s k - BOUNCE_STEP) ∧
    bouncePosition s (k + 100) = bouncePosition s k ∧
    bouncePosition s 0 = 0 ∧ bouncePosition s 50 = 100 ∧ bouncePosition s 100 = 0 := by
  have a := bounce_state s k
  have b := bounce_state s (k + 1)
  have c := bounce_state s (k + 100)
  have z := (bounce_state s 0).1 (by decide)
  have m := (bounce_state s 50).2 (by decide)
  have p := (bounce_state s 100).1 (by decide)
  unfold bouncePosition
  simp only [BOUNCE_STEP]
  generalize (updateBouncingProgress^[k] s.startBouncingAnimation).m_progressPosition = x at a
  generalize (updateBouncingProgress^[k] s.startBouncingAnimation).m_bounceDirection = dx at a
  generalize (updateBouncingProgress^[k + 1] s.startBouncingAnimation).m_progressPosition = y at b
  generalize (updateBouncingProgress^[k + 1] s.startBouncingAnimation).m_bounceDirection = dy at b
  generalize (updateBouncingProgress^[k + 100] s.startBouncingAnimation).m_progressPosition
    = w at c
  generalize (updateBouncingProgress^[k + 100] s.startBouncingAnimation).m_bounceDirection
    = dw at c
  refine ⟨?_, ?_, ?_, ?_, ?_, ?_, ?_, ?_⟩
  · rcases abs_cases ((2 * (k : Int) + 100) % 200 - 100) with ⟨h, _⟩ | ⟨h, _⟩ <;>
      rw [h] <;> omega
  · omega
  · omega
  · omega
  · omega
  · exact z.1.trans (by decide)
  · exact m.1.trans (by decide)
  · exact p.1.trans (by decide)

/-- The triangle wave at tick 51: the position is 98, and the next tick
lowers it to 96. -/
theorem bounce_is_triangle_wave_witness :
    50 ≤ 51 % 100 ∧ bouncePosition construct 51 = 98 ∧
    bouncePosition construct 52 = bouncePosition construct 51 - BOUNCE_STEP :=
  ⟨by decide,
   by rw [(bounce_is_triangle_wave construct 51).1]; decide,
   (bounce_is_triangle_wave construct 51).2.2.2.1 (by decide)⟩

end Splash

namespace Splash

open SplashScreenWidget

section Progress

theorem qBound_bounds (step total : Int) (h : 0 ≤ total) :
    0 ≤ qBound 0 step total ∧ qBound 0 step total ≤ total := by
  unfold qBound
  omega

theorem qBound_eq (step total : Int) (h : 0 ≤ total) :
    qBound 0 step total = if step < 0 then 0 else if total < step then total else step := by
  unfold qBound
  split_ifs <;> omega

theorem setProgress_currentStep (s : SplashScreenWidget) (step : Int) :
    (s.setProgress step).m_currentStep = qBound 0 step s.m_totalSteps := by
  unfold setProgress
  by_cases hm : s.m_progressMode = ProgressMode.Determinate <;> simp [hm, SplashScreenWidget.log]

theorem setProgress_totalSteps (s : SplashScreenWidget) (step : Int) :
    (s.setProgress step).m_totalSteps = s.m_totalSteps := by
  unfold setProgress
  by_cases hm : s.m_progressMode = ProgressMode.Determinate <;> simp [hm, SplashScreenWidget.log]

/-- What `setProgress(step)` does when `totalSteps >= 0`: the current step is
`step` clamped into `[0, totalSteps]`, and the bar is written and
`progressChanged(current, total)` emitted in Determinate mode and only there. -/
theorem setProgress_clamps (s : SplashScreenWidget) (step : Int) (h : 0 ≤ s.m_totalSteps) :
    (s.setProgress step).m_currentStep
        = (if step < 0 then 0 else if s.m_totalSteps < step then s.m_totalSteps else step) ∧
    (0 ≤ (s.setProgress step).m_currentStep ∧
      (s.setProgress step).m_currentStep ≤ (s.setProgress step).m_totalSteps) ∧
    (s.m_progressMode = ProgressMode.Determinate →
      (s.setProgress step).effects = s.effects ++
        [Effect.barSetValue (qBound 0 step s.m_totalSteps),
         Effect.emitProgressChanged (qBound 0 step s.m_totalSteps) s.m_totalSteps]) ∧
    (s.m_progressMode = ProgressMode.Indeterminate →
      (s.setProgress step).effects = s.effects) := by
  refine ⟨?_, ?_, ?_, ?_⟩
  · rw [setProgress_currentStep, qBound_eq _ _ h]
  · rw [setProgress_currentStep, setProgress_totalSteps]
    exact qBound_bounds _ _ h
  · intro hm
    simp [setProgress, hm, SplashScreenWidget.log]
  · intro hm
    simp [setProgress, hm]

/-- Below `INT_MAX` the increment saturates: a widget whose current step
equals `totalSteps` keeps it. -/
theorem incrementProgress_saturates (s : SplashScreenWidget) (h0 : 0 ≤ s.m_totalSteps)
    (h1 : s.m_totalSteps < INT_MAX) (h : s.m_currentStep = s.m_totalSteps) :
    s.incrementProgress.m_currentStep = s.m_currentStep := by
  unfold incrementProgress
  rw [setProgress_currentStep, h]
  unfold INT_MAX at h1
  rw [wrapInt_of_int _ (by omega) (by omega)]
  unfold qBound
  omega

/-- Below `INT_MAX` the increment adds one while the current step is lower
than `totalSteps`. -/
theorem incrementProgress_adds_one (s : SplashScreenWidget) (h0 : 0 ≤ s.m_currentStep)
    (h1 : s.m_currentStep < s.m_totalSteps) (h2 : s.m_totalSteps ≤ INT_MAX) :
    s.incrementProgress.m_currentStep = s.m_currentStep + 1 := by
  unfold incrementProgress
  rw [setProgress_currentStep]
  unfold INT_MAX at h2
  rw [wrapInt_of_int _ (by omega) (by omega)]
  unfold qBound
  omega

/-- Every progress call keeps `0 <= currentStep <= totalSteps`, except a
`setTotalSteps(n)` with `n` below the current step. -/
theorem apply_keeps_progress_bounds (o : ProgressOp) (s : SplashScreenWidget)
    (h0 : 0 ≤ s.m_currentStep) (h1 : s.m_currentStep ≤ s.m_totalSteps)
    (ho : ∀ n, o = ProgressOp.setTotalSteps n → s.m_currentStep ≤ n) :
    0 ≤ (o.apply s).m_currentStep ∧ (o.apply s).m_currentStep ≤ (o.apply s).m_totalSteps := by
  cases o with
  | setTotalSteps n =>
    have := ho n rfl
    simp only [ProgressOp.apply, setTotalSteps]
    exact ⟨h0, this⟩
  | setProgressMode mode =>
    cases mode <;> simp [ProgressOp.apply, setProgressMode, SplashScreenWidget.log, h0, h1]
  | setProgress step =>
    simp only [ProgressOp.apply]
    rw [setProgress_currentStep, setProgress_totalSteps]
    exact qBound_bounds _ _ (by omega)
  | incrementProgress =>
    simp only [ProgressOp.apply, incrementProgress]
    rw [setProgress_currentStep, setProgress_totalSteps]
    exact qBound_bounds _ _ (by omega)

/-- A `setProgressMode(Indeterminate)` puts a bar whose minimum is 0 into the
state 0 of 0..100. -/
theorem bar_setProgressMode_indeterminate (s : SplashScreenWidget) (h : s.bar.minimum = 0) :
    (s.setProgressMode ProgressMode.Indeterminate).bar = QProgressBar.mk 0 100 0 := by
  have e : (s.setProgressMode ProgressMode.Indeterminate).bar
      = (s.bar.setMaximum 100).setValue 0 := by
    simp [setProgressMode, SplashScreenWidget.bar, SplashScreenWidget.log, List.foldl_append,
      QProgressBar.perform]
  rw [e]
  generalize s.bar = b at h
  obtain ⟨mn, mx, v⟩ := b
  simp only at h
  subst h
  unfold QProgressBar.setMaximum QProgressBar.setRange QProgressBar.setValue
  simp only [QProgressBar.mk.injEq]
  split_ifs
  all_goals simp_all
  all_goals omega

/-- Closing in Indeterminate mode fills a bar whose range is 0..100. -/
theorem bar_checkAndClose_indeterminate (s : SplashScreenWidget)
    (hm : s.m_progressMode = ProgressMode.Indeterminate)
    (h0 : s.bar.minimum = 0) (h1 : s.bar.maximum = 100)
    (he : s.m_minimumDurationElapsed = true) (hf : s.m_finishRequested = true)
    (hc : s.m_isClosed = false) :
    s.checkAndClose.m_isClosed = true ∧ s.checkAndClose.bar = QProgressBar.mk 0 100 100 := by
  have e : s.checkAndClose.bar = s.bar.setValue 100 := by
    simp [checkAndClose, he, hf, hc, hm, stopBouncingAnimation, setStatusMessage,
      SplashScreenWidget.bar, SplashScreenWidget.log, List.foldl_append, QProgressBar.perform]
  refine ⟨by simp [checkAndClose, he, hf, hc, hm, stopBouncingAnimation, setStatusMessage,
    SplashScreenWidget.log], ?_⟩
  rw [e]
  generalize s.bar = b at h0 h1
  obtain ⟨mn, mx, v⟩ := b
  simp only at h0 h1
  subst h0 h1
  unfold QProgressBar.setValue
  simp only [QProgressBar.mk.injEq]
  split_ifs <;> simp_all

end Progress

/-- C22: `incrementProgress()` does not saturate at `totalSteps = INT_MAX`.
With `setTotalSteps(2147483647)`, Determinate mode and `setProgress(2147483647)`
the current step equals `totalSteps`; the next `incrementProgress()` computes
`m_currentStep + 1`, which overflows `int` and wraps to `-2147483648`, so the
clamp gives 0: the current step falls back to 0 and `progressChanged(0, total)`
is emitted. -/
theorem incrementProgress_restarts_at_int_max :
    (runProgressOps [ProgressOp.setTotalSteps 2147483647,
        ProgressOp.setProgressMode ProgressMode.Determinate,
        ProgressOp.setProgress 2147483647]).m_currentStep = 2147483647 ∧
    (runProgressOps [ProgressOp.setTotalSteps 2147483647,
        ProgressOp.setProgressMode ProgressMode.Determinate,
        ProgressOp.setProgress 2147483647]).m_totalSteps = 2147483647 ∧
    wrapInt (2147483647 + 1) = -2147483648 ∧
    (runProgressOps [ProgressOp.setTotalSteps 2147483647,
        ProgressOp.setProgressMode ProgressMode.Determinate,
        ProgressOp.setProgress 2147483647,
        ProgressOp.incrementProgress]).m_currentStep = 0 ∧
    (runProgressOps [ProgressOp.setTotalSteps 2147483647,
        ProgressOp.setProgressMode ProgressMode.Determinate,
        ProgressOp.setProgress 2147483647,
        ProgressOp.incrementProgress]).effects.getLast?
      = some (Effect.emitProgressChanged 0 2147483647) := by
  decide

/-- C23: `setTotalSteps` does not clamp the current step. On a fresh widget
(total 100) `setProgress(50)` followed by `setTotalSteps(10)` leaves the current
step at 50 with `totalSteps = 10`, so `currentStep <= totalSteps` is broken. -/
theorem setTotalSteps_leaves_step_above_total :
    (runProgressOps [ProgressOp.setProgress 50, ProgressOp.setTotalSteps 10]).m_currentStep
      = 50 ∧
    (runProgressOps [ProgressOp.setProgress 50, ProgressOp.setTotalSteps 10]).m_totalSteps
      = 10 ∧
    ¬ ((runProgressOps [ProgressOp.setProgress 50, ProgressOp.setTotalSteps 10]).m_currentStep
      ≤ (runProgressOps [ProgressOp.setProgress 50, ProgressOp.setTotalSteps 10]).m_totalSteps) := by
  decide

/-- C24: `setTotalSteps` writes the bar's maximum in Indeterminate mode too.
After `setProgressMode(Indeterminate)` then `setTotalSteps(8)` the widget is in
Indeterminate mode with bar maximum 8: five ticks after `startSplash()` the
bounce position is 10 while the bar, which ignores values outside its range,
still shows 8; and when the gate closes, `setValue(100)` is ignored, so the bar
ends at value 0 of maximum 8, not full. In the other order the maximum is 100
and the bar is full at close. -/
theorem indeterminate_bar_maximum_follows_setTotalSteps :
    ((construct.setProgressMode ProgressMode.Indeterminate).setTotalSteps 8).m_progressMode
      = ProgressMode.Indeterminate ∧
    ((construct.setProgressMode ProgressMode.Indeterminate).setTotalSteps 8).bar.maximum = 8 ∧
    (updateBouncingProgress^[5]
      ((construct.setProgressMode ProgressMode.Indeterminate).setTotalSteps 8).startSplash
      ).m_progressPosition = 10 ∧
    (updateBouncingProgress^[5]
      ((construct.setProgressMode ProgressMode.Indeterminate).setTotalSteps 8).startSplash
      ).bar = QProgressBar.mk 0 8 8 ∧
    (((construct.setProgressMode ProgressMode.Indeterminate).setTotalSteps 8
      ).startSplash.finishSplash.onMinimumDurationElapsed).m_isClosed = true ∧
    (((construct.setProgressMode ProgressMode.Indeterminate).setTotalSteps 8
      ).startSplash.finishSplash.onMinimumDurationElapsed).bar = QProgressBar.mk 0 8 0 ∧
    (((construct.setTotalSteps 8).setProgressMode ProgressMode.Indeterminate
      ).startSplash.finishSplash.onMinimumDurationElapsed).bar = QProgressBar.mk 0 100 100 := by
  decide

/-- C25: `startSplash()` clears the three gate flags whatever the state was,
so a `finishSplash()` made before it is forgotten: after
`finishSplash(); startSplash()` the finish request is not pending, and whatever
triggers follow, the gate is closed exactly when `finishSplash()` has been
called again and `onMinimumDurationElapsed()` has run, and the close is
scheduled exactly then. -/
theorem startSplash_discards_earlier_finish (s : SplashScreenWidget) (calls : List GateCall) :
    (s.startSplash.m_minimumDurationElapsed = false ∧
      s.startSplash.m_finishRequested = false ∧ s.startSplash.m_isClosed = false) ∧
    s.finishSplash.startSplash.isReadyToClose = false ∧
    ((runCalls s.finishSplash.startSplash calls).m_isClosed = true ↔
      GateCall.finishSplash ∈ calls ∧ GateCall.onMinimumDurationElapsed ∈ calls) ∧
    ((runCalls s.finishSplash.startSplash calls).finishShots
        = s.finishSplash.startSplash.finishShots + 1 ↔
      GateCall.finishSplash ∈ calls ∧ GateCall.onMinimumDurationElapsed ∈ calls) := by
  obtain ⟨f1, f2, f3⟩ := startSplash_flags s.finishSplash
  obtain ⟨_, _, r3, r4⟩ := runCalls_state s.finishSplash.startSplash f1 f2 f3 calls
  refine ⟨startSplash_flags s, ?_, ?_, ?_⟩
  · simp [isReadyToClose, f1, f2]
  · rw [r3]
    simp [bothOccur]
  · rw [r4]
    by_cases hb : bothOccur calls = true
    · rw [if_pos hb]
      simp only [true_iff]
      simpa [bothOccur] using hb
    · rw [if_neg hb]
      constructor
      · intro h
        omega
      · intro h
        exact absurd (by simpa [bothOccur] using h) hb

end Splash
